import Mathlib

/-!
# Verification development for the `transform` package

A shallow embedding of the Go package `transform` (chain.go, parallel.go,
handler.go, transform.go, function.go, struct.go) and proofs of its
specification.

Conventions of the embedding

* A Go `panic` is `Except.error msg`; a returned `error` is `Option GoError`
  (`none` is `nil`).
* Sequential code (handler.go, transform.go) is embedded by explicit state
  passing over a world `W`, instrumented with the list of calls it makes.
* Concurrent code (chain.go, parallel.go) is embedded as a step function on
  the state of the goroutines of one call; a run is a list of actions chosen
  by the scheduler.
-/

namespace Transform

/-! ## Errors -/

/-- Go `error` values. `val` is an error made outside the package (by a
transformer or a handler), `canceled` is what `ctx.Err()` returns once the
context is done, and `errorf pre inner` is the fresh error made by
`fmt.Errorf(pre + "%v", inner)`: its text is `pre` followed by the text of
`inner`. -/
inductive GoError where
  | val (msg : String)
  | canceled
  | errorf (pre : String) (inner : GoError)
  deriving DecidableEq, Repr

/-- The method `Error() string`. -/
def GoError.Error : GoError → String
  | .val msg => msg
  | .canceled => "context canceled"
  | .errorf pre inner => pre ++ inner.Error

/-! ## The Transformer interface and the two composers (transform.go, chain.go, parallel.go) -/

/-- A transformer implemented outside chain.go and parallel.go, described by
what one call `Transform(ctx, v, ch)` does: it sends `outs v` on `ch`, one
value after the other, and then returns `ret v`. When `watchesCtx` holds every
send is a `select` that also waits on `ctx.Done()` and the call returns
`ctx.Err()` when that branch is taken; otherwise the sends are plain
`ch <- x` (as in `chainTest`). -/
structure Member (Ty V : Type) where
  inputType : Ty
  outs : V → List V
  ret : V → Option GoError
  watchesCtx : Bool

/-- Values of the interface type `Transformer`: an implementation from
outside the two composers, a `chain` or a `parallel` (both are
`[]Transformer` in the source). -/
inductive Transformer (Ty V : Type) where
  | impl (m : Member Ty V)
  | chain (c : List (Transformer Ty V))
  | parallel (p : List (Transformer Ty V))

/-- The method `InputType` (chain.go:30, parallel.go:34): a composite answers
with the input type of its element 0; indexing an empty composite panics. -/
def Transformer.InputType {Ty V : Type} : Transformer Ty V → Except String Ty
  | .impl m => .ok m.inputType
  | .chain [] => .error "index out of range [0] with length 0"
  | .chain (t :: _) => t.InputType
  | .parallel [] => .error "index out of range [0] with length 0"
  | .parallel (t :: _) => t.InputType

/-- The constructor `Chain` (chain.go:18). -/
def Chain {Ty V : Type} (ts : List (Transformer Ty V)) : Except String (Transformer Ty V) :=
  match ts with
  | [] => .error "need at least one transformer to chain it"
  | [t] => .ok t
  | _ => .ok (.chain ts)

/-- The loop of `InParallel` (parallel.go:23): the first element whose input
type is not `typ` panics. -/
def InParallel.check {Ty V : Type} [DecidableEq Ty] (typ : Ty) :
    List (Transformer Ty V) → Except String Unit
  | [] => .ok ()
  | t :: rest =>
    match t.InputType with
    | .error msg => .error msg
    | .ok ty =>
      if ty ≠ typ then .error "not all transformers have the same input type"
      else InParallel.check typ rest

/-- The constructor `InParallel` (parallel.go:16). -/
def InParallel {Ty V : Type} [DecidableEq Ty] (ts : List (Transformer Ty V)) :
    Except String (Transformer Ty V) :=
  match ts with
  | [] => .error "need at least one transformer to chain it"
  | [t] => .ok t
  | t0 :: _ =>
    match t0.InputType with
    | .error msg => .error msg
    | .ok typ =>
      match InParallel.check typ ts with
      | .error msg => .error msg
      | .ok () => .ok (.parallel ts)

/-! ## Sequential code: handler.go and transform.go -/

/-- A context as sequential code sees it: whether `ctx.Done()` is closed in
the current world, and what `ctx.Err()` then returns. -/
structure Context (W : Type) where
  Done : W → Bool
  Err : GoError

/-- A transformer as sequential code sees it: one call `Transform(ctx, v, ch)`
changes the world (the sink behind `ch`, any state of the transformer) and
returns an error or nil. -/
structure SeqTransformer (W V Ch Ty : Type) where
  InputType : Ty
  Transform : Context W → V → Ch → W → Option GoError × W

/-- The calls made while a function of handler.go or transform.go runs. -/
inductive Call (W V Ch : Type) where
  | transform (ctx : Context W) (v : V) (ch : Ch)
  | handler (err : GoError)

/-- The struct `errorHandlingTransformer` (handler.go:27). -/
structure errorHandlingTransformer (W V Ch Ty : Type) where
  Transformer : SeqTransformer W V Ch Ty
  errorHandler : GoError → W → Option GoError × W

/-- The constructor `WithErrorHandler` (handler.go:13). -/
def WithErrorHandler {W V Ch Ty : Type} (t : SeqTransformer W V Ch Ty)
    (errorHandler : GoError → W → Option GoError × W) : errorHandlingTransformer W V Ch Ty :=
  { Transformer := t, errorHandler := errorHandler }

/-- The method `errorHandlingTransformer.Transform` (handler.go:33): the
returned error, the world afterwards and the calls made, in order. -/
def errorHandlingTransformer.Transform {W V Ch Ty : Type} (t : errorHandlingTransformer W V Ch Ty)
    (ctx : Context W) (v : V) (ch : Ch) (w : W) : Option GoError × W × List (Call W V Ch) :=
  match t.Transformer.Transform ctx v ch w with
  | (some err, w1) =>
    let r := t.errorHandler err w1
    (r.1, r.2, [Call.transform ctx v ch, Call.handler err])
  | (none, w1) => (none, w1, [Call.transform ctx v ch])

/-- The loop of `All` (transform.go:25) over the items still to come on
`inCh`, which its producer closes after the last one. `pick k` tells whether
the `select` of iteration `k` takes the branch `<-ctx.Done()` when that
branch is ready; `showV` is the `%+v` rendering of a value. -/
def All.loop {W V Ch Ty : Type} (showV : V → String) (ctx : Context W)
    (t : SeqTransformer W V Ch Ty) (outCh : Ch) (pick : Nat → Bool) :
    Nat → List V → W → Option GoError × W × List (Call W V Ch)
  | k, items, w =>
    if ctx.Done w && pick k then (some ctx.Err, w, [])
    else
      match items with
      | [] => (none, w, [])
      | v :: rest =>
        match t.Transform ctx v outCh w with
        | (some err, w1) =>
          (some (.errorf ("transform(" ++ showV v ++ ") error: ") err), w1,
            [Call.transform ctx v outCh])
        | (none, w1) =>
          let r := All.loop showV ctx t outCh pick (k + 1) rest w1
          (r.1, r.2.1, Call.transform ctx v outCh :: r.2.2)

/-- The function `All` (transform.go:24). -/
def All {W V Ch Ty : Type} (showV : V → String) (ctx : Context W)
    (t : SeqTransformer W V Ch Ty) (inCh : List V) (outCh : Ch) (pick : Nat → Bool) (w : W) :
    Option GoError × W × List (Call W V Ch) :=
  All.loop showV ctx t outCh pick 0 inCh w

/-! ## Concurrent code: the goroutines of one call of chain.Transform or parallel.Transform -/

/-- Where the goroutine started at chain.go:37 is: before `ch <- v`, before
the deferred `close(ch)`, or finished. -/
inductive FeederPc where
  | toSend
  | toClose
  | finished
  deriving DecidableEq, Repr

/-- Where a goroutine of the errgroup is. `idle`: in the `select` of
`transformOne` (chain.go:64). `running pending ret`: inside `t.Transform`,
which still has `pending` to send and will then return `ret`. `returned r`:
its function has returned `r` and the deferred `close(outCh)` has run, the
group has not yet taken note. `done`: the group has taken note. -/
inductive Pc (V : Type) where
  | idle
  | running (pending : List V) (ret : Option GoError)
  | returned (r : Option GoError)
  | done
  deriving DecidableEq, Repr

/-- The values a goroutine still has to send. -/
def Pc.pend {V : Type} : Pc V → List V
  | .running pending _ => pending
  | _ => []

/-- The state of one call `Transform(ctx, v, ch)` of a composite: the
goroutines, what the receiver of `ch` has got so far (`sink`), the group's
first error (`err`), whether the group's context is done (`cancelled`), and
two records kept for the proofs: every non-nil error a member's `Transform`
has returned, with the member's index, in order (`failures`), and the index of
the goroutine whose error the group kept (`reporter`). -/
structure CallState (V : Type) where
  feeder : FeederPc
  pcs : List (Pc V)
  sink : List V
  err : Option GoError
  cancelled : Bool
  failures : List (Nat × GoError)
  reporter : Option Nat
  deriving DecidableEq, Repr

/-- The steps the scheduler can choose from. -/
inductive Action where
  | feed
  | feedClose
  | pass (i : Nat)
  | emit (i : Nat)
  | ret (i : Nat)
  | eof (i : Nat)
  | ctxDone (i : Nat)
  | abort (i : Nat)
  | report (i : Nat)
  | cancel
  deriving DecidableEq, Repr

/-- Whether the input channel of stage `i` has been closed: `inCh` of stage 0
by the feeder's deferred close (chain.go:38), `tmp` of a later stage by the
deferred close of the stage before it (chain.go:61). -/
def inputClosed {V : Type} (s : CallState V) : Nat → Bool
  | 0 => s.feeder = .finished
  | i + 1 =>
    match s.pcs[i]? with
    | some (Pc.returned _) => true
    | some Pc.done => true
    | _ => false

/-- The group takes note of the return value `r` of goroutine `i`
(errgroup.Go): the first non-nil error is kept and cancels the group's
context. -/
def noteResult {V : Type} (s : CallState V) (i : Nat) (r : Option GoError) : CallState V :=
  match r, s.err with
  | some e, none =>
    { s with pcs := s.pcs.set i .done, err := some e, cancelled := true, reporter := some i }
  | _, _ => { s with pcs := s.pcs.set i .done }

/-- The state in which `chain.Transform` has started its goroutines
(chain.go:36-51): the feeder holds `v`, every stage waits in its `select`. -/
def chainInit {Ty V : Type} (ms : List (Member Ty V)) : CallState V :=
  { feeder := .toSend, pcs := List.replicate ms.length .idle, sink := [], err := none,
    cancelled := false, failures := [], reporter := none }

/-- One step of a call of `chain.Transform` (chain.go:35) on input `v`.

* `feed`: the feeder's `ch <- v` meets the receive of stage 0, which enters
  `t.Transform`.
* `feedClose`: the feeder's deferred `close(ch)`.
* `pass i`: a send of stage `i`, inside its `t.Transform`, meets the receive
  of stage `i + 1`, which enters its own `t.Transform`.
* `emit i`: a send of the last stage is taken by the receiver of `ch`.
* `ret i`: `t.Transform` of stage `i` returns: on nil the stage is back in
  its `select`; on an error the stage returns
  `fmt.Errorf("transform failed: %v", err)` (chain.go:70).
* `eof i`: the `select` of stage `i` finds its input closed and the stage
  returns nil (chain.go:67).
* `ctxDone i`: the `select` of stage `i` takes `<-ctx.Done()` and the stage
  returns `ctx.Err()` (chain.go:73).
* `abort i`: a send inside `t.Transform` of stage `i`, one that watches the
  context, takes `<-ctx.Done()`; `t.Transform` returns `ctx.Err()`.
* `report i`: the group takes note that stage `i` has returned.
* `cancel`: the caller's context is cancelled from outside. -/
def chainStep {Ty V : Type} (ms : List (Member Ty V)) (v : V) (s : CallState V) :
    Action → Option (CallState V)
  | .feed =>
    match s.feeder, s.pcs[0]?, ms[0]? with
    | FeederPc.toSend, some Pc.idle, some m =>
      some { s with feeder := .toClose, pcs := s.pcs.set 0 (.running (m.outs v) (m.ret v)) }
    | _, _, _ => none
  | .feedClose =>
    match s.feeder with
    | FeederPc.toClose => some { s with feeder := .finished }
    | _ => none
  | .pass i =>
    match s.pcs[i]?, s.pcs[i + 1]?, ms[i + 1]? with
    | some (Pc.running (x :: rest) r), some Pc.idle, some m =>
      some { s with pcs := (s.pcs.set i (.running rest r)).set (i + 1)
                      (.running (m.outs x) (m.ret x)) }
    | _, _, _ => none
  | .emit i =>
    match s.pcs[i]? with
    | some (Pc.running (x :: rest) r) =>
      if i + 1 = ms.length then
        some { s with pcs := s.pcs.set i (.running rest r), sink := s.sink ++ [x] }
      else none
    | _ => none
  | .ret i =>
    match s.pcs[i]? with
    | some (Pc.running [] none) => some { s with pcs := s.pcs.set i .idle }
    | some (Pc.running [] (some e)) =>
      some { s with pcs := s.pcs.set i (.returned (some (.errorf "transform failed: " e))),
                    failures := s.failures ++ [(i, e)] }
    | _ => none
  | .eof i =>
    match s.pcs[i]? with
    | some Pc.idle =>
      if inputClosed s i then some { s with pcs := s.pcs.set i (.returned none) } else none
    | _ => none
  | .ctxDone i =>
    match s.pcs[i]? with
    | some Pc.idle =>
      if s.cancelled then some { s with pcs := s.pcs.set i (.returned (some .canceled)) }
      else none
    | _ => none
  | .abort i =>
    match s.pcs[i]?, ms[i]? with
    | some (Pc.running (_ :: _) _), some m =>
      if m.watchesCtx && s.cancelled then
        some { s with pcs := s.pcs.set i
                        (.returned (some (.errorf "transform failed: " .canceled))),
                      failures := s.failures ++ [(i, .canceled)] }
      else none
    | _, _ => none
  | .report i =>
    match s.pcs[i]? with
    | some (Pc.returned r) => some (noteResult s i r)
    | _ => none
  | .cancel => if s.cancelled then none else some { s with cancelled := true }

/-- The state in which `parallel.Transform` has started its goroutines
(parallel.go:40-44): goroutine `i` is entering `t.Transform(ctx, v, ch)` of
member `i`. -/
def parallelInit {Ty V : Type} (ms : List (Member Ty V)) (v : V) : CallState V :=
  { feeder := .finished, pcs := ms.map (fun m => .running (m.outs v) (m.ret v)), sink := [],
    err := none, cancelled := false, failures := [], reporter := none }

/-- One step of a call of `parallel.Transform` (parallel.go:39).

* `emit i`: a send of member `i` is taken by the receiver of `ch`.
* `ret i`: `t.Transform` of member `i` returns, and with it the goroutine
  (parallel.go:43), with the same value.
* `abort i`: a send of member `i`, one that watches the context, takes
  `<-ctx.Done()`; `t.Transform` returns `ctx.Err()`.
* `report i`: the group takes note that goroutine `i` has returned.
* `cancel`: the caller's context is cancelled from outside. -/
def parallelStep {Ty V : Type} (ms : List (Member Ty V)) (s : CallState V) :
    Action → Option (CallState V)
  | .emit i =>
    match s.pcs[i]? with
    | some (Pc.running (x :: rest) r) =>
      some { s with pcs := s.pcs.set i (.running rest r), sink := s.sink ++ [x] }
    | _ => none
  | .ret i =>
    match s.pcs[i]? with
    | some (Pc.running [] none) => some { s with pcs := s.pcs.set i (.returned none) }
    | some (Pc.running [] (some e)) =>
      some { s with pcs := s.pcs.set i (.returned (some e)),
                    failures := s.failures ++ [(i, e)] }
    | _ => none
  | .abort i =>
    match s.pcs[i]?, ms[i]? with
    | some (Pc.running (_ :: _) _), some m =>
      if m.watchesCtx && s.cancelled then
        some { s with pcs := s.pcs.set i (.returned (some .canceled)),
                      failures := s.failures ++ [(i, .canceled)] }
      else none
    | _, _ => none
  | .report i =>
    match s.pcs[i]? with
    | some (Pc.returned r) => some (noteResult s i r)
    | _ => none
  | .cancel => if s.cancelled then none else some { s with cancelled := true }
  | _ => none

/-- A run: the steps of a schedule taken one after the other (`none` when
one of them is not possible in the state reached). -/
def runFrom {V : Type} (step : CallState V → Action → Option (CallState V)) :
    CallState V → List Action → Option (CallState V)
  | s, [] => some s
  | s, a :: rest =>
    match step s a with
    | none => none
    | some s1 => runFrom step s1 rest

/-- The run of `chain.Transform(ctx, v, ch)` under a schedule. -/
def chainRun {Ty V : Type} (ms : List (Member Ty V)) (v : V) (acts : List Action) :
    Option (CallState V) :=
  runFrom (chainStep ms v) (chainInit ms) acts

/-- The run of `parallel.Transform(ctx, v, ch)` under a schedule. -/
def parallelRun {Ty V : Type} (ms : List (Member Ty V)) (v : V) (acts : List Action) :
    Option (CallState V) :=
  runFrom (parallelStep ms) (parallelInit ms v) acts

/-- `group.Wait()` returns (chain.go:53, parallel.go:45) once every goroutine
of the group is done; the call then returns `s.err`. -/
def CallState.finished {V : Type} (s : CallState V) : Bool :=
  s.pcs.all (fun pc => match pc with
    | .done => true
    | _ => false)

/-! ## The transformer of chain_test.go -/

/-- Go's `int` addition on a 64-bit platform: the sum wraps around. -/
def wrapInt (x : Int) : Int :=
  (x + 9223372036854775808) % 18446744073709551616 - 9223372036854775808

/-- The transformer `chainTest(k)` of chain_test.go: for an input `v` it
sends `v.(int) + 1`, `k` times, with plain sends, and returns nil; its input
type is `int`. -/
def chainTest {Ty : Type} (int : Ty) (k : Nat) : Member Ty Int :=
  { inputType := int
    outs := fun v => List.replicate k (wrapInt (v + 1))
    ret := fun _ => none
    watchesCtx := false }

/-! ## Reflection: function.go and struct.go -/

/-- A `reflect.StructField`: its name, its package path (empty for an
exported field), the value of its `hive` tag when it has one
(`sf.Tag.Lookup("hive")`), and its type. -/
structure StructField (T : Type) where
  Name : String
  PkgPath : String
  Tag : Option String
  Typ : T

/-- A `reflect.Type`: a function type with its parameter and result types, a
struct type with its fields, or a type of another kind, given by its name and
the name of its kind. -/
inductive GoType where
  | named (name : String) (kind : String)
  | func (ins outs : List GoType)
  | struct (fields : List (StructField GoType))

/-- The `%s` rendering of `t.Kind()`. -/
def GoType.kindName : GoType → String
  | .named _ kind => kind
  | .func _ _ => "func"
  | .struct _ => "struct"

/-- The struct `function` (function.go:9); `F` is the type of the callable
held in `f`. -/
structure function (F : Type) where
  inputType : GoType
  f : F
  inputContext : Bool
  outputError : Bool

/-- The method `InputType` (function.go:21). -/
def function.InputType {F : Type} (t : function F) : GoType :=
  t.inputType

/-- The constructor `FromFunction` (function.go:58) on a value `f` of type
`t`; `Except.error e` is the return `nil, e` and `Except.ok tr` the return
`tr, nil`. `implementsContext` and `implementsError` are
`Implements(contextType)` and `Implements(errorType)`, `showType` is the `%s`
rendering of a type. The `switch` on `t.NumIn()` is the `match` on `ins`, the
`switch` on `t.NumOut()` the `match` on `outs`. -/
def FromFunction {F : Type} (implementsContext implementsError : GoType → Bool)
    (showType : GoType → String) (t : GoType) (f : F) : Except GoError (function F) :=
  match t with
  | .func ins outs =>
    let input : Except GoError (GoType × Bool) :=
      match ins with
      | [a] => .ok (a, false)
      | [c, a] =>
        if !implementsContext c then
          .error (.val ("first argument must implement context.Context, got " ++ showType c))
        else .ok (a, true)
      | _ =>
        .error (.val ("function can have either 1 (any) or 2 (ctx, any) input arguments, got "
          ++ toString ins.length))
    match input with
    | .error e => .error e
    | .ok (inputType, inputContext) =>
      match outs with
      | [_] =>
        if inputContext then
          .error (.val
            "function takes in context as input, but doesn't have error in it's output")
        else
          .ok { inputType := inputType, f := f, inputContext := inputContext,
                outputError := false }
      | [_, e] =>
        if !implementsError e then
          .error (.val ("second output must implement error, got " ++ showType e))
        else
          .ok { inputType := inputType, f := f, inputContext := inputContext,
                outputError := true }
      | _ =>
        .error (.val ("function can have either 1 (any) or 2 (any, error) outputs, got "
          ++ toString outs.length))
  | _ => .error (.val ("argument should be a function, got " ++ t.kindName))

/-- Whether values of type `t` can be nil: the kinds on which
`reflect.Value.IsNil` answers. -/
def GoType.nillable (t : GoType) : Bool :=
  ["chan", "func", "interface", "map", "ptr", "slice", "unsafe.Pointer"].contains t.kindName

/-- The method `Out` of the type of a function: the type of result `i`. -/
def GoType.Out : GoType → Nat → Option GoType
  | .func _ outs, i => outs[i]?
  | _, _ => none

/-- An argument handed to `f.Call` (function.go:33): the context, given by
`ctx.Err()` when it is done and `none` while it is not, or the input value. -/
inductive CallArg (V : Type) where
  | ctx (err : Option GoError)
  | value (v : V)

/-- A function value as `reflect` shows it: its type (`f.Type()`) and what
`f.Call(in)` returns, `out[0]` and, for a function with two results, `out[1]`
as an error, `none` being nil; `Except.error` is a panic of the call. A second
result of a type that has no nil is never `none`. -/
structure Callable (V : Type) where
  typ : GoType
  Call : List (CallArg V) → Except String (V × Option GoError)

/-- The call `out[1].IsNil()` (function.go:36) on a result of type `typ` that
holds `second`: `reflect` answers for the kinds that have a nil and panics
for every other kind. -/
def IsNil (typ : GoType) (second : Option GoError) : Except String Bool :=
  if typ.nillable then .ok second.isNone
  else .error ("reflect: call of reflect.Value.IsNil on " ++ typ.kindName ++ " Value")

/-- The method `function.Transform` (function.go:26): the values sent on
`ch` and the returned error, `Except.error` being a panic. `ctxErr` is `none`
while the context is not done and `ctx.Err()` afterwards; `pick` tells
whether the `select` takes `<-ctx.Done()` when that branch is ready. -/
def function.Transform {V : Type} (t : function (Callable V)) (ctxErr : Option GoError)
    (pick : Bool) (v : V) : Except String (List V × Option GoError) :=
  let args : List (CallArg V) :=
    if t.inputContext then [.ctx ctxErr, .value v] else [.value v]
  match t.f.Call args with
  | .error msg => .error msg
  | .ok (first, second) =>
    let send : Except String (List V × Option GoError) :=
      match ctxErr, pick with
      | some err, true => .ok ([], some err)
      | _, _ => .ok ([first], none)
    if t.outputError then
      match t.f.typ.Out 1 with
      | none => .error "index out of range [1]"
      | some errType =>
        match IsNil errType second with
        | .error msg => .error msg
        | .ok false => .ok ([], second)
        | .ok true => send
    else send

/-- The function `GetStructFieldName` (struct.go:127): the `hive` tag when
the field has one, the field's name otherwise, in lower case. `ToLower` is
`strings.ToLower`. -/
def GetStructFieldName (ToLower : String → String) (sf : StructField GoType) : String :=
  let name :=
    match sf.Tag with
    | some tag => tag
    | none => sf.Name
  ToLower name

/-- The first loop of `buildSubtypeAndIdx` (struct.go:94) over the fields
from index `i` on; `sfs` is the map from names to fields and their indices,
`quote` the `%q` rendering of a string. -/
def collectFields (ToLower quote : String → String) :
    List (StructField GoType) → Nat → (String → Option (StructField GoType × Nat)) →
      Except GoError (String → Option (StructField GoType × Nat))
  | [], _, sfs => .ok sfs
  | sf :: rest, i, sfs =>
    if sf.PkgPath ≠ "" then collectFields ToLower quote rest (i + 1) sfs
    else
      match sfs (GetStructFieldName ToLower sf) with
      | some _ =>
        .error (.val ("name " ++ quote (GetStructFieldName ToLower sf) ++
          " found multiple times, probably name and tag clash"))
      | none =>
        collectFields ToLower quote rest (i + 1)
          (fun k => if k = GetStructFieldName ToLower sf then some (sf, i) else sfs k)

/-- The second loop of `buildSubtypeAndIdx` (struct.go:108) over the names
still to resolve: the fields and the indices found, in the order of the
names. -/
def resolveNames (ToLower quote : String → String) :
    List String → (String → Option (StructField GoType × Nat)) →
      Except GoError (List (StructField GoType) × List Nat)
  | [], _ => .ok ([], [])
  | name :: rest, sfs =>
    match sfs (ToLower name) with
    | none => .error (.val ("can't find field with name/tag " ++ quote (ToLower name)))
    | some (sf, idx) =>
      match resolveNames ToLower quote rest
          (fun k => if k = ToLower name then none else sfs k) with
      | .error e => .error e
      | .ok (structFields, idxs) => .ok (sf :: structFields, idx :: idxs)

/-- The function `buildSubtypeAndIdx` (struct.go:80); `reflect.StructOf` of
the fields found is the struct type with these fields. -/
def buildSubtypeAndIdx (ToLower quote : String → String) (typ : GoType)
    (names : List String) : Except GoError (GoType × List Nat) :=
  if names.length = 0 then .error (.val "must provide at least 1 name, got 0")
  else
    match typ with
    | .struct fields =>
      match collectFields ToLower quote fields 0 (fun _ => none) with
      | .error e => .error e
      | .ok sfs =>
        match resolveNames ToLower quote names sfs with
        | .error e => .error e
        | .ok (structFields, idx) => .ok (.struct structFields, idx)
    | _ => .error (.val ("type needs to be struct, got " ++ typ.kindName))

/-- The struct `structTransformer` (struct.go:11). -/
structure structTransformer where
  inputType : GoType
  outputType : GoType
  idx : List Nat
  idxReversed : Bool

/-- The method `InputType` (struct.go:23). -/
def structTransformer.InputType (t : structTransformer) : GoType :=
  t.inputType

/-- The constructor `NewStructExpander` (struct.go:49). -/
def NewStructExpander (ToLower quote : String → String) (outputType : GoType)
    (names : List String) : Except GoError structTransformer :=
  match buildSubtypeAndIdx ToLower quote outputType names with
  | .error err => .error (.errorf "can't build subtype: " err)
  | .ok (inputType, idx) =>
    .ok { inputType := inputType, outputType := outputType, idx := idx, idxReversed := false }

/-- The constructor `NewStructCollapser` (struct.go:66). -/
def NewStructCollapser (ToLower quote : String → String) (inputType : GoType)
    (names : List String) : Except GoError structTransformer :=
  match buildSubtypeAndIdx ToLower quote inputType names with
  | .error err => .error (.errorf "can't build subtype: " err)
  | .ok (outputType, idx) =>
    .ok { inputType := inputType, outputType := outputType, idx := idx, idxReversed := true }

/-- The zero value `reflect.Indirect(reflect.New(t))` of a struct type, as
the list of its field values; `zero` gives the zero value of a field
type. -/
def zeroValue {Val : Type} (zero : GoType → Val) : GoType → List Val
  | .struct fields => fields.map (fun sf => zero sf.Typ)
  | _ => []

/-- The loop of `structTransformer.Transform` (struct.go:31) over
`t.idx` from position `i` on: `outValue.Field(outIdx).Set(inValue.Field(inIdx))`;
`Field` panics when the index is out of range. -/
def copyFields {Val : Type} (idxReversed : Bool) (inValue : List Val) :
    List Nat → Nat → List Val → Except String (List Val)
  | [], _, outValue => .ok outValue
  | j :: rest, i, outValue =>
    let inIdx := if idxReversed then j else i
    let outIdx := if idxReversed then i else j
    match inValue[inIdx]? with
    | none => .error "reflect: Field index out of range"
    | some x =>
      if outIdx < outValue.length then
        copyFields idxReversed inValue rest (i + 1) (outValue.set outIdx x)
      else .error "reflect: Field index out of range"

/-- The method `structTransformer.Transform` (struct.go:28) on a struct value
given as the list of its field values: the values sent on `ch` and the
returned error. `ctxErr` is `none` while the context is not done and
`ctx.Err()` afterwards; `pick` tells whether the `select` takes
`<-ctx.Done()` when that branch is ready. -/
def structTransformer.Transform {Val : Type} (zero : GoType → Val) (t : structTransformer)
    (ctxErr : Option GoError) (pick : Bool) (v : List Val) :
    Except String (List (List Val) × Option GoError) :=
  match copyFields t.idxReversed v t.idx 0 (zeroValue zero t.outputType) with
  | .error msg => .error msg
  | .ok outValue =>
    match ctxErr, pick with
    | some err, true => .ok ([], some err)
    | _, _ => .ok ([outValue], none)

/-! ## The vocabulary of the specification -/

/-- The world after `t.Transform` has been called on each of `items` in turn
and has returned nil every time (`none` as soon as one call fails). -/
def transformsAll {W V Ch Ty : Type} (ctx : Context W) (t : SeqTransformer W V Ch Ty)
    (outCh : Ch) : List V → W → Option W
  | [], w => some w
  | v :: rest, w =>
    match t.Transform ctx v outCh w with
    | (some _, _) => none
    | (none, w1) => transformsAll ctx t outCh rest w1

/-- What the stages `ms`, none of which fails, make of the values `xs`
handed to the first of them: each stage replaces every value it receives by
what its `t.Transform` sends for it, in order. -/
def flow {Ty V : Type} : List (Member Ty V) → List V → List V
  | [], xs => xs
  | m :: rest, xs => flow rest (xs.flatMap m.outs)

/-- Total correctness of one call under a context that is never cancelled
from outside and a receiver that takes every value sent on `ch`: whatever the
scheduler does, the call cannot take more than a fixed number of steps, it
can always take a step as long as `group.Wait()` has not returned, and when
it returns, what the receiver has got (`sink`) and the returned error satisfy
`post`. -/
def CallEnsures {V : Type} (step : CallState V → Action → Option (CallState V))
    (init : CallState V) (post : List V → Option GoError → Prop) : Prop :=
  ∃ fuel : Nat, ∀ (acts : List Action) (s : CallState V), Action.cancel ∉ acts →
    runFrom step init acts = some s →
    acts.length ≤ fuel ∧ (s.finished = true → post s.sink s.err) ∧
      (s.finished = false → ∃ a, a ≠ Action.cancel ∧ (step s a).isSome = true)

/-- One call `t.Transform(ctx, v, ch)`, under a context that is never
cancelled and a receiver that takes every value, comes to an end and then
satisfies `post`: an implementation sends `outs v` and returns `ret v`; the
goroutines of a chain or a parallel of implementations run as `chainStep`
and `parallelStep` say. (Composites of composites are not covered.) -/
def Transformer.Ensures {Ty V : Type} (t : Transformer Ty V) (v : V)
    (post : List V → Option GoError → Prop) : Prop :=
  match t with
  | .impl m => post (m.outs v) (m.ret v)
  | .chain c =>
    ∃ ms : List (Member Ty V), c = ms.map Transformer.impl ∧
      CallEnsures (chainStep ms v) (chainInit ms) post
  | .parallel p =>
    ∃ ms : List (Member Ty V), p = ms.map Transformer.impl ∧
      CallEnsures (parallelStep ms) (parallelInit ms v) post

/-- The stage of the chain fan-out law with factor `k`: for each item it
receives it sends `k` copies of item + 1 (Go `int` addition) and returns
nil. -/
def FansOut {Ty : Type} (m : Member Ty Int) (k : Nat) : Prop :=
  (∀ x, m.outs x = List.replicate k (wrapInt (x + 1))) ∧ ∀ x, m.ret x = none

/-- A name matches a field case-insensitively, by the field's name or by its
`hive` tag. -/
def nameMatches (ToLower : String → String) (n : String) (sf : StructField GoType) : Prop :=
  ToLower n = ToLower sf.Name ∨ ∃ tag, sf.Tag = some tag ∧ ToLower n = ToLower tag

/-- A name resolves to a field: the field is exported and the name, in lower
case, is the field's `GetStructFieldName`. -/
def resolvesTo (ToLower : String → String) (n : String) (sf : StructField GoType) : Prop :=
  sf.PkgPath = "" ∧ GetStructFieldName ToLower sf = ToLower n

/-! ## Relations, invariants and measures used in the proofs -/

/-- The relational reading of `chainStep`, one constructor for each way a
step can be taken. -/
inductive ChainStep {Ty V : Type} (ms : List (Member Ty V)) (v : V) :
    CallState V → Action → CallState V → Prop where
  | feed (s : CallState V) (m : Member Ty V) (hf : s.feeder = .toSend)
      (h0 : s.pcs[0]? = some .idle) (hm : ms[0]? = some m) :
      ChainStep ms v s .feed
        { s with feeder := .toClose, pcs := s.pcs.set 0 (.running (m.outs v) (m.ret v)) }
  | feedClose (s : CallState V) (hf : s.feeder = .toClose) :
      ChainStep ms v s .feedClose { s with feeder := .finished }
  | pass (s : CallState V) (i : Nat) (x : V) (rest : List V) (r : Option GoError)
      (m : Member Ty V) (hi : s.pcs[i]? = some (.running (x :: rest) r))
      (hj : s.pcs[i + 1]? = some .idle) (hm : ms[i + 1]? = some m) :
      ChainStep ms v s (.pass i)
        { s with pcs := (s.pcs.set i (.running rest r)).set (i + 1)
                      (.running (m.outs x) (m.ret x)) }
  | emit (s : CallState V) (i : Nat) (x : V) (rest : List V) (r : Option GoError)
      (hi : s.pcs[i]? = some (.running (x :: rest) r)) (hlast : i + 1 = ms.length) :
      ChainStep ms v s (.emit i)
        { s with pcs := s.pcs.set i (.running rest r), sink := s.sink ++ [x] }
  | retNil (s : CallState V) (i : Nat) (hi : s.pcs[i]? = some (.running [] none)) :
      ChainStep ms v s (.ret i) { s with pcs := s.pcs.set i .idle }
  | retErr (s : CallState V) (i : Nat) (e : GoError)
      (hi : s.pcs[i]? = some (.running [] (some e))) :
      ChainStep ms v s (.ret i)
        { s with pcs := s.pcs.set i (.returned (some (.errorf "transform failed: " e))),
                 failures := s.failures ++ [(i, e)] }
  | eof (s : CallState V) (i : Nat) (hi : s.pcs[i]? = some .idle)
      (hc : inputClosed s i = true) :
      ChainStep ms v s (.eof i) { s with pcs := s.pcs.set i (.returned none) }
  | ctxDone (s : CallState V) (i : Nat) (hi : s.pcs[i]? = some .idle)
      (hc : s.cancelled = true) :
      ChainStep ms v s (.ctxDone i) { s with pcs := s.pcs.set i (.returned (some .canceled)) }
  | abort (s : CallState V) (i : Nat) (x : V) (rest : List V) (r : Option GoError)
      (m : Member Ty V) (hi : s.pcs[i]? = some (.running (x :: rest) r))
      (hm : ms[i]? = some m) (hw : m.watchesCtx = true) (hc : s.cancelled = true) :
      ChainStep ms v s (.abort i)
        { s with pcs := s.pcs.set i
                   (.returned (some (.errorf "transform failed: " .canceled))),
                 failures := s.failures ++ [(i, .canceled)] }
  | report (s : CallState V) (i : Nat) (r : Option GoError)
      (hi : s.pcs[i]? = some (.returned r)) :
      ChainStep ms v s (.report i) (noteResult s i r)
  | cancel (s : CallState V) (hc : s.cancelled = false) :
      ChainStep ms v s .cancel { s with cancelled := true }

/-- The relational reading of `parallelStep`, one constructor for each way a
step can be taken. -/
inductive ParallelStep {Ty V : Type} (ms : List (Member Ty V)) :
    CallState V → Action → CallState V → Prop where
  | emit (s : CallState V) (i : Nat) (x : V) (rest : List V) (r : Option GoError)
      (hi : s.pcs[i]? = some (.running (x :: rest) r)) :
      ParallelStep ms s (.emit i)
        { s with pcs := s.pcs.set i (.running rest r), sink := s.sink ++ [x] }
  | retNil (s : CallState V) (i : Nat) (hi : s.pcs[i]? = some (.running [] none)) :
      ParallelStep ms s (.ret i) { s with pcs := s.pcs.set i (.returned none) }
  | retErr (s : CallState V) (i : Nat) (e : GoError)
      (hi : s.pcs[i]? = some (.running [] (some e))) :
      ParallelStep ms s (.ret i)
        { s with pcs := s.pcs.set i (.returned (some e)),
                 failures := s.failures ++ [(i, e)] }
  | abort (s : CallState V) (i : Nat) (x : V) (rest : List V) (r : Option GoError)
      (m : Member Ty V) (hi : s.pcs[i]? = some (.running (x :: rest) r))
      (hm : ms[i]? = some m) (hw : m.watchesCtx = true) (hc : s.cancelled = true) :
      ParallelStep ms s (.abort i)
        { s with pcs := s.pcs.set i (.returned (some .canceled)),
                 failures := s.failures ++ [(i, .canceled)] }
  | report (s : CallState V) (i : Nat) (r : Option GoError)
      (hi : s.pcs[i]? = some (.returned r)) :
      ParallelStep ms s (.report i) (noteResult s i r)
  | cancel (s : CallState V) (hc : s.cancelled = false) :
      ParallelStep ms s .cancel { s with cancelled := true }

/-- Stage `j` has left `transformOne`, so its output channel is closed. -/
def CallState.exitedAt {V : Type} (s : CallState V) (j : Nat) : Prop :=
  (∃ r, s.pcs[j]? = some (.returned r)) ∨ s.pcs[j]? = some .done

/-- Whether a goroutine has left its function. -/
def Pc.exited {V : Type} : Pc V → Bool
  | .returned _ => true
  | .done => true
  | _ => false

/-- What holds of every state of a call of `chain.Transform`: there is one
goroutine for each stage, an error kept by the group has cancelled its
context, and a stage leaves its loop without an error only when its input is
closed or the context is done. -/
structure ChainInv {Ty V : Type} (ms : List (Member Ty V)) (s : CallState V) : Prop where
  len : s.pcs.length = ms.length
  errCancel : s.err ≠ none → s.cancelled = true
  closedBefore : ∀ i, (s.pcs[i]? = some (.returned none) ∨ s.pcs[i]? = some .done) →
    s.cancelled = true ∨ inputClosed s i = true

/-- The number of steps that handing `x` to the first of the stages `ms`
sets off when nothing fails: the hand-over and the return of that stage's
`t.Transform`, and the same for each value it sends on; a value sent by the
last stage costs the one step in which the receiver of `ch` takes it. -/
def cost {Ty V : Type} : List (Member Ty V) → V → Nat
  | [], _ => 1
  | m :: rest, x => 2 + ((m.outs x).map (cost rest)).sum

/-- The steps a goroutine can still take or set off, `down` being the stages
after it. -/
def stageWork {Ty V : Type} (down : List (Member Ty V)) : Pc V → Nat
  | .idle => 2
  | .running pending _ => (pending.map (cost down)).sum + 3
  | .returned _ => 1
  | .done => 0

/-- The sum of `stageWork` over the stages. -/
def work {Ty V : Type} : List (Member Ty V) → List (Pc V) → Nat
  | _ :: rest, pc :: pcs => stageWork rest pc + work rest pcs
  | _, _ => 0

/-- A bound on the number of steps a call of `chain.Transform` can still
take from state `s`. -/
def chainFuel {Ty V : Type} (ms : List (Member Ty V)) (v : V) (s : CallState V) : Nat :=
  (match s.feeder with
    | .toSend => cost ms v + 1
    | .toClose => 1
    | .finished => 0) + work ms s.pcs + (if s.cancelled then 0 else 1)

/-- What the receiver of `ch` is still to get from the values the stages
hold, those of the later stages first. -/
def inFlight {Ty V : Type} : List (Member Ty V) → List (Pc V) → List V
  | _ :: rest, pc :: pcs => inFlight rest pcs ++ flow rest pc.pend
  | _, _ => []

/-- What holds of every state of a call of `chain.Transform` whose stages
never fail and whose context is never cancelled: nothing has failed, and
what the receiver has got so far, followed by what it is still to get, is
`flow ms [v]`. -/
structure FlowInv {Ty V : Type} (ms : List (Member Ty V)) (v : V) (s : CallState V) :
    Prop where
  err : s.err = none
  cancelled : s.cancelled = false
  clean : ∀ (i : Nat) (p : List V) (r : Option GoError),
    s.pcs[i]? = some (Pc.running p r) → r = none
  cleanRet : ∀ (i : Nat) (r : Option GoError), s.pcs[i]? = some (Pc.returned r) → r = none
  balance : s.sink ++ inFlight ms s.pcs ++
    (match s.feeder with
      | .toSend => flow ms [v]
      | _ => []) = flow ms [v]

/-- What holds of the records of failures in every state of a call of a
composite whose goroutines return `wrap e` when their member's `Transform`
returns the error `e`: a member that has failed has left its function, with
`wrap e` as return value, and the error the group has kept is the return
value of the goroutine recorded in `reporter`. -/
structure ErrInv {V : Type} (wrap : GoError → GoError) (s : CallState V) : Prop where
  failedExited : ∀ (i : Nat) (e : GoError), (i, e) ∈ s.failures →
    ∃ pc, s.pcs[i]? = some pc ∧ pc.exited = true
  failedReturn : ∀ (i : Nat) (e : GoError) (r : Option GoError), (i, e) ∈ s.failures →
    s.pcs[i]? = some (Pc.returned r) → r = some (wrap e)
  reported : ∀ i : Nat, s.reporter = some i →
    s.pcs[i]? = some Pc.done ∧ ∃ x, s.err = some x ∧ ∀ e, (i, e) ∈ s.failures → x = wrap e

/-- The context of the group is done only once the group has kept an error:
this holds as long as the context is not cancelled from outside. -/
def CancelledByGroup {V : Type} (s : CallState V) : Prop :=
  s.cancelled = true → s.err ≠ none

/-- Where the error kept by the group comes from: a goroutine that has
returned an error has a failure of its member's `Transform` on record, unless
the group had already kept an error; the error the group keeps comes from
such a failure; and a failure is either still to be reported or has left the
group with an error. -/
structure OwnErrInv {V : Type} (s : CallState V) : Prop where
  returnedFailed : ∀ (i : Nat) (x : GoError), s.pcs[i]? = some (Pc.returned (some x)) →
    (∃ e, (i, e) ∈ s.failures) ∨ s.err ≠ none
  errReporter : s.err ≠ none → ∃ (i : Nat) (e : GoError),
    s.reporter = some i ∧ (i, e) ∈ s.failures
  failedSeen : s.failures ≠ [] →
    s.err ≠ none ∨ ∃ (i : Nat) (x : GoError), s.pcs[i]? = some (Pc.returned (some x))

/-- The steps a goroutine of `parallel.Transform` can still take. -/
def parallelWork {V : Type} : Pc V → Nat
  | .idle => 0
  | .running pending _ => pending.length + 2
  | .returned _ => 1
  | .done => 0

/-- A bound on the number of steps a call of `parallel.Transform` can still
take from state `s`. -/
def parallelFuel {V : Type} (s : CallState V) : Nat :=
  (s.pcs.map parallelWork).sum + (if s.cancelled then 0 else 1)

/-- What holds of every state of a call of `parallel.Transform`: there is one
goroutine for each member, none of them waits in a `select` of its own, and
an error kept by the group has cancelled its context. -/
structure ParallelInv {Ty V : Type} (ms : List (Member Ty V)) (s : CallState V) : Prop where
  len : s.pcs.length = ms.length
  errCancel : s.err ≠ none → s.cancelled = true
  noIdle : ∀ i : Nat, s.pcs[i]? ≠ some Pc.idle

/-- What holds of every state of a call of `parallel.Transform` whose members
do not fail on `v` and whose context is never cancelled: nothing has failed,
and what the receiver has got so far together with what the members still
have to send is, as a multiset, the union of the members' outputs. -/
structure UnionInv {Ty V : Type} (ms : List (Member Ty V)) (v : V) (s : CallState V) :
    Prop where
  err : s.err = none
  cancelled : s.cancelled = false
  clean : ∀ (i : Nat) (p : List V) (r : Option GoError),
    s.pcs[i]? = some (Pc.running p r) → r = none
  cleanRet : ∀ (i : Nat) (r : Option GoError), s.pcs[i]? = some (Pc.returned r) → r = none
  balance : (s.sink ++ (s.pcs.map Pc.pend).flatten).Perm (ms.map (fun m => m.outs v)).flatten

/-- A goroutine that is about to hand an error to the group: its
`t.Transform` is going to return one, or its function has returned one. -/
def Pc.failing {V : Type} : Pc V → Bool
  | .running _ (some _) => true
  | .returned (some _) => true
  | _ => false

/-- The group has kept an error, or some goroutine is about to hand it
one. -/
def Alarm {V : Type} (s : CallState V) : Prop :=
  s.err ≠ none ∨ ∃ (j : Nat) (pc : Pc V), s.pcs[j]? = some pc ∧ pc.failing = true

/-- Some stage `j` before stage `i` still has to send an item from which the
stages between them, sending on all they should, make the item `x` for stage
`i`. -/
def Carrier {Ty V : Type} (ms : List (Member Ty V)) (i : Nat) (x : V) (s : CallState V) :
    Prop :=
  ∃ (j : Nat) (p : List V) (r : Option GoError) (y : V), j < i ∧
    s.pcs[j]? = some (Pc.running p r) ∧ y ∈ p ∧
    x ∈ flow ((ms.drop (j + 1)).take (i - (j + 1))) [y]

/-- What holds of every state of a call of `chain.Transform` when stage `i`
fails on the item `x` and `x` is among the items that come to stage `i`: an
error is kept or on its way to the group, or the input is still with the
feeder, or an item from which `x` comes is still to be sent on. -/
def FailureAhead {Ty V : Type} (ms : List (Member Ty V)) (i : Nat) (x : V)
    (s : CallState V) : Prop :=
  Alarm s ∨ (s.feeder = .toSend ∧ s.pcs[0]? = some Pc.idle) ∨ Carrier ms i x s

/-- Where the errors of a call come from, as long as the context is not
cancelled from outside. `R j p r` says of a goroutine `j` inside `t.Transform`,
with `p` still to send and `r` to return, what call of the member this is.
The context is done only once the group has kept an error; until then an
error returned by a goroutine is `wrap e` for an error `e` its member's
`Transform` has returned; and so is the error the group keeps. -/
structure OriginInv {V : Type} (R : Nat → List V → Option GoError → Prop)
    (wrap : GoError → GoError) (s : CallState V) : Prop where
  running : ∀ (j : Nat) (p : List V) (r : Option GoError),
    s.pcs[j]? = some (Pc.running p r) → R j p r
  byGroup : s.cancelled = true → s.err ≠ none
  returned : s.err = none → ∀ (j : Nat) (x : GoError),
    s.pcs[j]? = some (Pc.returned (some x)) → ∃ e, R j [] (some e) ∧ x = wrap e
  kept : ∀ x, s.err = some x → ∃ (j : Nat) (e : GoError), R j [] (some e) ∧ x = wrap e

/-- Stage `j` of a chain is inside `t.Transform` on an item `y` that the
stages before it make of `v`: it returns what the member returns on `y` and
sends only what the member sends on `y`. -/
def chainOrigin {Ty V : Type} (ms : List (Member Ty V)) (v : V) (j : Nat) (p : List V)
    (r : Option GoError) : Prop :=
  ∃ (m : Member Ty V) (y : V), ms[j]? = some m ∧ y ∈ flow (ms.take j) [v] ∧ r = m.ret y ∧
    ∀ z ∈ p, z ∈ m.outs y

/-- Goroutine `j` of a parallel is inside `t.Transform` of member `j` on
`v`. -/
def parallelOrigin {Ty V : Type} (ms : List (Member Ty V)) (v : V) (j : Nat) (_p : List V)
    (r : Option GoError) : Prop :=
  ∃ m : Member Ty V, ms[j]? = some m ∧ r = m.ret v

/-! ## Values for the examples -/

/-- A member for the examples: input type `ty`, it sends its input once and
returns `r`, with sends that watch the context. -/
def exampleMember (ty : Nat) (r : Option GoError) : Member Nat Nat :=
  { inputType := ty, outs := fun v => [v], ret := fun _ => r, watchesCtx := true }

/-- A context for the examples, one that is never done. -/
def exampleContext : Context (List Nat) :=
  { Done := fun _ => false, Err := .canceled }

/-- A transformer for the examples of sequential code: the world is the list
of values sent so far; input 3 fails with "boom", every other input is sent
on. -/
def exampleSeq : SeqTransformer (List Nat) Nat Unit Nat :=
  { InputType := 0
    Transform := fun _ v _ w => if v = 3 then (some (.val "boom"), w) else (none, w ++ [v]) }

/-- An ASCII stand-in for `strings.ToLower`, for the examples. -/
def lowerAscii (s : String) : String :=
  String.mk (s.data.map Char.toLower)

/-- The struct type `foo` of struct_test.go, for the examples. -/
def exampleFoo : GoType :=
  .struct [⟨"I", "", none, .named "int" "int"⟩, ⟨"B", "", none, .named "bool" "bool"⟩,
    ⟨"S", "", none, .struct [⟨"X", "", none, .named "float32" "float32"⟩,
      ⟨"Y", "", none, .named "float64" "float64"⟩]⟩]

/-- The struct type made of the fields `S` and `B` of `foo`, in this order,
for the examples. -/
def exampleSub : GoType :=
  .struct [⟨"S", "", none, .struct [⟨"X", "", none, .named "float32" "float32"⟩,
      ⟨"Y", "", none, .named "float64" "float64"⟩]⟩,
    ⟨"B", "", none, .named "bool" "bool"⟩]

/-- The test `Implements(contextType)` for the examples. -/
def exampleImplementsContext : GoType → Bool
  | .named name _ => name == "context.Context"
  | _ => false

/-- The test `Implements(errorType)` for the examples: `error` itself and
`syscall.Errno`, an unsigned integer type with an `Error` method. -/
def exampleImplementsError : GoType → Bool
  | .named name _ => name == "error" || name == "syscall.Errno"
  | _ => false

/-- The function `square` of function_test.go, `func(x int) int`. -/
def exampleSquare : Callable Int :=
  { typ := .func [.named "int" "int"] [.named "int" "int"]
    Call := fun args =>
      match args with
      | [.value x] => .ok (wrapInt (x * x), none)
      | _ => .error "reflect: Call with wrong arguments" }

/-- A function in the manner of `root` of function_test.go,
`func(x int) (int, error)`: it fails with "negative x" on a negative input
and returns its input otherwise. -/
def exampleRoot : Callable Int :=
  { typ := .func [.named "int" "int"] [.named "int" "int", .named "error" "interface"]
    Call := fun args =>
      match args with
      | [.value x] => if x < 0 then .ok (0, some (.val "negative x")) else .ok (x, none)
      | _ => .error "reflect: Call with wrong arguments" }

/-- A function of type `func(x int) (int, syscall.Errno)` that returns its
input and `syscall.ENOENT`: its second result is of an unsigned integer type
that implements `error`. -/
def exampleErrno : Callable Int :=
  { typ := .func [.named "int" "int"] [.named "int" "int", .named "syscall.Errno" "uintptr"]
    Call := fun args =>
      match args with
      | [.value x] => .ok (x, some (.val "no such file or directory"))
      | _ => .error "reflect: Call with wrong arguments" }

/-- A stage in the manner of `chainTest` of chain_test.go: it sends its
input twice with a plain `ch <- v`, without watching the context, and returns
nil. -/
def examplePlain : Member Nat Nat :=
  { inputType := 0, outs := fun v => [v, v], ret := fun _ => none, watchesCtx := false }

/-- A stage that sends nothing and fails with "boom" on every item. -/
def exampleFailing : Member Nat Nat :=
  { inputType := 0, outs := fun _ => [], ret := fun _ => some (.val "boom"),
    watchesCtx := true }

/-! ## Theorems -/

/-! ### Construction (chain.go, parallel.go) -/

/-- C2. Identity law: for every transformer `t`, `Chain(t)` and
`InParallel(t)` return `t` itself, not a wrapper, so whatever is asked of the
result (its `InputType`, its `Transform`) is asked of `t`. -/
theorem Chain_InParallel_single {Ty V : Type} [DecidableEq Ty] (t : Transformer Ty V) :
    Chain [t] = .ok t ∧ InParallel [t] = .ok t ∧
      (∀ r, Chain [t] = .ok r ∨ InParallel [t] = .ok r →
        r = t ∧ r.InputType = t.InputType ∧
          ∀ (v : V) (post : List V → Option GoError → Prop),
            r.Ensures v post ↔ t.Ensures v post) := by
  refine ⟨rfl, rfl, ?_⟩
  intro r hr
  have : r = t := by
    rcases hr with hr | hr
    · simpa [Chain] using hr.symm
    · simpa [InParallel] using hr.symm
  subst this
  exact ⟨rfl, rfl, fun _ _ => Iff.rfl⟩

theorem InParallel.check_ok {Ty V : Type} [DecidableEq Ty] (typ : Ty)
    (ts : List (Transformer Ty V)) (h : ∀ t ∈ ts, t.InputType = .ok typ) :
    InParallel.check typ ts = .ok () := by
  induction ts with
  | nil => rfl
  | cons t rest ih =>
    have ht : t.InputType = .ok typ := h t (List.mem_cons_self _ _)
    simp only [InParallel.check, ht]
    simpa using ih (fun u hu => h u (List.mem_cons_of_mem _ hu))

theorem InParallel.check_error {Ty V : Type} [DecidableEq Ty] (typ : Ty)
    (ts : List (Transformer Ty V)) (hdef : ∀ t ∈ ts, ∃ ty, t.InputType = .ok ty)
    (h : ∃ t ∈ ts, t.InputType ≠ .ok typ) :
    InParallel.check typ ts = .error "not all transformers have the same input type" := by
  induction ts with
  | nil => simp at h
  | cons t rest ih =>
    obtain ⟨ty, hty⟩ := hdef t (List.mem_cons_self _ _)
    by_cases hEq : ty = typ
    · subst hEq
      simp only [InParallel.check, hty]
      have hrest : ∃ u ∈ rest, u.InputType ≠ .ok ty := by
        obtain ⟨u, hu, hne⟩ := h
        rcases List.mem_cons.1 hu with rfl | hu
        · exact absurd hty hne
        · exact ⟨u, hu, hne⟩
      simpa using ih (fun u hu => hdef u (List.mem_cons_of_mem _ hu)) hrest
    · simp [InParallel.check, hty, hEq]

/-- C4. For a list of two or more transformers (each with an input type),
`InParallel` panics, with "not all transformers have the same input type",
if and only if some member's `InputType` differs from that of the first
member; when all agree it returns the composite `parallel(ts)`, holding the
members in the given order, whose `InputType` is the common type. The
construction only calls `InputType`: no `Transform` is involved. -/
theorem InParallel_input_types {Ty V : Type} [DecidableEq Ty] (t0 t1 : Transformer Ty V)
    (rest : List (Transformer Ty V)) (typ : Ty) (h0 : t0.InputType = .ok typ)
    (hdef : ∀ t ∈ t1 :: rest, ∃ ty, t.InputType = .ok ty) :
    ((∃ msg, InParallel (t0 :: t1 :: rest) = .error msg) ↔
        ∃ t ∈ t0 :: t1 :: rest, t.InputType ≠ .ok typ) ∧
      ((∃ t ∈ t0 :: t1 :: rest, t.InputType ≠ .ok typ) →
        InParallel (t0 :: t1 :: rest) =
          .error "not all transformers have the same input type") ∧
      ((∀ t ∈ t0 :: t1 :: rest, t.InputType = .ok typ) →
        InParallel (t0 :: t1 :: rest) = .ok (.parallel (t0 :: t1 :: rest)) ∧
          (Transformer.parallel (t0 :: t1 :: rest)).InputType = .ok typ) := by
  have hdef2 : ∀ t ∈ t0 :: t1 :: rest, ∃ ty, t.InputType = .ok ty := by
    intro t ht
    rcases List.mem_cons.1 ht with rfl | ht
    · exact ⟨typ, h0⟩
    · exact hdef t ht
  have hbad : (∃ t ∈ t0 :: t1 :: rest, t.InputType ≠ .ok typ) →
      InParallel (t0 :: t1 :: rest) =
        .error "not all transformers have the same input type" := by
    intro h
    have := InParallel.check_error typ (t0 :: t1 :: rest) hdef2 h
    simp only [InParallel, h0, this]
  have hgood : (∀ t ∈ t0 :: t1 :: rest, t.InputType = .ok typ) →
      InParallel (t0 :: t1 :: rest) = .ok (.parallel (t0 :: t1 :: rest)) := by
    intro h
    have := InParallel.check_ok typ (t0 :: t1 :: rest) h
    simp only [InParallel, h0, this]
  refine ⟨⟨?_, fun h => ⟨_, hbad h⟩⟩, hbad, fun h => ⟨hgood h, ?_⟩⟩
  · rintro ⟨msg, hmsg⟩
    by_contra hno
    have hall : ∀ t ∈ t0 :: t1 :: rest, t.InputType = .ok typ := by
      intro t ht
      by_contra hne
      exact hno ⟨t, ht, hne⟩
    rw [hgood hall] at hmsg
    cases hmsg
  · simpa [Transformer.InputType] using h0

/-- A concrete instance of C4: two members of input type 0 and one of
input type 1. -/
theorem InParallel_input_types_witness :
    (Transformer.impl (exampleMember 0 none)).InputType = .ok 0 ∧
      (∀ t ∈ [Transformer.impl (exampleMember 0 none), .impl (exampleMember 1 none)],
        ∃ ty, t.InputType = .ok ty) ∧
      InParallel [Transformer.impl (exampleMember 0 none), .impl (exampleMember 0 none),
          .impl (exampleMember 1 none)] =
        .error "not all transformers have the same input type" :=
  ⟨rfl, by simp [Transformer.InputType],
    (InParallel_input_types (.impl (exampleMember 0 none)) (.impl (exampleMember 0 none))
      [.impl (exampleMember 1 none)] 0 rfl (by simp [Transformer.InputType])).2.1
      ⟨.impl (exampleMember 1 none), by simp, by simp [Transformer.InputType, exampleMember]⟩⟩

/-! ### The error-handling decorator (handler.go) -/

/-- C3. Decorator contract: `WithErrorHandler(t, h).Transform(ctx, v, ch)`
calls `t.Transform` once, with the same `ctx`, `v` and `ch`; when that call
returns a non-nil error `e`, the handler is called exactly once, with `e`,
and the decorated call returns what the handler returned; when it returns
nil, the handler is not called and the decorated call returns nil. -/
theorem WithErrorHandler_Transform {W V Ch Ty : Type} (t : SeqTransformer W V Ch Ty)
    (h : GoError → W → Option GoError × W) (ctx : Context W) (v : V) (ch : Ch) (w : W) :
    (∀ e w1, t.Transform ctx v ch w = (some e, w1) →
        (WithErrorHandler t h).Transform ctx v ch w =
          ((h e w1).1, (h e w1).2, [Call.transform ctx v ch, Call.handler e])) ∧
      (∀ w1, t.Transform ctx v ch w = (none, w1) →
        (WithErrorHandler t h).Transform ctx v ch w = (none, w1, [Call.transform ctx v ch])) := by
  constructor
  · intro e w1 he
    simp [WithErrorHandler, errorHandlingTransformer.Transform, he]
  · intro w1 he
    simp [WithErrorHandler, errorHandlingTransformer.Transform, he]

/-- Both cases of C3 on `exampleSeq`: on input 3 the handler is called once,
with the error of the inner call, and its answer is returned; on input 1 it
is not called. -/
theorem WithErrorHandler_Transform_witness :
    (WithErrorHandler exampleSeq (fun e w => (some (.errorf "handled: " e), w))).Transform
        exampleContext 3 () [] =
      (some (.errorf "handled: " (.val "boom")), [],
        [Call.transform exampleContext 3 (), Call.handler (.val "boom")]) ∧
    (WithErrorHandler exampleSeq (fun _ w => (none, w))).Transform exampleContext 3 () [] =
      (none, [], [Call.transform exampleContext 3 (), Call.handler (.val "boom")]) ∧
    (WithErrorHandler exampleSeq (fun e w => (some e, w))).Transform exampleContext 1 () [] =
      (none, [1], [Call.transform exampleContext 1 ()]) :=
  ⟨(WithErrorHandler_Transform exampleSeq _ exampleContext 3 () []).1 (.val "boom") [] rfl,
    (WithErrorHandler_Transform exampleSeq _ exampleContext 3 () []).1 (.val "boom") [] rfl,
    (WithErrorHandler_Transform exampleSeq _ exampleContext 1 () []).2 [1] rfl⟩

/-! ### The driver (transform.go) -/

theorem All.loop_ok {W V Ch Ty : Type} (showV : V → String) (ctx : Context W)
    (t : SeqTransformer W V Ch Ty) (outCh : Ch) (pick : Nat → Bool)
    (hctx : ∀ w, ctx.Done w = false) (items : List V) :
    ∀ (k : Nat) (w w1 : W), transformsAll ctx t outCh items w = some w1 →
      All.loop showV ctx t outCh pick k items w =
        (none, w1, items.map (fun x => Call.transform ctx x outCh)) := by
  induction items with
  | nil =>
    intro k w w1 h
    simp only [transformsAll, Option.some.injEq] at h
    subst h
    simp [All.loop, hctx]
  | cons v rest ih =>
    intro k w w1 h
    rw [All.loop]
    simp only [transformsAll] at h
    rcases hres : t.Transform ctx v outCh w with ⟨_ | e, w2⟩
    · rw [hres] at h
      simp [hctx, hres, ih (k + 1) w2 w1 h]
    · rw [hres] at h
      cases h

theorem All.loop_fail {W V Ch Ty : Type} (showV : V → String) (ctx : Context W)
    (t : SeqTransformer W V Ch Ty) (outCh : Ch) (pick : Nat → Bool)
    (hctx : ∀ w, ctx.Done w = false) (x : V) (post : List V) (e : GoError) (pre : List V) :
    ∀ (k : Nat) (w w1 w2 : W), transformsAll ctx t outCh pre w = some w1 →
      t.Transform ctx x outCh w1 = (some e, w2) →
      All.loop showV ctx t outCh pick k (pre ++ x :: post) w =
        (some (.errorf ("transform(" ++ showV x ++ ") error: ") e), w2,
          (pre ++ [x]).map (fun y => Call.transform ctx y outCh)) := by
  induction pre with
  | nil =>
    intro k w w1 w2 h hx
    simp only [transformsAll, Option.some.injEq] at h
    subst h
    rw [List.nil_append, All.loop]
    simp [hctx, hx]
  | cons v rest ih =>
    intro k w w1 w2 h hx
    rw [List.cons_append, All.loop]
    simp only [transformsAll] at h
    rcases hres : t.Transform ctx v outCh w with ⟨_ | e1, w3⟩
    · rw [hres] at h
      simp [hctx, hres, ih (k + 1) w3 w1 w2 h hx]
    · rw [hres] at h
      cases h

/-- C5. Driver halting: under a context that is never done, `All` calls
`t.Transform` on the items of the closed input stream one at a time, in
stream order. If `x` is the first item whose call returns a non-nil error
`e` (the calls on the items `pre` before it all returned nil), `All` returns
the non-nil error `fmt.Errorf("transform(%+v) error: %v", x, e)` and has
called `Transform` on `pre` and `x` only, never on the items `post` behind
`x`; if no call fails, `All` has called `Transform` on every item and
returns nil. -/
theorem All_halts_on_first_error {W V Ch Ty : Type} (showV : V → String) (ctx : Context W)
    (t : SeqTransformer W V Ch Ty) (outCh : Ch) (pick : Nat → Bool)
    (hctx : ∀ w, ctx.Done w = false) (inCh : List V) (w : W) :
    (∀ pre x post e w1 w2, inCh = pre ++ x :: post →
        transformsAll ctx t outCh pre w = some w1 →
        t.Transform ctx x outCh w1 = (some e, w2) →
        All showV ctx t inCh outCh pick w =
          (some (.errorf ("transform(" ++ showV x ++ ") error: ") e), w2,
            (pre ++ [x]).map (fun y => Call.transform ctx y outCh))) ∧
      (∀ w1, transformsAll ctx t outCh inCh w = some w1 →
        All showV ctx t inCh outCh pick w =
          (none, w1, inCh.map (fun y => Call.transform ctx y outCh))) := by
  constructor
  · intro pre x post e w1 w2 hin hpre hx
    subst hin
    exact All.loop_fail showV ctx t outCh pick hctx x post e pre 0 w w1 w2 hpre hx
  · intro w1 hall
    exact All.loop_ok showV ctx t outCh pick hctx inCh 0 w w1 hall

/-- Both cases of C5 on `exampleSeq`: on the stream 1, 2, 3, 4 the call on 3
fails, `All` returns the wrapped error and has called `Transform` on 1, 2 and
3 only; on the stream 1, 2 it calls `Transform` on both and returns nil. -/
theorem All_halts_on_first_error_witness :
    (∀ w, exampleContext.Done w = false) ∧
      All (fun _ => "3") exampleContext exampleSeq [1, 2, 3, 4] () (fun _ => true) [] =
        (some (.errorf ("transform(" ++ "3" ++ ") error: ") (.val "boom")), [1, 2],
          [Call.transform exampleContext 1 (), Call.transform exampleContext 2 (),
            Call.transform exampleContext 3 ()]) ∧
      All (fun _ => "3") exampleContext exampleSeq [1, 2] () (fun _ => true) [] =
        (none, [1, 2],
          [Call.transform exampleContext 1 (), Call.transform exampleContext 2 ()]) :=
  ⟨fun _ => rfl,
    (All_halts_on_first_error (fun _ => "3") exampleContext exampleSeq () (fun _ => true)
      (fun _ => rfl) [1, 2, 3, 4] []).1 [1, 2] 3 [4] (.val "boom") [1, 2] [1, 2] rfl rfl rfl,
    (All_halts_on_first_error (fun _ => "3") exampleContext exampleSeq () (fun _ => true)
      (fun _ => rfl) [1, 2] []).2 [1, 2] rfl⟩

/-! ### The goroutines of chain.go -/

theorem chainStep_sound {Ty V : Type} (ms : List (Member Ty V)) (v : V) (s s1 : CallState V)
    (a : Action) (h : chainStep ms v s a = some s1) : ChainStep ms v s a s1 := by
  cases a with
  | feed =>
    simp only [chainStep] at h
    split at h
    · rename_i hf h0 hm
      cases h
      exact ChainStep.feed s _ hf h0 hm
    · cases h
  | feedClose =>
    simp only [chainStep] at h
    split at h
    · rename_i hf
      cases h
      exact ChainStep.feedClose s hf
    · cases h
  | pass i =>
    simp only [chainStep] at h
    split at h
    · rename_i hi hj hm
      cases h
      exact ChainStep.pass s i _ _ _ _ hi hj hm
    · cases h
  | emit i =>
    simp only [chainStep] at h
    split at h
    · rename_i hi
      split at h
      · rename_i hlast
        cases h
        exact ChainStep.emit s i _ _ _ hi hlast
      · cases h
    · cases h
  | ret i =>
    simp only [chainStep] at h
    split at h
    · rename_i hi
      cases h
      exact ChainStep.retNil s i hi
    · rename_i hi
      cases h
      exact ChainStep.retErr s i _ hi
    · cases h
  | eof i =>
    simp only [chainStep] at h
    split at h
    · rename_i hi
      split at h
      · rename_i hc
        cases h
        exact ChainStep.eof s i hi hc
      · cases h
    · cases h
  | ctxDone i =>
    simp only [chainStep] at h
    split at h
    · rename_i hi
      split at h
      · rename_i hc
        cases h
        exact ChainStep.ctxDone s i hi hc
      · cases h
    · cases h
  | abort i =>
    simp only [chainStep] at h
    split at h
    · rename_i hi hm
      split at h
      · rename_i hc
        cases h
        simp only [Bool.and_eq_true] at hc
        exact ChainStep.abort s i _ _ _ _ hi hm hc.1 hc.2
      · cases h
    · cases h
  | report i =>
    simp only [chainStep] at h
    split at h
    · rename_i hi
      cases h
      exact ChainStep.report s i _ hi
    · cases h
  | cancel =>
    simp only [chainStep] at h
    split at h
    · cases h
    · rename_i hc
      cases h
      exact ChainStep.cancel s (by simpa using hc)

theorem inputClosed_succ_iff {V : Type} (s : CallState V) (j : Nat) :
    inputClosed s (j + 1) = true ↔ s.exitedAt j := by
  simp only [inputClosed, CallState.exitedAt]
  split
  · rename_i r h
    simp [h]
  · rename_i h
    simp [h]
  · rename_i h1 h2
    constructor
    · intro h
      cases h
    · rintro (⟨r, hr⟩ | hd)
      · exact absurd hr (h1 r)
      · exact absurd hd h2

theorem inputClosed_mono {V : Type} (s s1 : CallState V)
    (hfeed : s.feeder = .finished → s1.feeder = .finished)
    (hpcs : ∀ j, s.exitedAt j → s1.exitedAt j) (i : Nat) (h : inputClosed s i = true) :
    inputClosed s1 i = true := by
  cases i with
  | zero =>
    simp only [inputClosed, decide_eq_true_eq] at h ⊢
    exact hfeed h
  | succ j =>
    rw [inputClosed_succ_iff] at h ⊢
    exact hpcs j h

theorem exitedAt_set {V : Type} (s s1 : CallState V) (k : Nat) (old new : Pc V)
    (hold : s.pcs[k]? = some old) (hpcs : s1.pcs = s.pcs.set k new)
    (hnew : s.exitedAt k → (∃ r, new = .returned r) ∨ new = .done) (j : Nat)
    (h : s.exitedAt j) : s1.exitedAt j := by
  unfold CallState.exitedAt at *
  rw [hpcs]
  have hk : k < s.pcs.length := (List.getElem?_eq_some_iff.1 hold).1
  by_cases hjk : k = j
  · subst hjk
    rw [List.getElem?_set_self hk]
    rcases hnew h with ⟨r, hr⟩ | hd
    · exact Or.inl ⟨r, by rw [hr]⟩
    · exact Or.inr (by rw [hd])
  · rw [List.getElem?_set_ne hjk]
    exact h

theorem ChainInv_init {Ty V : Type} (ms : List (Member Ty V)) : ChainInv ms (chainInit ms) := by
  refine ⟨by simp [chainInit], by simp [chainInit], ?_⟩
  intro i hi
  simp only [chainInit, List.getElem?_replicate] at hi
  rcases hi with hi | hi <;> split at hi <;> simp at hi

theorem ChainInv_same_pcs {Ty V : Type} {ms : List (Member Ty V)} {s s1 : CallState V}
    (hinv : ChainInv ms s) (hpcs : s1.pcs = s.pcs)
    (hfeed : s.feeder = .finished → s1.feeder = .finished)
    (hcan : s.cancelled = true → s1.cancelled = true)
    (herr : s1.err ≠ none → s1.cancelled = true) : ChainInv ms s1 := by
  refine ⟨by rw [hpcs]; exact hinv.len, herr, ?_⟩
  intro i hi
  rw [hpcs] at hi
  rcases hinv.closedBefore i hi with h | h
  · exact Or.inl (hcan h)
  · refine Or.inr (inputClosed_mono s s1 hfeed ?_ i h)
    intro j hj
    simpa [CallState.exitedAt, hpcs] using hj

theorem ChainInv_set {Ty V : Type} {ms : List (Member Ty V)} {s s1 : CallState V}
    (hinv : ChainInv ms s) (k : Nat) (old new : Pc V) (hold : s.pcs[k]? = some old)
    (hpcs : s1.pcs = s.pcs.set k new)
    (hfeed : s.feeder = .finished → s1.feeder = .finished)
    (hcan : s.cancelled = true → s1.cancelled = true)
    (herr : s1.err ≠ none → s1.cancelled = true)
    (hmono : s.exitedAt k → (∃ r, new = .returned r) ∨ new = .done)
    (hnew : (new = .returned none ∨ new = .done) →
      s1.cancelled = true ∨ inputClosed s k = true) : ChainInv ms s1 := by
  have hk : k < s.pcs.length := (List.getElem?_eq_some_iff.1 hold).1
  have hex : ∀ j, s.exitedAt j → s1.exitedAt j :=
    exitedAt_set s s1 k old new hold hpcs hmono
  refine ⟨by rw [hpcs, List.length_set]; exact hinv.len, herr, ?_⟩
  intro i hi
  rw [hpcs] at hi
  by_cases hik : k = i
  · subst hik
    rw [List.getElem?_set_self hk] at hi
    have hn : new = .returned none ∨ new = .done := by
      rcases hi with hi | hi
      · exact Or.inl (Option.some.inj hi)
      · exact Or.inr (Option.some.inj hi)
    rcases hnew hn with h | h
    · exact Or.inl h
    · exact Or.inr (inputClosed_mono s s1 hfeed hex k h)
  · rw [List.getElem?_set_ne hik] at hi
    rcases hinv.closedBefore i hi with h | h
    · exact Or.inl (hcan h)
    · exact Or.inr (inputClosed_mono s s1 hfeed hex i h)

theorem not_exitedAt_of_idle {V : Type} {s : CallState V} {k : Nat}
    (h : s.pcs[k]? = some .idle) : ¬ s.exitedAt k := by
  rintro (⟨r, hr⟩ | hd)
  · rw [h] at hr
    cases hr
  · rw [h] at hd
    cases hd

theorem not_exitedAt_of_running {V : Type} {s : CallState V} {k : Nat} {p : List V}
    {r : Option GoError} (h : s.pcs[k]? = some (.running p r)) : ¬ s.exitedAt k := by
  rintro (⟨r, hr⟩ | hd)
  · rw [h] at hr
    cases hr
  · rw [h] at hd
    cases hd

theorem noteResult_facts {V : Type} (s : CallState V) (i : Nat) (r : Option GoError)
    (herrc : s.err ≠ none → s.cancelled = true) :
    (noteResult s i r).pcs = s.pcs.set i .done ∧
      (noteResult s i r).feeder = s.feeder ∧
      (s.cancelled = true → (noteResult s i r).cancelled = true) ∧
      ((noteResult s i r).err ≠ none → (noteResult s i r).cancelled = true) ∧
      (r ≠ none → (noteResult s i r).cancelled = true) := by
  cases r with
  | none => exact ⟨rfl, rfl, id, herrc, fun h => absurd rfl h⟩
  | some e =>
    cases herr : s.err with
    | none =>
      simp [noteResult, herr]
    | some e2 =>
      have hc : s.cancelled = true := herrc (by simp [herr])
      simp [noteResult, herr, hc]

theorem ChainInv_step {Ty V : Type} {ms : List (Member Ty V)} {v : V} {s s1 : CallState V}
    {a : Action} (hinv : ChainInv ms s) (h : ChainStep ms v s a s1) : ChainInv ms s1 := by
  cases h with
  | feed m hf h0 hm =>
    refine ChainInv_set hinv 0 _ _ h0 rfl ?_ id hinv.errCancel ?_ ?_
    · intro h
      rw [hf] at h
      cases h
    · intro h
      exact absurd h (not_exitedAt_of_idle h0)
    · rintro (h | h) <;> cases h
  | feedClose hf =>
    exact ChainInv_same_pcs hinv rfl (fun _ => rfl) id hinv.errCancel
  | pass i x rest r m hi hj hm =>
    have hmid : ChainInv ms { s with pcs := s.pcs.set i (.running rest r) } := by
      refine ChainInv_set hinv i _ _ hi rfl id id hinv.errCancel ?_ ?_
      · intro h
        exact absurd h (not_exitedAt_of_running hi)
      · rintro (h | h) <;> cases h
    have hj2 : (s.pcs.set i (Pc.running rest r))[i + 1]? = some .idle := by
      rw [List.getElem?_set_ne (by omega)]
      exact hj
    refine ChainInv_set hmid (i + 1) _ _ hj2 rfl id id hinv.errCancel ?_ ?_
    · intro h
      exact absurd h (not_exitedAt_of_idle hj2)
    · rintro (h | h) <;> cases h
  | emit i x rest r hi hlast =>
    refine ChainInv_set hinv i _ _ hi rfl id id hinv.errCancel ?_ ?_
    · intro h
      exact absurd h (not_exitedAt_of_running hi)
    · rintro (h | h) <;> cases h
  | retNil i hi =>
    refine ChainInv_set hinv i _ _ hi rfl id id hinv.errCancel ?_ ?_
    · intro h
      exact absurd h (not_exitedAt_of_running hi)
    · rintro (h | h) <;> cases h
  | retErr i e hi =>
    refine ChainInv_set hinv i _ _ hi rfl id id hinv.errCancel ?_ ?_
    · intro h
      exact absurd h (not_exitedAt_of_running hi)
    · rintro (h | h) <;> cases h
  | eof i hi hc =>
    refine ChainInv_set hinv i _ _ hi rfl id id hinv.errCancel ?_ ?_
    · intro _
      exact Or.inl ⟨none, rfl⟩
    · intro _
      exact Or.inr hc
  | ctxDone i hi hc =>
    refine ChainInv_set hinv i _ _ hi rfl id id hinv.errCancel ?_ ?_
    · intro _
      exact Or.inl ⟨_, rfl⟩
    · intro _
      exact Or.inl hc
  | abort i x rest r m hi hm hw hc =>
    refine ChainInv_set hinv i _ _ hi rfl id id hinv.errCancel ?_ ?_
    · intro _
      exact Or.inl ⟨_, rfl⟩
    · intro _
      exact Or.inl hc
  | report i r hi =>
    have hcases := noteResult_facts s i r hinv.errCancel
    obtain ⟨hp, hf, hc1, hc2, hc3⟩ := hcases
    refine ChainInv_set hinv i _ _ hi hp (fun h => by rw [hf]; exact h) hc1 hc2 ?_ ?_
    · intro _
      exact Or.inr rfl
    · intro _
      cases r with
      | none =>
        rcases hinv.closedBefore i (Or.inl hi) with h | h
        · exact Or.inl (hc1 h)
        · exact Or.inr h
      | some e => exact Or.inl (hc3 (by simp))
  | cancel hc =>
    exact ChainInv_same_pcs hinv rfl id (fun _ => rfl) (fun _ => rfl)

theorem runFrom_invariant {V : Type} (step : CallState V → Action → Option (CallState V))
    (P : CallState V → Prop) (Q : Action → Prop)
    (hstep : ∀ s a s1, Q a → P s → step s a = some s1 → P s1) :
    ∀ (acts : List Action) (s s1 : CallState V), (∀ a ∈ acts, Q a) → P s →
      runFrom step s acts = some s1 → P s1 := by
  intro acts
  induction acts with
  | nil =>
    intro s s1 _ hP h
    simp only [runFrom, Option.some.injEq] at h
    rw [← h]
    exact hP
  | cons a rest ih =>
    intro s s1 hQ hP h
    simp only [runFrom] at h
    cases hs : step s a with
    | none =>
      rw [hs] at h
      cases h
    | some s2 =>
      rw [hs] at h
      exact ih s2 s1 (fun b hb => hQ b (List.mem_cons_of_mem _ hb))
        (hstep s a s2 (hQ a (List.mem_cons_self _ _)) hP hs) h

theorem runFrom_length_le {V : Type} (step : CallState V → Action → Option (CallState V))
    (P : CallState V → Prop) (Q : Action → Prop) (fuel : CallState V → Nat)
    (hstep : ∀ s a s1, Q a → P s → step s a = some s1 → P s1)
    (hfuel : ∀ s a s1, Q a → P s → step s a = some s1 → fuel s1 + 1 ≤ fuel s) :
    ∀ (acts : List Action) (s s1 : CallState V), (∀ a ∈ acts, Q a) → P s →
      runFrom step s acts = some s1 → fuel s1 + acts.length ≤ fuel s := by
  intro acts
  induction acts with
  | nil =>
    intro s s1 _ _ h
    simp only [runFrom, Option.some.injEq] at h
    rw [← h]
    simp
  | cons a rest ih =>
    intro s s1 hQ hP h
    simp only [runFrom] at h
    cases hs : step s a with
    | none =>
      rw [hs] at h
      cases h
    | some s2 =>
      rw [hs] at h
      have hQa := hQ a (List.mem_cons_self _ _)
      have h1 := ih s2 s1 (fun b hb => hQ b (List.mem_cons_of_mem _ hb))
        (hstep s a s2 hQa hP hs) h
      have h2 := hfuel s a s2 hQa hP hs
      simp only [List.length_cons]
      omega

theorem work_set {Ty V : Type} (k : Nat) :
    ∀ (ms : List (Member Ty V)) (pcs : List (Pc V)) (old new : Pc V),
      pcs[k]? = some old → k < ms.length →
      work ms (pcs.set k new) + stageWork (ms.drop (k + 1)) old =
        work ms pcs + stageWork (ms.drop (k + 1)) new := by
  induction k with
  | zero =>
    intro ms pcs old new hold hk
    cases ms with
    | nil => simp at hk
    | cons m rest =>
      cases pcs with
      | nil => simp at hold
      | cons pc pcs =>
        simp only [List.getElem?_cons_zero, Option.some.injEq] at hold
        subst hold
        simp only [List.set_cons_zero, work, List.drop_succ_cons, List.drop_zero]
        omega
  | succ k ih =>
    intro ms pcs old new hold hk
    cases ms with
    | nil => simp at hk
    | cons m rest =>
      cases pcs with
      | nil => simp at hold
      | cons pc pcs =>
        simp only [List.getElem?_cons_succ] at hold
        simp only [List.length_cons, Nat.add_lt_add_iff_right] at hk
        have := ih rest pcs old new hold hk
        simp only [List.set_cons_succ, work, List.drop_succ_cons]
        omega

theorem chainFuel_step {Ty V : Type} {ms : List (Member Ty V)} {v : V} {s s1 : CallState V}
    {a : Action} (hinv : ChainInv ms s) (h : ChainStep ms v s a s1) :
    chainFuel ms v s1 + 1 ≤ chainFuel ms v s := by
  have hlen := hinv.len
  have hlt : ∀ {k : Nat} {pc : Pc V}, s.pcs[k]? = some pc → k < ms.length := by
    intro k pc hk
    rw [← hlen]
    exact (List.getElem?_eq_some_iff.1 hk).1
  cases h with
  | feed m hf h0 hm =>
    have hw := work_set 0 ms s.pcs _ (.running (m.outs v) (m.ret v)) h0 (hlt h0)
    have hms : ms = m :: ms.drop 1 := by
      cases ms with
      | nil => simp at hm
      | cons m2 rest =>
        simp only [List.getElem?_cons_zero, Option.some.injEq] at hm
        simp [hm]
    have hc : cost ms v = 2 + ((m.outs v).map (cost (ms.drop 1))).sum := by
      conv_lhs => rw [hms]
      simp only [cost]
    simp only [chainFuel, hf, stageWork, Nat.zero_add] at hw ⊢
    rw [hc]
    omega
  | feedClose hf =>
    simp only [chainFuel, hf]
    omega
  | pass i x rest r m hi hj hm =>
    have hw1 := work_set i ms s.pcs _ (.running rest r) hi (hlt hi)
    have hj2 : (s.pcs.set i (Pc.running rest r))[i + 1]? = some .idle := by
      rw [List.getElem?_set_ne (by omega)]
      exact hj
    have hw2 := work_set (i + 1) ms (s.pcs.set i (.running rest r)) _
      (.running (m.outs x) (m.ret x)) hj2 (hlt hj)
    have hd : ms.drop (i + 1) = m :: ms.drop (i + 1 + 1) := by
      have hlt2 := hlt hj
      rw [List.drop_eq_getElem_cons hlt2]
      congr 1
      have := List.getElem?_eq_getElem hlt2
      rw [hm] at this
      exact (Option.some.inj this).symm
    simp only [chainFuel, stageWork, List.map_cons, List.sum_cons] at hw1 hw2 ⊢
    rw [hd] at hw1
    simp only [cost] at hw1
    omega
  | emit i x rest r hi hlast =>
    have hw := work_set i ms s.pcs _ (.running rest r) hi (hlt hi)
    have hd : ms.drop (i + 1) = [] := by
      rw [hlast]
      exact List.drop_length ms
    simp only [chainFuel, stageWork, List.map_cons, List.sum_cons, hd, cost] at hw ⊢
    omega
  | retNil i hi =>
    have hw := work_set i ms s.pcs _ .idle hi (hlt hi)
    simp only [chainFuel, stageWork, List.map_nil, List.sum_nil] at hw ⊢
    omega
  | retErr i e hi =>
    have hw := work_set i ms s.pcs _ (.returned (some (.errorf "transform failed: " e))) hi
      (hlt hi)
    simp only [chainFuel, stageWork, List.map_nil, List.sum_nil] at hw ⊢
    omega
  | eof i hi hc =>
    have hw := work_set i ms s.pcs _ (.returned none) hi (hlt hi)
    simp only [chainFuel, stageWork] at hw ⊢
    omega
  | ctxDone i hi hc =>
    have hw := work_set i ms s.pcs _ (.returned (some .canceled)) hi (hlt hi)
    simp only [chainFuel, stageWork] at hw ⊢
    omega
  | abort i x rest r m hi hm hw hc =>
    have hw := work_set i ms s.pcs _
      (.returned (some (.errorf "transform failed: " .canceled))) hi (hlt hi)
    simp only [chainFuel, stageWork] at hw ⊢
    omega
  | report i r hi =>
    have hw := work_set i ms s.pcs _ .done hi (hlt hi)
    obtain ⟨hp, hf, hc1, -, -⟩ := noteResult_facts s i r hinv.errCancel
    simp only [chainFuel, stageWork, hp, hf] at hw ⊢
    have : (if (noteResult s i r).cancelled = true then 0 else 1) ≤
        (if s.cancelled = true then 0 else 1) := by
      by_cases hc : s.cancelled = true
      · simp [hc, hc1 hc]
      · simp only [hc]
        split <;> simp
    omega
  | cancel hc =>
    simp only [chainFuel, hc]
    simp

theorem exists_last_index (P : Nat → Prop) :
    ∀ n, (∃ i, i < n ∧ P i) → ∃ i, i < n ∧ P i ∧ ∀ j, i < j → j < n → ¬ P j := by
  intro n
  induction n with
  | zero =>
    rintro ⟨i, hi, _⟩
    omega
  | succ n ih =>
    rintro ⟨i, hi, hP⟩
    by_cases hn : P n
    · exact ⟨n, by omega, hn, fun j h1 h2 => by omega⟩
    · have hin : i < n := by
        rcases Nat.lt_or_ge i n with h | h
        · exact h
        · have : i = n := by omega
          rw [this] at hP
          exact absurd hP hn
      obtain ⟨k, hk, hPk, hmax⟩ := ih ⟨i, hin, hP⟩
      refine ⟨k, by omega, hPk, ?_⟩
      intro j h1 h2
      by_cases hjn : j = n
      · rw [hjn]
        exact hn
      · exact hmax j h1 (by omega)

theorem exists_first_index (P : Nat → Prop) :
    ∀ n, P n → ∃ i, P i ∧ ∀ j, j < i → ¬ P j := by
  intro n
  induction n using Nat.strong_induction_on with
  | _ n ih =>
    intro hP
    by_cases h : ∃ j, j < n ∧ P j
    · obtain ⟨j, hj, hPj⟩ := h
      exact ih j hj hPj
    · exact ⟨n, hP, fun j hj hPj => h ⟨j, hj, hPj⟩⟩

theorem exists_not_done {V : Type} {s : CallState V} (h : s.finished = false) :
    ∃ (i : Nat) (pc : Pc V), s.pcs[i]? = some pc ∧ pc ≠ Pc.done := by
  simp only [CallState.finished, List.all_eq_false] at h
  obtain ⟨pc, hmem, hpc⟩ := h
  obtain ⟨i, hi⟩ := List.getElem?_of_mem hmem
  refine ⟨i, pc, hi, ?_⟩
  intro hd
  rw [hd] at hpc
  exact hpc rfl

theorem chain_progress {Ty V : Type} {ms : List (Member Ty V)} (v : V) {s : CallState V}
    (hinv : ChainInv ms s) (hnf : s.finished = false)
    (hw : s.cancelled = true → ∀ m ∈ ms, m.watchesCtx = true) :
    ∃ a, a ≠ Action.cancel ∧ (chainStep ms v s a).isSome = true := by
  have hlen := hinv.len
  have hmem : ∀ {k : Nat} {pc : Pc V}, s.pcs[k]? = some pc → ∃ m, ms[k]? = some m := by
    intro k pc hk
    have h1 : k < ms.length := by
      rw [← hlen]
      exact (List.getElem?_eq_some_iff.1 hk).1
    exact ⟨ms[k], List.getElem?_eq_getElem h1⟩
  by_cases hA : ∃ (i : Nat) (r : Option GoError), s.pcs[i]? = some (Pc.returned r)
  · obtain ⟨i, r, hi⟩ := hA
    exact ⟨.report i, by simp, by simp [chainStep, hi]⟩
  by_cases hB : s.cancelled = true
  · obtain ⟨i, pc, hi, hpc⟩ := exists_not_done hnf
    cases pc with
    | idle => exact ⟨.ctxDone i, by simp, by simp [chainStep, hi, hB]⟩
    | running p r =>
      cases p with
      | nil =>
        cases r with
        | none => exact ⟨.ret i, by simp, by simp [chainStep, hi]⟩
        | some e => exact ⟨.ret i, by simp, by simp [chainStep, hi]⟩
      | cons x rest =>
        obtain ⟨m, hm⟩ := hmem hi
        have hwm : m.watchesCtx = true := hw hB m (List.getElem?_mem hm)
        exact ⟨.abort i, by simp, by simp [chainStep, hi, hm, hwm, hB]⟩
    | returned r => exact absurd ⟨i, r, hi⟩ hA
    | done => exact absurd rfl hpc
  by_cases hC : ∃ i, i < s.pcs.length ∧ ∃ p r, s.pcs[i]? = some (Pc.running p r)
  · obtain ⟨i, hilt, ⟨p, r, hi⟩, hmax⟩ := exists_last_index _ _ hC
    cases p with
    | nil =>
      cases r with
      | none => exact ⟨.ret i, by simp, by simp [chainStep, hi]⟩
      | some e => exact ⟨.ret i, by simp, by simp [chainStep, hi]⟩
    | cons x rest =>
      by_cases hlast : i + 1 = ms.length
      · exact ⟨.emit i, by simp, by simp [chainStep, hi, hlast]⟩
      · have hi1 : i + 1 < s.pcs.length := by omega
        have hnext := List.getElem?_eq_getElem hi1
        obtain ⟨m, hm⟩ := hmem hnext
        cases hpc : s.pcs[i + 1] with
        | idle =>
          rw [hpc] at hnext
          exact ⟨.pass i, by simp, by simp [chainStep, hi, hnext, hm]⟩
        | running p2 r2 =>
          rw [hpc] at hnext
          exact absurd ⟨p2, r2, hnext⟩ (hmax (i + 1) (by omega) hi1)
        | returned r2 =>
          rw [hpc] at hnext
          exact absurd ⟨i + 1, r2, hnext⟩ hA
        | done =>
          rw [hpc] at hnext
          rcases hinv.closedBefore (i + 1) (Or.inr hnext) with h | h
          · exact absurd h hB
          · rw [inputClosed_succ_iff] at h
            exact absurd h (not_exitedAt_of_running hi)
  · obtain ⟨i0, pc0, hi0, hpc0⟩ := exists_not_done hnf
    have hidle : ∀ (k : Nat) (pc : Pc V), s.pcs[k]? = some pc → pc ≠ Pc.done → pc = Pc.idle := by
      intro k pc hk hne
      cases pc with
      | idle => rfl
      | running p r =>
        exact absurd ⟨k, (List.getElem?_eq_some_iff.1 hk).1, p, r, hk⟩ hC
      | returned r => exact absurd ⟨k, r, hk⟩ hA
      | done => exact absurd rfl hne
    have h0 : s.pcs[i0]? = some Pc.idle := by
      rw [hi0, hidle i0 pc0 hi0 hpc0]
    obtain ⟨i, hi, hmin⟩ := exists_first_index (fun k => s.pcs[k]? = some Pc.idle) i0 h0
    cases i with
    | zero =>
      obtain ⟨m, hm⟩ := hmem hi
      cases hf : s.feeder with
      | toSend => exact ⟨.feed, by simp, by simp [chainStep, hf, hi, hm]⟩
      | toClose => exact ⟨.feedClose, by simp, by simp [chainStep, hf]⟩
      | finished =>
        exact ⟨.eof 0, by simp, by simp [chainStep, hi, inputClosed, hf]⟩
    | succ j =>
      have hj : j < s.pcs.length := by
        have := (List.getElem?_eq_some_iff.1 hi).1
        omega
      have hprev := List.getElem?_eq_getElem hj
      have hdone : s.pcs[j] = Pc.done := by
        by_contra hne
        have := hidle j _ hprev hne
        rw [this] at hprev
        exact hmin j (by omega) hprev
      rw [hdone] at hprev
      have hcl : inputClosed s (j + 1) = true := by
        rw [inputClosed_succ_iff]
        exact Or.inr hprev
      exact ⟨.eof (j + 1), by simp, by simp [chainStep, hi, hcl]⟩

theorem flow_append {Ty V : Type} (ms : List (Member Ty V)) :
    ∀ xs ys : List V, flow ms (xs ++ ys) = flow ms xs ++ flow ms ys := by
  induction ms with
  | nil =>
    intro xs ys
    rfl
  | cons m rest ih =>
    intro xs ys
    simp only [flow, List.flatMap_append, ih]

theorem flow_nil {Ty V : Type} (ms : List (Member Ty V)) : flow ms ([] : List V) = [] := by
  induction ms with
  | nil => rfl
  | cons m rest ih => simpa [flow] using ih

theorem flow_cons {Ty V : Type} (m : Member Ty V) (rest : List (Member Ty V)) (x : V)
    (xs : List V) : flow (m :: rest) (x :: xs) = flow rest (m.outs x) ++ flow (m :: rest) xs := by
  simp only [flow, List.flatMap_cons, flow_append]

theorem inFlight_set_same {Ty V : Type} (k : Nat) :
    ∀ (ms : List (Member Ty V)) (pcs : List (Pc V)) (old new : Pc V),
      pcs[k]? = some old → new.pend = old.pend →
      inFlight ms (pcs.set k new) = inFlight ms pcs := by
  induction k with
  | zero =>
    intro ms pcs old new hold hp
    cases pcs with
    | nil => simp at hold
    | cons pc pcs =>
      simp only [List.getElem?_cons_zero, Option.some.injEq] at hold
      subst hold
      cases ms with
      | nil => rfl
      | cons m rest => simp only [List.set_cons_zero, inFlight, hp]
  | succ k ih =>
    intro ms pcs old new hold hp
    cases pcs with
    | nil => simp at hold
    | cons pc pcs =>
      simp only [List.getElem?_cons_succ] at hold
      cases ms with
      | nil => rfl
      | cons m rest => simp only [List.set_cons_succ, inFlight, ih rest pcs old new hold hp]

theorem inFlight_pass {Ty V : Type} (k : Nat) :
    ∀ (ms : List (Member Ty V)) (pcs : List (Pc V)) (x : V) (rest : List V)
      (r r2 : Option GoError) (m : Member Ty V),
      pcs[k]? = some (Pc.running (x :: rest) r) → pcs[k + 1]? = some Pc.idle →
      ms[k + 1]? = some m →
      inFlight ms ((pcs.set k (.running rest r)).set (k + 1) (.running (m.outs x) r2)) =
        inFlight ms pcs := by
  induction k with
  | zero =>
    intro ms pcs x rest r r2 m hk hk1 hm
    match ms, pcs, hk, hk1, hm with
    | m0 :: m1 :: ms2, pc0 :: pc1 :: pcs2, hk, hk1, hm =>
      simp only [List.getElem?_cons_zero, List.getElem?_cons_succ, Option.some.injEq] at hk hk1 hm
      subst hk hk1 hm
      simp only [List.set_cons_zero, List.set_cons_succ, inFlight, Pc.pend, flow_cons, flow_nil,
        List.append_nil, List.append_assoc]
  | succ k ih =>
    intro ms pcs x rest r r2 m hk hk1 hm
    match ms, pcs, hk, hk1, hm with
    | m0 :: ms1, pc0 :: pcs1, hk, hk1, hm =>
      simp only [List.getElem?_cons_succ] at hk hk1 hm
      simp only [List.set_cons_succ, inFlight, ih ms1 pcs1 x rest r r2 m hk hk1 hm]

theorem inFlight_feed {Ty V : Type} (ms : List (Member Ty V)) (pcs : List (Pc V))
    (m : Member Ty V) (p : List V) (r : Option GoError) (h0 : pcs[0]? = some Pc.idle)
    (hm : ms[0]? = some m) :
    inFlight ms (pcs.set 0 (.running p r)) = inFlight ms pcs ++ flow (ms.drop 1) p := by
  match ms, pcs, h0, hm with
  | m0 :: ms1, pc0 :: pcs1, h0, hm =>
    simp only [List.getElem?_cons_zero, Option.some.injEq] at h0
    subst h0
    simp [inFlight, Pc.pend, flow_nil]

theorem inFlight_emit {Ty V : Type} (k : Nat) :
    ∀ (ms : List (Member Ty V)) (pcs : List (Pc V)) (x : V) (rest : List V)
      (r : Option GoError),
      pcs[k]? = some (Pc.running (x :: rest) r) → k + 1 = ms.length →
      pcs.length = ms.length →
      inFlight ms pcs = x :: inFlight ms (pcs.set k (.running rest r)) := by
  induction k with
  | zero =>
    intro ms pcs x rest r hk hlast hlen
    match ms, pcs, hk, hlast, hlen with
    | [m0], [pc0], hk, _, _ =>
      simp only [List.getElem?_cons_zero, Option.some.injEq] at hk
      subst hk
      simp [inFlight, Pc.pend, flow]
  | succ k ih =>
    intro ms pcs x rest r hk hlast hlen
    match ms, pcs, hk, hlast, hlen with
    | m0 :: ms1, pc0 :: pcs1, hk, hlast, hlen =>
      simp only [List.getElem?_cons_succ] at hk
      simp only [List.length_cons, Nat.add_right_cancel_iff] at hlast hlen
      simp only [List.set_cons_succ, inFlight, ih ms1 pcs1 x rest r hk hlast hlen,
        List.cons_append]

theorem getElem?_set_cases {α : Type} (l : List α) (k i : Nat) (new a : α)
    (h : (l.set k new)[i]? = some a) : (k = i ∧ a = new) ∨ (k ≠ i ∧ l[i]? = some a) := by
  rw [List.getElem?_set] at h
  split at h
  · rename_i hki
    split at h
    · exact Or.inl ⟨hki, (Option.some.inj h).symm⟩
    · cases h
  · rename_i hki
    exact Or.inr ⟨hki, h⟩

theorem inFlight_nil_of_pend {Ty V : Type} (ms : List (Member Ty V)) :
    ∀ pcs : List (Pc V), (∀ pc ∈ pcs, pc.pend = []) → inFlight ms pcs = [] := by
  induction ms with
  | nil =>
    intro pcs _
    cases pcs <;> rfl
  | cons m rest ih =>
    intro pcs h
    cases pcs with
    | nil => rfl
    | cons pc pcs =>
      simp only [inFlight, h pc (List.mem_cons_self _ _), flow_nil, List.append_nil]
      exact ih pcs (fun q hq => h q (List.mem_cons_of_mem _ hq))

theorem FlowInv_init {Ty V : Type} (ms : List (Member Ty V)) (v : V) :
    FlowInv ms v (chainInit ms) := by
  refine ⟨rfl, rfl, ?_, ?_, ?_⟩
  · intro i p r h
    simp only [chainInit, List.getElem?_replicate] at h
    split at h <;> cases h
  · intro i r h
    simp only [chainInit, List.getElem?_replicate] at h
    split at h <;> cases h
  · have : inFlight ms (List.replicate ms.length (Pc.idle : Pc V)) = [] := by
      apply inFlight_nil_of_pend
      intro pc hpc
      rw [(List.mem_replicate.1 hpc).2]
      rfl
    simp [chainInit, this]

theorem FlowInv_step {Ty V : Type} {ms : List (Member Ty V)} {v : V} {s s1 : CallState V}
    {a : Action} (hnofail : ∀ m ∈ ms, ∀ x, m.ret x = none) (hinv : ChainInv ms s)
    (hflow : FlowInv ms v s) (ha : a ≠ Action.cancel) (h : ChainStep ms v s a s1) :
    FlowInv ms v s1 := by
  obtain ⟨herr, hcan, hclean, hcleanRet, hbal⟩ := hflow
  cases h with
  | feed m hf h0 hm =>
    refine ⟨herr, hcan, ?_, ?_, ?_⟩
    · intro i p r hi
      rcases getElem?_set_cases _ _ _ _ _ hi with ⟨_, h2⟩ | ⟨_, h2⟩
      · cases h2
        exact hnofail m (List.getElem?_mem hm) v
      · exact hclean i p r h2
    · intro i r hi
      rcases getElem?_set_cases _ _ _ _ _ hi with ⟨_, h2⟩ | ⟨_, h2⟩
      · cases h2
      · exact hcleanRet i r h2
    · have hms : ms = m :: ms.drop 1 := by
        cases ms with
        | nil => simp at hm
        | cons m2 rest =>
          simp only [List.getElem?_cons_zero, Option.some.injEq] at hm
          simp [hm]
      have hfl : flow ms [v] = flow (ms.drop 1) (m.outs v) := by
        conv_lhs => rw [hms]
        rw [flow_cons, flow_nil, List.append_nil]
      simp only [hf] at hbal
      simp only [inFlight_feed ms s.pcs m _ _ h0 hm, List.append_nil]
      rw [← hfl, ← List.append_assoc]
      exact hbal
  | feedClose hf =>
    refine ⟨herr, hcan, hclean, hcleanRet, ?_⟩
    simp only [hf] at hbal
    exact hbal
  | pass i x rest r m hi hj hm =>
    refine ⟨herr, hcan, ?_, ?_, ?_⟩
    · intro k p r2 hk
      rcases getElem?_set_cases _ _ _ _ _ hk with ⟨_, h2⟩ | ⟨_, h2⟩
      · cases h2
        exact hnofail m (List.getElem?_mem hm) x
      · rcases getElem?_set_cases _ _ _ _ _ h2 with ⟨_, h3⟩ | ⟨_, h3⟩
        · cases h3
          exact hclean i _ _ hi
        · exact hclean k p r2 h3
    · intro k r2 hk
      rcases getElem?_set_cases _ _ _ _ _ hk with ⟨_, h2⟩ | ⟨_, h2⟩
      · cases h2
      · rcases getElem?_set_cases _ _ _ _ _ h2 with ⟨_, h3⟩ | ⟨_, h3⟩
        · cases h3
        · exact hcleanRet k r2 h3
    · simp only [inFlight_pass i ms s.pcs x rest r (m.ret x) m hi hj hm]
      exact hbal
  | emit i x rest r hi hlast =>
    refine ⟨herr, hcan, ?_, ?_, ?_⟩
    · intro k p r2 hk
      rcases getElem?_set_cases _ _ _ _ _ hk with ⟨_, h2⟩ | ⟨_, h2⟩
      · cases h2
        exact hclean i _ _ hi
      · exact hclean k p r2 h2
    · intro k r2 hk
      rcases getElem?_set_cases _ _ _ _ _ hk with ⟨_, h2⟩ | ⟨_, h2⟩
      · cases h2
      · exact hcleanRet k r2 h2
    · rw [inFlight_emit i ms s.pcs x rest r hi hlast hinv.len] at hbal
      simpa using hbal
  | retNil i hi =>
    refine ⟨herr, hcan, ?_, ?_, ?_⟩
    · intro k p r2 hk
      rcases getElem?_set_cases _ _ _ _ _ hk with ⟨_, h2⟩ | ⟨_, h2⟩
      · cases h2
      · exact hclean k p r2 h2
    · intro k r2 hk
      rcases getElem?_set_cases _ _ _ _ _ hk with ⟨_, h2⟩ | ⟨_, h2⟩
      · cases h2
      · exact hcleanRet k r2 h2
    · simp only [inFlight_set_same i ms s.pcs _ Pc.idle hi rfl]
      exact hbal
  | retErr i e hi => exact absurd (hclean i _ _ hi) (by simp)
  | eof i hi hc =>
    refine ⟨herr, hcan, ?_, ?_, ?_⟩
    · intro k p r2 hk
      rcases getElem?_set_cases _ _ _ _ _ hk with ⟨_, h2⟩ | ⟨_, h2⟩
      · cases h2
      · exact hclean k p r2 h2
    · intro k r2 hk
      rcases getElem?_set_cases _ _ _ _ _ hk with ⟨_, h2⟩ | ⟨_, h2⟩
      · cases h2
        rfl
      · exact hcleanRet k r2 h2
    · simp only [inFlight_set_same i ms s.pcs _ (Pc.returned none) hi rfl]
      exact hbal
  | ctxDone i hi hc =>
    rw [hcan] at hc
    cases hc
  | abort i x rest r m hi hm hw hc =>
    rw [hcan] at hc
    cases hc
  | report i r hi =>
    have hr : r = none := hcleanRet i r hi
    subst hr
    refine ⟨herr, hcan, ?_, ?_, ?_⟩
    · intro k p r2 hk
      rcases getElem?_set_cases _ _ _ _ _ hk with ⟨_, h2⟩ | ⟨_, h2⟩
      · cases h2
      · exact hclean k p r2 h2
    · intro k r2 hk
      rcases getElem?_set_cases _ _ _ _ _ hk with ⟨_, h2⟩ | ⟨_, h2⟩
      · cases h2
      · exact hcleanRet k r2 h2
    · simp only [noteResult, inFlight_set_same i ms s.pcs _ Pc.done hi rfl]
      exact hbal
  | cancel hc => exact absurd rfl ha

theorem finished_iff {V : Type} (s : CallState V) :
    s.finished = true ↔ ∀ pc ∈ s.pcs, pc = Pc.done := by
  simp only [CallState.finished, List.all_eq_true]
  constructor
  · intro h pc hpc
    have := h pc hpc
    cases pc <;> simp_all
  · intro h pc hpc
    rw [h pc hpc]

theorem chain_never_failing {Ty V : Type} (ms : List (Member Ty V)) (v : V)
    (hms : ms ≠ []) (hnofail : ∀ m ∈ ms, ∀ x, m.ret x = none) :
    CallEnsures (chainStep ms v) (chainInit ms) (fun sink r => sink = flow ms [v] ∧ r = none) := by
  refine ⟨chainFuel ms v (chainInit ms), ?_⟩
  intro acts s hacts hrun
  have hQ : ∀ a ∈ acts, a ≠ Action.cancel := fun a ha h => hacts (h ▸ ha)
  have hboth : ChainInv ms s ∧ FlowInv ms v s :=
    runFrom_invariant (chainStep ms v) (fun s => ChainInv ms s ∧ FlowInv ms v s)
      (fun a => a ≠ Action.cancel)
      (fun s a s1 ha hP hs =>
        ⟨ChainInv_step hP.1 (chainStep_sound ms v s s1 a hs),
          FlowInv_step hnofail hP.1 hP.2 ha (chainStep_sound ms v s s1 a hs)⟩)
      acts (chainInit ms) s hQ ⟨ChainInv_init ms, FlowInv_init ms v⟩ hrun
  have hlen := runFrom_length_le (chainStep ms v) (fun s => ChainInv ms s) (fun _ => True)
    (chainFuel ms v)
    (fun s a s1 _ hP hs => ChainInv_step hP (chainStep_sound ms v s s1 a hs))
    (fun s a s1 _ hP hs => chainFuel_step hP (chainStep_sound ms v s s1 a hs))
    acts (chainInit ms) s (fun _ _ => trivial) (ChainInv_init ms) hrun
  refine ⟨by omega, ?_, ?_⟩
  · intro hfin
    obtain ⟨hinv, hflow⟩ := hboth
    rw [finished_iff] at hfin
    have hfl : inFlight ms s.pcs = [] := by
      apply inFlight_nil_of_pend
      intro pc hpc
      rw [hfin pc hpc]
      rfl
    have h0 : s.pcs[0]? = some Pc.done := by
      have hpos : 0 < s.pcs.length := by
        rw [hinv.len]
        exact List.length_pos.2 hms
      rw [List.getElem?_eq_getElem hpos, hfin _ (List.getElem_mem hpos)]
    have hfeed : s.feeder = .finished := by
      rcases hinv.closedBefore 0 (Or.inr h0) with h | h
      · rw [hflow.cancelled] at h
        cases h
      · simpa [inputClosed] using h
    have hbal := hflow.balance
    rw [hfl, hfeed] at hbal
    exact ⟨by simpa using hbal, hflow.err⟩
  · intro hnf
    exact chain_progress v hboth.1 hnf (fun hc => by
      rw [hboth.2.cancelled] at hc
      cases hc)

theorem wrapInt_succ (x : Int) : wrapInt (wrapInt x + 1) = wrapInt (x + 1) := by
  unfold wrapInt
  omega

theorem wrapInt_of_inRange (x : Int) (h1 : -9223372036854775808 ≤ x)
    (h2 : x < 9223372036854775808) : wrapInt x = x := by
  unfold wrapInt
  omega

theorem flow_fansOut {Ty : Type} (ms : List (Member Ty Int)) (ks : List Nat)
    (h : List.Forall₂ FansOut ms ks) :
    ∀ (a : Nat) (x : Int), flow ms (List.replicate a (wrapInt x)) =
      List.replicate (a * ks.prod) (wrapInt (x + ks.length)) := by
  induction h with
  | nil =>
    intro a x
    simp [flow]
  | @cons m k ms1 ks1 hm _ ih =>
    intro a x
    have h1 : (List.replicate a (wrapInt x)).flatMap m.outs =
        List.replicate (a * k) (wrapInt (x + 1)) := by
      simp [hm.1, List.flatMap_replicate, wrapInt_succ]
    simp only [flow, h1, ih, List.prod_cons, List.length_cons]
    congr 1
    · ring
    · congr 1
      push_cast
      ring

theorem flow_fansOut_one {Ty : Type} (ms : List (Member Ty Int)) (ks : List Nat)
    (h : List.Forall₂ FansOut ms ks) (hks : ks ≠ []) (v : Int) :
    flow ms [v] = List.replicate ks.prod (wrapInt (v + ks.length)) := by
  cases h with
  | nil => exact absurd rfl hks
  | @cons m k ms1 ks1 hm hrest =>
    have h1 : [v].flatMap m.outs = List.replicate k (wrapInt (v + 1)) := by
      simp [hm.1]
    simp only [flow, h1, flow_fansOut ms1 ks1 hrest, List.prod_cons, List.length_cons]
    congr 2
    push_cast
    ring

theorem ret_none_of_fansOut {Ty : Type} (ms : List (Member Ty Int)) (ks : List Nat)
    (h : List.Forall₂ FansOut ms ks) : ∀ m ∈ ms, ∀ x, m.ret x = none := by
  induction h with
  | nil =>
    intro m hm
    cases hm
  | cons hm _ ih =>
    intro m2 hm2 x
    rcases List.mem_cons.1 hm2 with rfl | hm2
    · exact hm.2 x
    · exact ih m2 hm2 x

/-- C1. Chain fan-out law: for every chain of `n ≥ 1` stages in which stage
`i` sends, for each item it receives, `k_i` copies of item + 1 and returns
nil, and every integer `v`, one call `Transform(ctx, v, sink)` of
`Chain(stages...)` under a context that is never cancelled comes to an end
whatever the scheduler does, has then sent exactly `k_1 * ... * k_n` values
to the sink, each equal to `v + n` in Go's `int` arithmetic (which is
`v + n` itself unless the sum overflows), and returns nil. -/
theorem Chain_fan_out {Ty : Type} (ms : List (Member Ty Int)) (ks : List Nat)
    (hstages : List.Forall₂ FansOut ms ks) (hks : ks ≠ []) (v : Int) :
    ∃ t, Chain (ms.map Transformer.impl) = .ok t ∧
      t.Ensures v (fun sink r =>
        sink = List.replicate ks.prod (wrapInt (v + ks.length)) ∧ r = none) ∧
      (-9223372036854775808 ≤ v + ks.length → v + ks.length < 9223372036854775808 →
        wrapInt (v + ks.length) = v + ks.length) := by
  have hflow := flow_fansOut_one ms ks hstages hks v
  have hnofail := ret_none_of_fansOut ms ks hstages
  have hlen := hstages.length_eq
  match ms, hlen, hflow, hnofail with
  | [], hlen, _, _ =>
    exact absurd (List.length_eq_zero.1 hlen.symm) hks
  | [m], _, hflow, hnofail =>
    refine ⟨.impl m, rfl, ?_, wrapInt_of_inRange _⟩
    simp only [Transformer.Ensures]
    refine ⟨?_, hnofail m (List.mem_singleton_self m) v⟩
    rw [← hflow]
    simp [flow]
  | m1 :: m2 :: rest, _, hflow, hnofail =>
    refine ⟨.chain ((m1 :: m2 :: rest).map Transformer.impl), rfl, ?_, wrapInt_of_inRange _⟩
    refine ⟨m1 :: m2 :: rest, rfl, ?_⟩
    have h := chain_never_failing (m1 :: m2 :: rest) v (by simp) hnofail
    rw [hflow] at h
    exact h

/-- The example of C1: the stages `chainTest(1)`, `chainTest(2)`,
`chainTest(3)` on input 5 give 6 values, each 8, under every schedule; one
such schedule is run to its end. -/
theorem Chain_fan_out_witness :
    List.Forall₂ FansOut [chainTest "int" 1, chainTest "int" 2, chainTest "int" 3] [1, 2, 3] ∧
      ([1, 2, 3] : List Nat) ≠ [] ∧
      (∃ t, Chain ([chainTest "int" 1, chainTest "int" 2, chainTest "int" 3].map
            Transformer.impl) = .ok t ∧
        t.Ensures 5 (fun sink r =>
          sink = List.replicate [1, 2, 3].prod (wrapInt (5 + ([1, 2, 3] : List Nat).length)) ∧
            r = none) ∧
        (-9223372036854775808 ≤ (5 : Int) + ([1, 2, 3] : List Nat).length →
          (5 : Int) + ([1, 2, 3] : List Nat).length < 9223372036854775808 →
          wrapInt (5 + ([1, 2, 3] : List Nat).length) = 5 + ([1, 2, 3] : List Nat).length)) ∧
      List.replicate [1, 2, 3].prod (wrapInt (5 + ([1, 2, 3] : List Nat).length)) =
        [8, 8, 8, 8, 8, 8] ∧
      (chainRun [chainTest "int" 1, chainTest "int" 2, chainTest "int" 3] 5
          [.feed, .feedClose, .pass 0, .ret 0, .eof 0, .report 0,
            .pass 1, .emit 2, .emit 2, .emit 2, .ret 2, .pass 1, .ret 1, .eof 1, .report 1,
            .emit 2, .emit 2, .emit 2, .ret 2, .eof 2, .report 2]).map
        (fun s => (s.finished, s.sink, s.err)) = some (true, [8, 8, 8, 8, 8, 8], none) :=
  ⟨.cons ⟨fun _ => rfl, fun _ => rfl⟩
      (.cons ⟨fun _ => rfl, fun _ => rfl⟩ (.cons ⟨fun _ => rfl, fun _ => rfl⟩ .nil)),
    by decide,
    Chain_fan_out [chainTest "int" 1, chainTest "int" 2, chainTest "int" 3] [1, 2, 3]
      (.cons ⟨fun _ => rfl, fun _ => rfl⟩
        (.cons ⟨fun _ => rfl, fun _ => rfl⟩ (.cons ⟨fun _ => rfl, fun _ => rfl⟩ .nil)))
      (by decide) 5,
    by decide, by decide⟩

/-! ### Where the error of a call comes from -/

theorem failing_running {V : Type} (p q : List V) (r : Option GoError) :
    (Pc.running p r).failing = (Pc.running q r).failing := by
  cases r <;> rfl

theorem Alarm_set {V : Type} {s s1 : CallState V} (k : Nat) (old new : Pc V)
    (hold : s.pcs[k]? = some old) (hpcs : s1.pcs = s.pcs.set k new)
    (herr : s.err ≠ none → s1.err ≠ none)
    (hnew : old.failing = true → s1.err ≠ none ∨ new.failing = true) (h : Alarm s) :
    Alarm s1 := by
  rcases h with h | ⟨j, pc, hj, hpc⟩
  · exact Or.inl (herr h)
  · by_cases hkj : k = j
    · subst hkj
      rw [hold] at hj
      cases hj
      rcases hnew hpc with h | h
      · exact Or.inl h
      · refine Or.inr ⟨k, new, ?_, h⟩
        rw [hpcs, List.getElem?_set_self (List.getElem?_eq_some_iff.1 hold).1]
    · refine Or.inr ⟨j, pc, ?_, hpc⟩
      rw [hpcs, List.getElem?_set_ne hkj]
      exact hj

theorem Alarm_report {V : Type} {s : CallState V} (k : Nat) (r : Option GoError)
    (hk : s.pcs[k]? = some (.returned r)) (h : Alarm s) : Alarm (noteResult s k r) := by
  cases r with
  | none =>
    exact Alarm_set k _ Pc.done hk rfl id (fun h => by simp [Pc.failing] at h) h
  | some e =>
    refine Or.inl ?_
    cases herr : s.err with
    | none => simp [noteResult, herr]
    | some e2 => simp [noteResult, herr]

theorem Alarm_finished {V : Type} {s : CallState V} (h : Alarm s)
    (hfin : s.finished = true) : s.err ≠ none := by
  rcases h with h | ⟨j, pc, hj, hpc⟩
  · exact h
  · rw [finished_iff] at hfin
    rw [hfin pc (List.getElem?_mem hj)] at hpc
    simp [Pc.failing] at hpc

theorem Alarm_chainStep {Ty V : Type} {ms : List (Member Ty V)} {v : V} {s s1 : CallState V}
    {a : Action} (h : ChainStep ms v s a s1) (hA : Alarm s) : Alarm s1 := by
  cases h with
  | feed m hf h0 hm =>
    exact Alarm_set 0 _ _ h0 rfl id (fun h => by simp [Pc.failing] at h) hA
  | feedClose hf => exact hA
  | pass i x rest r m hi hj hm =>
    have hmid : Alarm { s with pcs := s.pcs.set i (.running rest r) } :=
      Alarm_set i _ _ hi rfl id (fun h => Or.inr (by rw [← failing_running (x :: rest)]; exact h))
        hA
    have hj2 : (s.pcs.set i (Pc.running rest r))[i + 1]? = some .idle := by
      rw [List.getElem?_set_ne (by omega)]
      exact hj
    exact Alarm_set (s := { s with pcs := s.pcs.set i (.running rest r) }) (i + 1) _ _ hj2 rfl
      id (fun h => by simp [Pc.failing] at h) hmid
  | emit i x rest r hi hlast =>
    exact Alarm_set i _ _ hi rfl id
      (fun h => Or.inr (by rw [← failing_running (x :: rest)]; exact h)) hA
  | retNil i hi =>
    exact Alarm_set i _ _ hi rfl id (fun h => by simp [Pc.failing] at h) hA
  | retErr i e hi => exact Alarm_set i _ _ hi rfl id (fun _ => Or.inr rfl) hA
  | eof i hi hc => exact Alarm_set i _ _ hi rfl id (fun h => by simp [Pc.failing] at h) hA
  | ctxDone i hi hc => exact Alarm_set i _ _ hi rfl id (fun _ => Or.inr rfl) hA
  | abort i x rest r m hi hm hw hc => exact Alarm_set i _ _ hi rfl id (fun _ => Or.inr rfl) hA
  | report i r hi => exact Alarm_report i r hi hA
  | cancel hc => exact hA

theorem OriginInv_set {V : Type} {R : Nat → List V → Option GoError → Prop}
    {wrap : GoError → GoError} {s s1 : CallState V} (hinv : OriginInv R wrap s) (k : Nat)
    (new : Pc V) (hpcs : s1.pcs = s.pcs.set k new) (herr : s1.err = s.err)
    (hcan : s1.cancelled = s.cancelled)
    (hrun : ∀ p r, new = Pc.running p r → R k p r)
    (hret : ∀ x, new = Pc.returned (some x) → s.err = none →
      ∃ e, R k [] (some e) ∧ x = wrap e) : OriginInv R wrap s1 := by
  refine ⟨?_, ?_, ?_, ?_⟩
  · intro j p r hj
    rw [hpcs] at hj
    rcases getElem?_set_cases _ _ _ _ _ hj with ⟨hkj, hnew⟩ | ⟨_, hold⟩
    · subst hkj
      exact hrun p r hnew.symm
    · exact hinv.running j p r hold
  · rw [hcan, herr]
    exact hinv.byGroup
  · rw [herr]
    intro hnone j x hj
    rw [hpcs] at hj
    rcases getElem?_set_cases _ _ _ _ _ hj with ⟨hkj, hnew⟩ | ⟨_, hold⟩
    · subst hkj
      exact hret x hnew.symm hnone
    · exact hinv.returned hnone j x hold
  · rw [herr]
    exact hinv.kept

theorem OriginInv_report {V : Type} {R : Nat → List V → Option GoError → Prop}
    {wrap : GoError → GoError} {s : CallState V} (hinv : OriginInv R wrap s) (k : Nat)
    (r : Option GoError) (hk : s.pcs[k]? = some (.returned r)) :
    OriginInv R wrap (noteResult s k r) := by
  cases r with
  | none =>
    exact OriginInv_set hinv k Pc.done rfl rfl rfl (fun _ _ h => by cases h)
      (fun _ h => by cases h)
  | some x =>
    cases herr : s.err with
    | some e2 =>
      exact OriginInv_set hinv k Pc.done (by simp [noteResult, herr])
        (by simp [noteResult, herr]) (by simp [noteResult, herr]) (fun _ _ h => by cases h)
        (fun _ h => by cases h)
    | none =>
      have hpcs : (noteResult s k (some x)).pcs = s.pcs.set k .done := by
        simp [noteResult, herr]
      have herr1 : (noteResult s k (some x)).err = some x := by simp [noteResult, herr]
      refine ⟨?_, ?_, ?_, ?_⟩
      · intro j p r hj
        rw [hpcs] at hj
        rcases getElem?_set_cases _ _ _ _ _ hj with ⟨_, hnew⟩ | ⟨_, hold⟩
        · cases hnew
        · exact hinv.running j p r hold
      · intro _
        rw [herr1]
        simp
      · intro hnone
        rw [herr1] at hnone
        cases hnone
      · intro x1 hx1
        rw [herr1] at hx1
        cases hx1
        exact ⟨k, hinv.returned herr k x hk⟩

theorem flow_mem {Ty V : Type} (ms : List (Member Ty V)) (x : V) :
    ∀ xs : List V, x ∈ flow ms xs ↔ ∃ y ∈ xs, x ∈ flow ms [y] := by
  intro xs
  induction xs with
  | nil => simp [flow_nil]
  | cons z rest ih =>
    have h : flow ms (z :: rest) = flow ms [z] ++ flow ms rest := flow_append ms [z] rest
    rw [h, List.mem_append, ih]
    constructor
    · rintro (h1 | ⟨y, hy, h2⟩)
      · exact ⟨z, List.mem_cons_self _ _, h1⟩
      · exact ⟨y, List.mem_cons_of_mem _ hy, h2⟩
    · rintro ⟨y, hy, h2⟩
      rcases List.mem_cons.1 hy with rfl | hy
      · exact Or.inl h2
      · exact Or.inr ⟨y, hy, h2⟩

theorem flow_take_succ {Ty V : Type} :
    ∀ (ms : List (Member Ty V)) (j : Nat) (m : Member Ty V) (xs : List V),
      ms[j]? = some m → flow (ms.take (j + 1)) xs = (flow (ms.take j) xs).flatMap m.outs := by
  intro ms
  induction ms with
  | nil =>
    intro j m xs h
    simp at h
  | cons a rest ih =>
    intro j m xs h
    cases j with
    | zero =>
      simp only [List.getElem?_cons_zero, Option.some.injEq] at h
      subst h
      simp [flow]
    | succ j =>
      simp only [List.getElem?_cons_succ] at h
      simp only [List.take_succ_cons, flow]
      exact ih j m _ h

theorem reach_descend {Ty V : Type} {ms : List (Member Ty V)} {i k : Nat}
    {m mk : Member Ty V} {x y : V} {e : GoError} (hm : ms[i]? = some m)
    (hret : m.ret x = some e) (hk : ms[k]? = some mk) (hki : k ≤ i)
    (hx : x ∈ flow ((ms.drop k).take (i - k)) [y]) :
    (k = i ∧ mk.ret y = some e) ∨
      (k < i ∧ ∃ z ∈ mk.outs y, x ∈ flow ((ms.drop (k + 1)).take (i - (k + 1))) [z]) := by
  by_cases hik : k = i
  · subst hik
    left
    simp only [Nat.sub_self, List.take_zero, flow, List.mem_singleton] at hx
    rw [hk] at hm
    cases hm
    rw [← hx]
    exact ⟨rfl, hret⟩
  · right
    have hlt : k < i := by omega
    refine ⟨hlt, ?_⟩
    have hklen : k < ms.length := (List.getElem?_eq_some_iff.1 hk).1
    have hdrop : ms.drop k = mk :: ms.drop (k + 1) := by
      rw [List.drop_eq_getElem_cons hklen]
      congr
      exact (List.getElem?_eq_some_iff.1 hk).2
    have hsub : i - k = (i - (k + 1)) + 1 := by omega
    rw [hdrop, hsub, List.take_succ_cons] at hx
    simp only [flow, List.flatMap_cons, List.flatMap_nil, List.append_nil] at hx
    exact (flow_mem _ x _).1 hx

theorem OriginInv_chainInit {Ty V : Type} (ms : List (Member Ty V)) (v : V)
    (wrap : GoError → GoError) : OriginInv (chainOrigin ms v) wrap (chainInit ms) := by
  refine ⟨?_, ?_, ?_, ?_⟩
  · intro j p r hj
    simp only [chainInit, List.getElem?_replicate] at hj
    split at hj <;> cases hj
  · simp [chainInit]
  · intro _ j x hj
    simp only [chainInit, List.getElem?_replicate] at hj
    split at hj <;> cases hj
  · simp [chainInit]

theorem chainOrigin_rest {Ty V : Type} {ms : List (Member Ty V)} {v : V} {j : Nat} {x : V}
    {rest : List V} {r : Option GoError} (h : chainOrigin ms v j (x :: rest) r) :
    chainOrigin ms v j rest r := by
  obtain ⟨m, y, hm, hy, hr, hsub⟩ := h
  exact ⟨m, y, hm, hy, hr, fun z hz => hsub z (List.mem_cons_of_mem _ hz)⟩

theorem OriginInv_chainStep {Ty V : Type} {ms : List (Member Ty V)} {v : V}
    {s s1 : CallState V} {a : Action}
    (hinv : OriginInv (chainOrigin ms v) (GoError.errorf "transform failed: ") s)
    (ha : a ≠ Action.cancel) (h : ChainStep ms v s a s1) :
    OriginInv (chainOrigin ms v) (GoError.errorf "transform failed: ") s1 := by
  cases h with
  | feed m hf h0 hm =>
    refine OriginInv_set hinv 0 _ rfl rfl rfl ?_ (fun _ h => by cases h)
    intro p r hnew
    cases hnew
    exact ⟨m, v, hm, by simp [flow], rfl, fun z hz => hz⟩
  | feedClose hf => exact ⟨hinv.running, hinv.byGroup, hinv.returned, hinv.kept⟩
  | pass i x rest r m hi hj hm =>
    have hold := hinv.running i (x :: rest) r hi
    have hmid : OriginInv (chainOrigin ms v) (GoError.errorf "transform failed: ")
        { s with pcs := s.pcs.set i (.running rest r) } := by
      refine OriginInv_set hinv i _ rfl rfl rfl ?_ (fun _ h => by cases h)
      intro p r2 hnew
      cases hnew
      exact chainOrigin_rest hold
    refine OriginInv_set hmid (i + 1) _ rfl rfl rfl ?_ (fun _ h => by cases h)
    intro p r2 hnew
    cases hnew
    obtain ⟨mi, y, hmi, hy, _, hsub⟩ := hold
    refine ⟨m, x, hm, ?_, rfl, fun z hz => hz⟩
    rw [flow_take_succ ms i mi [v] hmi, List.mem_flatMap]
    exact ⟨y, hy, hsub x (List.mem_cons_self _ _)⟩
  | emit i x rest r hi hlast =>
    refine OriginInv_set hinv i _ rfl rfl rfl ?_ (fun _ h => by cases h)
    intro p r2 hnew
    cases hnew
    exact chainOrigin_rest (hinv.running i (x :: rest) r hi)
  | retNil i hi =>
    exact OriginInv_set hinv i _ rfl rfl rfl (fun _ _ h => by cases h) (fun _ h => by cases h)
  | retErr i e hi =>
    refine OriginInv_set hinv i _ rfl rfl rfl (fun _ _ h => by cases h) ?_
    intro x hnew _
    cases hnew
    exact ⟨e, hinv.running i [] (some e) hi, rfl⟩
  | eof i hi hc =>
    exact OriginInv_set hinv i _ rfl rfl rfl (fun _ _ h => by cases h) (fun _ h => by cases h)
  | ctxDone i hi hc =>
    refine OriginInv_set hinv i _ rfl rfl rfl (fun _ _ h => by cases h) ?_
    intro _ _ hnone
    exact absurd hnone (hinv.byGroup hc)
  | abort i x rest r m hi hm hw hc =>
    refine OriginInv_set hinv i _ rfl rfl rfl (fun _ _ h => by cases h) ?_
    intro _ _ hnone
    exact absurd hnone (hinv.byGroup hc)
  | report i r hi => exact OriginInv_report hinv i r hi
  | cancel hc => exact absurd rfl ha

theorem FailureAhead_chainInit {Ty V : Type} (ms : List (Member Ty V)) (i : Nat) (x : V)
    (hms : ms ≠ []) : FailureAhead ms i x (chainInit ms) := by
  refine Or.inr (Or.inl ⟨rfl, ?_⟩)
  cases ms with
  | nil => exact absurd rfl hms
  | cons m rest => simp [chainInit, List.replicate_succ]

theorem Carrier_set {Ty V : Type} {ms : List (Member Ty V)} {i : Nat} {x : V}
    {s s1 : CallState V} (k : Nat) (old new : Pc V) (hold : s.pcs[k]? = some old)
    (hpcs : s1.pcs = s.pcs.set k new)
    (hkeep : k < i → ∀ p r y, old = Pc.running p r → y ∈ p →
      ∃ p1 r1, new = Pc.running p1 r1 ∧ y ∈ p1)
    (h : Carrier ms i x s) : Carrier ms i x s1 := by
  obtain ⟨j, p, r, y, hji, hj, hy, hx⟩ := h
  by_cases hkj : k = j
  · subst hkj
    rw [hold] at hj
    cases hj
    obtain ⟨p1, r1, hnew, hy1⟩ := hkeep hji p r y rfl hy
    refine ⟨k, p1, r1, y, hji, ?_, hy1, hx⟩
    rw [hpcs, List.getElem?_set_self (List.getElem?_eq_some_iff.1 hold).1, hnew]
  · refine ⟨j, p, r, y, hji, ?_, hy, hx⟩
    rw [hpcs, List.getElem?_set_ne hkj]
    exact hj

theorem feederHolds_set {V : Type} {s s1 : CallState V} (k : Nat) (new : Pc V)
    (hpcs : s1.pcs = s.pcs.set k new) (hfeed : s1.feeder = s.feeder) (hk : k ≠ 0)
    (h : s.feeder = .toSend ∧ s.pcs[0]? = some Pc.idle) :
    s1.feeder = .toSend ∧ s1.pcs[0]? = some Pc.idle := by
  refine ⟨by rw [hfeed]; exact h.1, ?_⟩
  rw [hpcs, List.getElem?_set_ne hk]
  exact h.2

theorem Alarm_of_set {V : Type} {s s1 : CallState V} (k : Nat) (old new : Pc V)
    (hold : s.pcs[k]? = some old) (hpcs : s1.pcs = s.pcs.set k new)
    (hnew : new.failing = true) : Alarm s1 := by
  refine Or.inr ⟨k, new, ?_, hnew⟩
  rw [hpcs, List.getElem?_set_self (List.getElem?_eq_some_iff.1 hold).1]

theorem noteResult_pcs_feeder {V : Type} (s : CallState V) (i : Nat) (r : Option GoError) :
    (noteResult s i r).pcs = s.pcs.set i .done ∧ (noteResult s i r).feeder = s.feeder := by
  cases r with
  | none => exact ⟨rfl, rfl⟩
  | some e =>
    cases herr : s.err with
    | none => simp [noteResult, herr]
    | some e2 => simp [noteResult, herr]

theorem FailureAhead_chainStep {Ty V : Type} {ms : List (Member Ty V)} {v : V} {i : Nat}
    {x : V} {m : Member Ty V} {e : GoError} {s s1 : CallState V} {a : Action}
    (hm : ms[i]? = some m) (hret : m.ret x = some e) (hx : x ∈ flow (ms.take i) [v])
    (h : ChainStep ms v s a s1) (hQ : FailureAhead ms i x s) : FailureAhead ms i x s1 := by
  have hilen : i < ms.length := (List.getElem?_eq_some_iff.1 hm).1
  rcases hQ with hA | hF | hC
  · exact Or.inl (Alarm_chainStep h hA)
  · have hne : ∀ (k : Nat) (pc : Pc V), s.pcs[k]? = some pc → pc ≠ Pc.idle → k ≠ 0 := by
      intro k pc hk hpc h0
      subst h0
      rw [hF.2] at hk
      exact hpc (Option.some.inj hk).symm
    cases h with
    | feed m0 hf h0 hm0 =>
      have hx0 : x ∈ flow ((ms.drop 0).take (i - 0)) [v] := by simpa using hx
      rcases reach_descend hm hret hm0 (Nat.zero_le _) hx0 with ⟨_, hr⟩ | ⟨hlt, z, hz, hxz⟩
      · exact Or.inl (Alarm_of_set 0 _ _ h0 rfl (by rw [hr]; rfl))
      · refine Or.inr (Or.inr ⟨0, m0.outs v, m0.ret v, z, hlt, ?_, hz, hxz⟩)
        exact List.getElem?_set_self (List.getElem?_eq_some_iff.1 h0).1
    | feedClose hf =>
      rw [hF.1] at hf
      cases hf
    | pass k y rest r m1 hi hj hm1 =>
      have hmid : ({ s with pcs := s.pcs.set k (.running rest r) } : CallState V).feeder =
            .toSend ∧
          ({ s with pcs := s.pcs.set k (.running rest r) } : CallState V).pcs[0]? =
            some Pc.idle :=
        feederHolds_set k _ rfl rfl (hne k _ hi (by simp)) hF
      exact Or.inr (Or.inl (feederHolds_set
        (s := { s with pcs := s.pcs.set k (.running rest r) }) (k + 1) _ rfl rfl (by omega) hmid))
    | emit k y rest r hi hlast =>
      exact Or.inr (Or.inl (feederHolds_set k _ rfl rfl (hne k _ hi (by simp)) hF))
    | retNil k hi =>
      exact Or.inr (Or.inl (feederHolds_set k _ rfl rfl (hne k _ hi (by simp)) hF))
    | retErr k e1 hi => exact Or.inl (Alarm_of_set k _ _ hi rfl rfl)
    | eof k hi hc =>
      have hk : k ≠ 0 := by
        intro h0
        subst h0
        simp only [inputClosed, decide_eq_true_eq] at hc
        rw [hF.1] at hc
        cases hc
      exact Or.inr (Or.inl (feederHolds_set k _ rfl rfl hk hF))
    | ctxDone k hi hc => exact Or.inl (Alarm_of_set k _ _ hi rfl rfl)
    | abort k y rest r m1 hi hm1 hw hc => exact Or.inl (Alarm_of_set k _ _ hi rfl rfl)
    | report k r hi =>
      obtain ⟨hp, hfe⟩ := noteResult_pcs_feeder s k r
      exact Or.inr (Or.inl (feederHolds_set k _ hp hfe (hne k _ hi (by simp)) hF))
    | cancel hc => exact Or.inr (Or.inl hF)
  · cases h with
    | feed m0 hf h0 hm0 =>
      exact Or.inr (Or.inr (Carrier_set 0 _ _ h0 rfl (fun _ _ _ _ h => by cases h) hC))
    | feedClose hf => exact Or.inr (Or.inr hC)
    | pass k y0 rest r m1 hi hj hm1 =>
      have hklen : k + 1 < s.pcs.length := (List.getElem?_eq_some_iff.1 hj).1
      have hnew1 : ((s.pcs.set k (Pc.running rest r)).set (k + 1)
          (Pc.running (m1.outs y0) (m1.ret y0)))[k + 1]? =
            some (Pc.running (m1.outs y0) (m1.ret y0)) :=
        List.getElem?_set_self (by rw [List.length_set]; exact hklen)
      have hnew0 : ((s.pcs.set k (Pc.running rest r)).set (k + 1)
          (Pc.running (m1.outs y0) (m1.ret y0)))[k]? = some (Pc.running rest r) := by
        rw [List.getElem?_set_ne (by omega)]
        exact List.getElem?_set_self (by omega)
      obtain ⟨j, p, r1, y, hji, hj1, hy, hxy⟩ := hC
      by_cases hjk : j = k
      · subst hjk
        rw [hi] at hj1
        cases hj1
        rcases List.mem_cons.1 hy with hy0 | hyr
        · subst hy0
          rcases reach_descend hm hret hm1 (by omega) hxy with ⟨_, hr⟩ | ⟨hlt, z, hz, hxz⟩
          · exact Or.inl (Or.inr ⟨j + 1, _, hnew1, by rw [hr]; rfl⟩)
          · exact Or.inr (Or.inr ⟨j + 1, _, _, z, hlt, hnew1, hz, hxz⟩)
        · exact Or.inr (Or.inr ⟨j, rest, r, y, hji, hnew0, hyr, hxy⟩)
      · have hjk1 : k + 1 ≠ j := by
          intro h1
          subst h1
          rw [hj] at hj1
          cases hj1
        refine Or.inr (Or.inr ⟨j, p, r1, y, hji, ?_, hy, hxy⟩)
        show ((s.pcs.set k (Pc.running rest r)).set (k + 1) _)[j]? = _
        rw [List.getElem?_set_ne hjk1, List.getElem?_set_ne (fun h => hjk h.symm)]
        exact hj1
    | emit k y rest r hi hlast =>
      exact Or.inr (Or.inr (Carrier_set k _ _ hi rfl (fun hk => by omega) hC))
    | retNil k hi =>
      refine Or.inr (Or.inr (Carrier_set k _ _ hi rfl ?_ hC))
      intro _ p r y hold hy
      cases hold
      cases hy
    | retErr k e1 hi => exact Or.inl (Alarm_of_set k _ _ hi rfl rfl)
    | eof k hi hc =>
      exact Or.inr (Or.inr (Carrier_set k _ _ hi rfl (fun _ _ _ _ h => by cases h) hC))
    | ctxDone k hi hc => exact Or.inl (Alarm_of_set k _ _ hi rfl rfl)
    | abort k y rest r m1 hi hm1 hw hc => exact Or.inl (Alarm_of_set k _ _ hi rfl rfl)
    | report k r hi =>
      exact Or.inr (Or.inr (Carrier_set k _ _ hi (noteResult_pcs_feeder s k r).1
        (fun _ _ _ _ h => by cases h) hC))
    | cancel hc => exact Or.inr (Or.inr hC)

theorem FailureAhead_finished {Ty V : Type} {ms : List (Member Ty V)} {i : Nat} {x : V}
    {s : CallState V} (h : FailureAhead ms i x s) (hfin : s.finished = true) :
    s.err ≠ none := by
  rcases h with hA | hF | ⟨j, p, r, y, _, hj, _, _⟩
  · exact Alarm_finished hA hfin
  · rw [finished_iff] at hfin
    have := hfin _ (List.getElem?_mem hF.2)
    cases this
  · rw [finished_iff] at hfin
    have := hfin _ (List.getElem?_mem hj)
    cases this

theorem runFrom_append {V : Type} (step : CallState V → Action → Option (CallState V)) :
    ∀ (pre post : List Action) (s s1 : CallState V),
      runFrom step s (pre ++ post) = some s1 →
      ∃ s0, runFrom step s pre = some s0 ∧ runFrom step s0 post = some s1 := by
  intro pre
  induction pre with
  | nil =>
    intro post s s1 h
    exact ⟨s, rfl, h⟩
  | cons a rest ih =>
    intro post s s1 h
    simp only [List.cons_append, runFrom] at h ⊢
    cases hs : step s a with
    | none =>
      rw [hs] at h
      cases h
    | some s2 =>
      rw [hs] at h
      exact ih post s2 s1 h

theorem noteResult_err_kept {V : Type} (s : CallState V) (i : Nat) (r : Option GoError)
    (x : GoError) (h : s.err = some x) : (noteResult s i r).err = some x := by
  cases r with
  | none => exact h
  | some e => simp [noteResult, h]

theorem noteResult_first {V : Type} (s : CallState V) (i : Nat) (x : GoError)
    (h : s.err = none) : (noteResult s i (some x)).err = some x := by
  simp [noteResult, h]

theorem chainStep_err_kept {Ty V : Type} {ms : List (Member Ty V)} {v : V}
    {s s1 : CallState V} {a : Action} (h : ChainStep ms v s a s1) (x : GoError)
    (hx : s.err = some x) : s1.err = some x := by
  cases h with
  | report i r hi => exact noteResult_err_kept s i r x hx
  | _ => exact hx

/-- The error of the first goroutine of a chain whose return with an error
the group takes note of is the error the call returns. -/
theorem chain_first_report_kept {Ty V : Type} (ms : List (Member Ty V)) (v : V)
    (pre post : List Action) (i : Nat) (x : GoError) (s0 s : CallState V)
    (hrun : chainRun ms v (pre ++ Action.report i :: post) = some s)
    (hpre : chainRun ms v pre = some s0) (herr : s0.err = none)
    (hi : s0.pcs[i]? = some (.returned (some x))) : s.err = some x := by
  obtain ⟨s0a, h1, h2⟩ := runFrom_append (chainStep ms v) pre _ (chainInit ms) s hrun
  have h1b : runFrom (chainStep ms v) (chainInit ms) pre = some s0 := hpre
  rw [h1b] at h1
  cases h1
  simp only [runFrom, chainStep, hi] at h2
  exact runFrom_invariant (chainStep ms v) (fun s => s.err = some x) (fun _ => True)
    (fun s a s2 _ hP hs => chainStep_err_kept (chainStep_sound ms v s s2 a hs) x hP)
    post _ s (fun _ _ => trivial) (noteResult_first s0 i x herr) h2

theorem chain_origin {Ty V : Type} (ms : List (Member Ty V)) (v : V) (acts : List Action)
    (s : CallState V) (hacts : Action.cancel ∉ acts) (hrun : chainRun ms v acts = some s) :
    OriginInv (chainOrigin ms v) (GoError.errorf "transform failed: ") s :=
  runFrom_invariant (chainStep ms v)
    (fun s => OriginInv (chainOrigin ms v) (GoError.errorf "transform failed: ") s)
    (fun a => a ≠ Action.cancel)
    (fun s a s1 ha hP hs => OriginInv_chainStep hP ha (chainStep_sound ms v s s1 a hs))
    acts (chainInit ms) s (fun _ ha h => hacts (h ▸ ha)) (OriginInv_chainInit ms v _) hrun

theorem chain_failure_reported {Ty V : Type} (ms : List (Member Ty V)) (hms : ms ≠ [])
    (v : V) (acts : List Action) (s : CallState V) (hrun : chainRun ms v acts = some s)
    (hfin : s.finished = true)
    (hfail : ∃ (i : Nat) (m : Member Ty V) (y : V), ms[i]? = some m ∧
      y ∈ flow (ms.take i) [v] ∧ m.ret y ≠ none) : s.err ≠ none := by
  obtain ⟨i, m, y, hm, hy, hret⟩ := hfail
  cases hr : m.ret y with
  | none => exact absurd hr hret
  | some e =>
    exact FailureAhead_finished
      (runFrom_invariant (chainStep ms v) (fun s => FailureAhead ms i y s) (fun _ => True)
        (fun s a s1 _ hP hs =>
          FailureAhead_chainStep hm hr hy (chainStep_sound ms v s s1 a hs) hP)
        acts (chainInit ms) s (fun _ _ => trivial) (FailureAhead_chainInit ms i y hms) hrun)
      hfin

/-! ### What chain.Transform returns when a stage fails -/

theorem set_exited_iff {V : Type} (pcs : List (Pc V)) (k : Nat) (old new : Pc V)
    (hold : pcs[k]? = some old) (ho : old.exited = false) (hn : new.exited = false)
    (i : Nat) (pc : Pc V) (hpc : pc.exited = true) :
    (pcs.set k new)[i]? = some pc ↔ pcs[i]? = some pc := by
  by_cases hki : k = i
  · subst hki
    have hk : k < pcs.length := (List.getElem?_eq_some_iff.1 hold).1
    rw [List.getElem?_set_self hk, hold]
    constructor
    · intro h
      rw [← Option.some.inj h, hn] at hpc
      cases hpc
    · intro h
      rw [← Option.some.inj h, ho] at hpc
      cases hpc
  · rw [List.getElem?_set_ne hki]

theorem ErrInv_frame {V : Type} {wrap : GoError → GoError} {s s1 : CallState V}
    (hinv : ErrInv wrap s)
    (hpcs : ∀ (i : Nat) (pc : Pc V), pc.exited = true →
      (s1.pcs[i]? = some pc ↔ s.pcs[i]? = some pc))
    (hf : s1.failures = s.failures) (hr : s1.reporter = s.reporter) (he : s1.err = s.err) :
    ErrInv wrap s1 := by
  refine ⟨?_, ?_, ?_⟩
  · intro i e hie
    rw [hf] at hie
    obtain ⟨pc, hpc, hex⟩ := hinv.failedExited i e hie
    exact ⟨pc, (hpcs i pc hex).2 hpc, hex⟩
  · intro i e r hie hi
    rw [hf] at hie
    exact hinv.failedReturn i e r hie ((hpcs i (Pc.returned r) rfl).1 hi)
  · intro i hi
    rw [hr] at hi
    obtain ⟨hd, x, hx, hall⟩ := hinv.reported i hi
    refine ⟨(hpcs i Pc.done rfl).2 hd, x, by rw [he]; exact hx, ?_⟩
    intro e hie
    rw [hf] at hie
    exact hall e hie

theorem OwnErrInv_frame {V : Type} {s s1 : CallState V} (hinv : OwnErrInv s)
    (hpcs : ∀ (i : Nat) (pc : Pc V), pc.exited = true →
      (s1.pcs[i]? = some pc ↔ s.pcs[i]? = some pc))
    (hf : s1.failures = s.failures) (hr : s1.reporter = s.reporter) (he : s1.err = s.err) :
    OwnErrInv s1 := by
  refine ⟨?_, ?_, ?_⟩
  · intro i x hi
    rw [hf, he]
    exact hinv.returnedFailed i x ((hpcs i (Pc.returned (some x)) rfl).1 hi)
  · intro h
    rw [he] at h
    rw [hf, hr]
    exact hinv.errReporter h
  · intro h
    rw [hf] at h
    rw [he]
    rcases hinv.failedSeen h with h1 | ⟨i, x, hi⟩
    · exact Or.inl h1
    · exact Or.inr ⟨i, x, (hpcs i (Pc.returned (some x)) rfl).2 hi⟩

theorem ErrInv_fail {V : Type} {wrap : GoError → GoError} {s s1 : CallState V}
    (hinv : ErrInv wrap s) (k : Nat) (old : Pc V) (e : GoError)
    (hold : s.pcs[k]? = some old) (ho : old.exited = false)
    (hpcs : s1.pcs = s.pcs.set k (.returned (some (wrap e))))
    (hf : s1.failures = s.failures ++ [(k, e)]) (hr : s1.reporter = s.reporter)
    (he : s1.err = s.err) : ErrInv wrap s1 := by
  have hk : k < s.pcs.length := (List.getElem?_eq_some_iff.1 hold).1
  have hnot : ∀ e2, (k, e2) ∉ s.failures := by
    intro e2 h2
    obtain ⟨pc, hpc, hex⟩ := hinv.failedExited k e2 h2
    rw [hold] at hpc
    rw [← Option.some.inj hpc, ho] at hex
    cases hex
  refine ⟨?_, ?_, ?_⟩
  · intro i e2 hie
    rw [hf, List.mem_append, List.mem_singleton] at hie
    rw [hpcs]
    rcases hie with hie | hie
    · obtain ⟨pc, hpc, hex⟩ := hinv.failedExited i e2 hie
      have hki : k ≠ i := by
        rintro rfl
        exact hnot e2 hie
      exact ⟨pc, by rw [List.getElem?_set_ne hki]; exact hpc, hex⟩
    · cases hie
      exact ⟨_, List.getElem?_set_self hk, rfl⟩
  · intro i e2 r hie hi
    rw [hf, List.mem_append, List.mem_singleton] at hie
    rw [hpcs] at hi
    rcases hie with hie | hie
    · have hki : k ≠ i := by
        rintro rfl
        exact hnot e2 hie
      rw [List.getElem?_set_ne hki] at hi
      exact hinv.failedReturn i e2 r hie hi
    · cases hie
      rw [List.getElem?_set_self hk] at hi
      cases hi
      rfl
  · intro i hi
    rw [hr] at hi
    obtain ⟨hd, x, hx, hall⟩ := hinv.reported i hi
    have hki : k ≠ i := by
      rintro rfl
      rw [hold] at hd
      rw [Option.some.inj hd] at ho
      cases ho
    refine ⟨by rw [hpcs, List.getElem?_set_ne hki]; exact hd, x, by rw [he]; exact hx, ?_⟩
    intro e2 hie
    rw [hf, List.mem_append, List.mem_singleton] at hie
    rcases hie with hie | hie
    · exact hall e2 hie
    · cases hie
      exact absurd rfl hki

theorem OwnErrInv_fail {V : Type} {s s1 : CallState V} (hinv : OwnErrInv s) (k : Nat)
    (old : Pc V) (e x : GoError) (hold : s.pcs[k]? = some old)
    (hpcs : s1.pcs = s.pcs.set k (.returned (some x)))
    (hf : s1.failures = s.failures ++ [(k, e)]) (hr : s1.reporter = s.reporter)
    (he : s1.err = s.err) : OwnErrInv s1 := by
  have hk : k < s.pcs.length := (List.getElem?_eq_some_iff.1 hold).1
  refine ⟨?_, ?_, ?_⟩
  · intro i y hi
    rw [hpcs] at hi
    rw [hf, he]
    rcases getElem?_set_cases _ _ _ _ _ hi with ⟨hki, _⟩ | ⟨_, h2⟩
    · subst hki
      exact Or.inl ⟨e, by simp⟩
    · rcases hinv.returnedFailed i y h2 with ⟨e2, h3⟩ | h3
      · exact Or.inl ⟨e2, List.mem_append_left _ h3⟩
      · exact Or.inr h3
  · intro h
    rw [he] at h
    obtain ⟨i, e2, h1, h2⟩ := hinv.errReporter h
    exact ⟨i, e2, by rw [hr]; exact h1, by rw [hf]; exact List.mem_append_left _ h2⟩
  · intro _
    exact Or.inr ⟨k, x, by rw [hpcs]; exact List.getElem?_set_self hk⟩

theorem ErrInv_exit {V : Type} {wrap : GoError → GoError} {s s1 : CallState V}
    (hinv : ErrInv wrap s) (k : Nat) (old : Pc V) (r : Option GoError)
    (hold : s.pcs[k]? = some old) (ho : old.exited = false)
    (hpcs : s1.pcs = s.pcs.set k (.returned r))
    (hf : s1.failures = s.failures) (hr : s1.reporter = s.reporter)
    (he : s1.err = s.err) : ErrInv wrap s1 := by
  have hnot : ∀ e2, (k, e2) ∉ s.failures := by
    intro e2 h2
    obtain ⟨pc, hpc, hex⟩ := hinv.failedExited k e2 h2
    rw [hold] at hpc
    rw [← Option.some.inj hpc, ho] at hex
    cases hex
  refine ⟨?_, ?_, ?_⟩
  · intro i e2 hie
    rw [hf] at hie
    rw [hpcs]
    obtain ⟨pc, hpc, hex⟩ := hinv.failedExited i e2 hie
    have hki : k ≠ i := by
      rintro rfl
      exact hnot e2 hie
    exact ⟨pc, by rw [List.getElem?_set_ne hki]; exact hpc, hex⟩
  · intro i e2 r2 hie hi
    rw [hf] at hie
    rw [hpcs] at hi
    have hki : k ≠ i := by
      rintro rfl
      exact hnot e2 hie
    rw [List.getElem?_set_ne hki] at hi
    exact hinv.failedReturn i e2 r2 hie hi
  · intro i hi
    rw [hr] at hi
    obtain ⟨hd, x, hx, hall⟩ := hinv.reported i hi
    have hki : k ≠ i := by
      rintro rfl
      rw [hold] at hd
      rw [Option.some.inj hd] at ho
      cases ho
    refine ⟨by rw [hpcs, List.getElem?_set_ne hki]; exact hd, x, by rw [he]; exact hx, ?_⟩
    intro e2 hie
    rw [hf] at hie
    exact hall e2 hie

theorem OwnErrInv_exit {V : Type} {s s1 : CallState V} (hinv : OwnErrInv s) (k : Nat)
    (old : Pc V) (r : Option GoError) (hold : s.pcs[k]? = some old)
    (ho : old.exited = false) (hpcs : s1.pcs = s.pcs.set k (.returned r))
    (hjust : r ≠ none → s.err ≠ none)
    (hf : s1.failures = s.failures) (hr : s1.reporter = s.reporter) (he : s1.err = s.err) :
    OwnErrInv s1 := by
  refine ⟨?_, ?_, ?_⟩
  · intro i y hi
    rw [hpcs] at hi
    rw [hf, he]
    rcases getElem?_set_cases _ _ _ _ _ hi with ⟨_, h2⟩ | ⟨_, h2⟩
    · cases h2
      exact Or.inr (hjust (by simp))
    · exact hinv.returnedFailed i y h2
  · intro h
    rw [he] at h
    rw [hf, hr]
    exact hinv.errReporter h
  · intro h
    rw [hf] at h
    rw [he]
    rcases hinv.failedSeen h with h1 | ⟨i, x, hi⟩
    · exact Or.inl h1
    · have hki : k ≠ i := by
        rintro rfl
        rw [hold] at hi
        rw [Option.some.inj hi] at ho
        cases ho
      exact Or.inr ⟨i, x, by rw [hpcs, List.getElem?_set_ne hki]; exact hi⟩

theorem ErrInv_report {V : Type} {wrap : GoError → GoError} {s : CallState V}
    (hinv : ErrInv wrap s) (k : Nat) (r : Option GoError)
    (hk : s.pcs[k]? = some (Pc.returned r)) : ErrInv wrap (noteResult s k r) := by
  have hlt : k < s.pcs.length := (List.getElem?_eq_some_iff.1 hk).1
  have hexit : ∀ (i : Nat) (e : GoError), (i, e) ∈ s.failures →
      ∃ pc, (s.pcs.set k Pc.done)[i]? = some pc ∧ pc.exited = true := by
    intro i e hie
    by_cases hki : k = i
    · subst hki
      exact ⟨_, List.getElem?_set_self hlt, rfl⟩
    · obtain ⟨pc, hpc, hex⟩ := hinv.failedExited i e hie
      exact ⟨pc, by rw [List.getElem?_set_ne hki]; exact hpc, hex⟩
  have hret : ∀ (i : Nat) (e : GoError) (r2 : Option GoError), (i, e) ∈ s.failures →
      (s.pcs.set k Pc.done)[i]? = some (Pc.returned r2) → r2 = some (wrap e) := by
    intro i e r2 hie hi
    rcases getElem?_set_cases _ _ _ _ _ hi with ⟨_, h2⟩ | ⟨_, h2⟩
    · cases h2
    · exact hinv.failedReturn i e r2 hie h2
  have hrep : ∀ i : Nat, s.reporter = some i →
      (s.pcs.set k Pc.done)[i]? = some Pc.done ∧
        ∃ x, s.err = some x ∧ ∀ e, (i, e) ∈ s.failures → x = wrap e := by
    intro i hi
    obtain ⟨hd, hx⟩ := hinv.reported i hi
    have hki : k ≠ i := by
      rintro rfl
      rw [hk] at hd
      cases hd
    exact ⟨by rw [List.getElem?_set_ne hki]; exact hd, hx⟩
  cases r with
  | none => exact ⟨hexit, hret, hrep⟩
  | some x =>
    cases herr : s.err with
    | some y =>
      have : noteResult s k (some x) = { s with pcs := s.pcs.set k .done } := by
        simp [noteResult, herr]
      rw [this]
      exact ⟨hexit, hret, hrep⟩
    | none =>
      have : noteResult s k (some x) =
          { s with pcs := s.pcs.set k .done, err := some x, cancelled := true,
                   reporter := some k } := by
        simp [noteResult, herr]
      rw [this]
      refine ⟨hexit, hret, ?_⟩
      intro i hi
      simp only [Option.some.injEq] at hi
      subst hi
      refine ⟨List.getElem?_set_self hlt, x, rfl, ?_⟩
      intro e hie
      exact (Option.some.inj (hinv.failedReturn k e (some x) hie hk))

theorem OwnErrInv_report {V : Type} {s : CallState V} (hinv : OwnErrInv s) (k : Nat)
    (r : Option GoError) (hk : s.pcs[k]? = some (Pc.returned r)) :
    OwnErrInv (noteResult s k r) := by
  have hretf : ∀ (i : Nat) (y : GoError),
      (s.pcs.set k Pc.done)[i]? = some (Pc.returned (some y)) →
      (∃ e, (i, e) ∈ s.failures) ∨ s.err ≠ none := by
    intro i y hi
    rcases getElem?_set_cases _ _ _ _ _ hi with ⟨_, h2⟩ | ⟨_, h2⟩
    · cases h2
    · exact hinv.returnedFailed i y h2
  have hseen : (r = none ∨ s.err ≠ none) → s.failures ≠ [] →
      s.err ≠ none ∨ ∃ (i : Nat) (x : GoError),
        (s.pcs.set k Pc.done)[i]? = some (Pc.returned (some x)) := by
    intro hcase h
    rcases hinv.failedSeen h with h1 | ⟨i, x, hi⟩
    · exact Or.inl h1
    · by_cases hki : k = i
      · subst hki
        rw [hk] at hi
        rcases hcase with hr | he
        · rw [hr] at hi
          cases hi
        · exact Or.inl he
      · exact Or.inr ⟨i, x, by rw [List.getElem?_set_ne hki]; exact hi⟩
  cases r with
  | none =>
    exact ⟨hretf, hinv.errReporter, hseen (Or.inl rfl)⟩
  | some x =>
    cases herr : s.err with
    | some y =>
      have : noteResult s k (some x) = { s with pcs := s.pcs.set k .done } := by
        simp [noteResult, herr]
      rw [this]
      exact ⟨hretf, hinv.errReporter, hseen (Or.inr (by simp [herr]))⟩
    | none =>
      have : noteResult s k (some x) =
          { s with pcs := s.pcs.set k .done, err := some x, cancelled := true,
                   reporter := some k } := by
        simp [noteResult, herr]
      rw [this]
      refine ⟨fun _ _ _ => Or.inr (by simp), ?_, fun _ => Or.inl (by simp)⟩
      intro _
      rcases hinv.returnedFailed k x hk with ⟨e, he⟩ | h
      · exact ⟨k, e, rfl, he⟩
      · exact absurd herr h

theorem ErrInv_chainInit {Ty V : Type} (ms : List (Member Ty V)) (wrap : GoError → GoError) :
    ErrInv wrap (chainInit ms : CallState V) := by
  refine ⟨?_, ?_, ?_⟩ <;> simp [chainInit]

theorem OwnErrInv_chainInit {Ty V : Type} (ms : List (Member Ty V)) :
    OwnErrInv (chainInit ms : CallState V) := by
  refine ⟨?_, ?_, ?_⟩
  · intro i x h
    simp only [chainInit, List.getElem?_replicate] at h
    split at h <;> cases h
  · simp [chainInit]
  · simp [chainInit]

theorem ErrInv_chainStep {Ty V : Type} {ms : List (Member Ty V)} {v : V} {s s1 : CallState V}
    {a : Action} (hinv : ErrInv (GoError.errorf "transform failed: ") s)
    (h : ChainStep ms v s a s1) : ErrInv (GoError.errorf "transform failed: ") s1 := by
  cases h with
  | feed m hf h0 hm =>
    exact ErrInv_frame hinv (set_exited_iff _ _ _ _ h0 rfl rfl) rfl rfl rfl
  | feedClose hf => exact ErrInv_frame hinv (fun _ _ _ => Iff.rfl) rfl rfl rfl
  | pass i x rest r m hi hj hm =>
    have hj2 : (s.pcs.set i (Pc.running rest r))[i + 1]? = some Pc.idle := by
      rw [List.getElem?_set_ne (by omega)]
      exact hj
    refine ErrInv_frame hinv ?_ rfl rfl rfl
    intro k pc hpc
    exact (set_exited_iff _ _ _ (Pc.running (m.outs x) (m.ret x)) hj2 rfl rfl k pc hpc).trans
      (set_exited_iff _ _ _ (Pc.running rest r) hi rfl rfl k pc hpc)
  | emit i x rest r hi hlast =>
    exact ErrInv_frame hinv (set_exited_iff _ _ _ _ hi rfl rfl) rfl rfl rfl
  | retNil i hi =>
    exact ErrInv_frame hinv (set_exited_iff _ _ _ _ hi rfl rfl) rfl rfl rfl
  | retErr i e hi => exact ErrInv_fail hinv i _ e hi rfl rfl rfl rfl rfl
  | eof i hi hc => exact ErrInv_exit hinv i _ none hi rfl rfl rfl rfl rfl
  | ctxDone i hi hc => exact ErrInv_exit hinv i _ _ hi rfl rfl rfl rfl rfl
  | abort i x rest r m hi hm hw hc => exact ErrInv_fail hinv i _ _ hi rfl rfl rfl rfl rfl
  | report i r hi => exact ErrInv_report hinv i r hi
  | cancel hc => exact ErrInv_frame hinv (fun _ _ _ => Iff.rfl) rfl rfl rfl

theorem CancelledByGroup_noteResult {V : Type} {s : CallState V} (hinv : CancelledByGroup s)
    (k : Nat) (r : Option GoError) : CancelledByGroup (noteResult s k r) := by
  cases r with
  | none => exact hinv
  | some x =>
    cases herr : s.err with
    | some y =>
      have : noteResult s k (some x) = { s with pcs := s.pcs.set k .done } := by
        simp [noteResult, herr]
      rw [this]
      exact hinv
    | none =>
      intro _
      simp [noteResult, herr]

theorem OwnErrInv_chainStep {Ty V : Type} {ms : List (Member Ty V)} {v : V}
    {s s1 : CallState V} {a : Action} (hcan : CancelledByGroup s) (hinv : OwnErrInv s)
    (ha : a ≠ Action.cancel) (h : ChainStep ms v s a s1) :
    CancelledByGroup s1 ∧ OwnErrInv s1 := by
  cases h with
  | feed m hf h0 hm =>
    exact ⟨hcan, OwnErrInv_frame hinv (set_exited_iff _ _ _ _ h0 rfl rfl) rfl rfl rfl⟩
  | feedClose hf => exact ⟨hcan, OwnErrInv_frame hinv (fun _ _ _ => Iff.rfl) rfl rfl rfl⟩
  | pass i x rest r m hi hj hm =>
    have hj2 : (s.pcs.set i (Pc.running rest r))[i + 1]? = some Pc.idle := by
      rw [List.getElem?_set_ne (by omega)]
      exact hj
    refine ⟨hcan, OwnErrInv_frame hinv ?_ rfl rfl rfl⟩
    intro k pc hpc
    exact (set_exited_iff _ _ _ (Pc.running (m.outs x) (m.ret x)) hj2 rfl rfl k pc hpc).trans
      (set_exited_iff _ _ _ (Pc.running rest r) hi rfl rfl k pc hpc)
  | emit i x rest r hi hlast =>
    exact ⟨hcan, OwnErrInv_frame hinv (set_exited_iff _ _ _ _ hi rfl rfl) rfl rfl rfl⟩
  | retNil i hi =>
    exact ⟨hcan, OwnErrInv_frame hinv (set_exited_iff _ _ _ _ hi rfl rfl) rfl rfl rfl⟩
  | retErr i e hi => exact ⟨hcan, OwnErrInv_fail hinv i _ e _ hi rfl rfl rfl rfl⟩
  | eof i hi hc =>
    exact ⟨hcan, OwnErrInv_exit hinv i _ none hi rfl rfl (fun h => absurd rfl h) rfl rfl rfl⟩
  | ctxDone i hi hc =>
    exact ⟨hcan, OwnErrInv_exit hinv i _ _ hi rfl rfl (fun _ => hcan hc) rfl rfl rfl⟩
  | abort i x rest r m hi hm hw hc =>
    exact ⟨hcan, OwnErrInv_fail hinv i _ _ _ hi rfl rfl rfl rfl⟩
  | report i r hi => exact ⟨CancelledByGroup_noteResult hcan i r, OwnErrInv_report hinv i r hi⟩
  | cancel hc => exact absurd rfl ha

theorem errorf_ne_self (pre : String) (e : GoError) : GoError.errorf pre e ≠ e := by
  intro h
  have := congrArg sizeOf h
  simp at this

theorem Chain_of_two {Ty V : Type} (ts : List (Transformer Ty V)) (h : 2 ≤ ts.length) :
    Chain ts = .ok (.chain ts) := by
  match ts, h with
  | _ :: _ :: _, _ => rfl

/-- C6, amended. A chain does not return a stage's error verbatim. For every
chain of two or more stages, every input `v` and every schedule, the call
takes a bounded number of steps and can always take a step until
`group.Wait()` returns, provided its members watch the context once it is
done. When the call has returned and some stage's `Transform` fails on an
item that comes to it, the returned error is not nil. Without cancellation
from outside, the error the call returns is
`fmt.Errorf("transform failed: %v", e)` for the non-nil error `e` that the
`Transform` of some stage has returned on an item that came to it: a new
error, different from `e`, whose text is "transform failed: " followed by the
text of `e`; when every failure of a stage on an item that comes to it is
`e`, the call returns `fmt.Errorf("transform failed: %v", e)`; and the error
returned is that of the first goroutine whose return with an error the group
takes note of. The records `failures` and `reporter` agree with this. -/
theorem chain_returns_wrapped_error {Ty V : Type} (ms : List (Member Ty V))
    (hms : 2 ≤ ms.length) (v : V) (acts : List Action) (s : CallState V)
    (hrun : chainRun ms v acts = some s) :
    Chain (ms.map Transformer.impl) = .ok (.chain (ms.map Transformer.impl)) ∧
      acts.length ≤ chainFuel ms v (chainInit ms) ∧
      (s.finished = false → (s.cancelled = true → ∀ m ∈ ms, m.watchesCtx = true) →
        ∃ a, a ≠ Action.cancel ∧ (chainStep ms v s a).isSome = true) ∧
      (s.finished = true →
        (∃ (i : Nat) (m : Member Ty V) (y : V), ms[i]? = some m ∧
          y ∈ flow (ms.take i) [v] ∧ m.ret y ≠ none) →
        s.err ≠ none) ∧
      (Action.cancel ∉ acts → ∀ x : GoError, s.err = some x →
        ∃ (i : Nat) (m : Member Ty V) (y : V) (e : GoError), ms[i]? = some m ∧
          y ∈ flow (ms.take i) [v] ∧ m.ret y = some e ∧
          x = .errorf "transform failed: " e ∧ x ≠ e ∧
          x.Error = "transform failed: " ++ e.Error) ∧
      (Action.cancel ∉ acts → s.finished = true → ∀ e : GoError,
        (∃ (i : Nat) (m : Member Ty V) (y : V), ms[i]? = some m ∧
          y ∈ flow (ms.take i) [v] ∧ m.ret y = some e) →
        (∀ (i : Nat) (m : Member Ty V) (y : V) (e1 : GoError), ms[i]? = some m →
          y ∈ flow (ms.take i) [v] → m.ret y = some e1 → e1 = e) →
        s.err = some (.errorf "transform failed: " e) ∧ s.err ≠ some e) ∧
      (∀ (pre post : List Action) (i : Nat) (x : GoError) (s0 : CallState V),
        acts = pre ++ Action.report i :: post → Action.cancel ∉ pre →
        chainRun ms v pre = some s0 → s0.err = none →
        s0.pcs[i]? = some (.returned (some x)) →
        s.err = some x ∧ ∃ (m : Member Ty V) (y : V) (e : GoError), ms[i]? = some m ∧
          y ∈ flow (ms.take i) [v] ∧ m.ret y = some e ∧
          x = .errorf "transform failed: " e) ∧
      (∀ (i : Nat) (e : GoError), s.reporter = some i → (i, e) ∈ s.failures →
        s.err = some (.errorf "transform failed: " e) ∧ s.err ≠ some e ∧
          (GoError.errorf "transform failed: " e).Error = "transform failed: " ++ e.Error) ∧
      (Action.cancel ∉ acts → s.failures ≠ [] → s.finished = true →
        ∃ (i : Nat) (e : GoError), s.reporter = some i ∧ (i, e) ∈ s.failures ∧
          s.err = some (.errorf "transform failed: " e)) ∧
      (Action.cancel ∉ acts → s.failures = [] → s.err = none) := by
  have hinv : ChainInv ms s ∧ ErrInv (GoError.errorf "transform failed: ") s :=
    runFrom_invariant (chainStep ms v)
      (fun s => ChainInv ms s ∧ ErrInv (GoError.errorf "transform failed: ") s)
      (fun _ => True)
      (fun s a s1 _ hP hs =>
        ⟨ChainInv_step hP.1 (chainStep_sound ms v s s1 a hs),
          ErrInv_chainStep hP.2 (chainStep_sound ms v s s1 a hs)⟩)
      acts (chainInit ms) s (fun _ _ => trivial) ⟨ChainInv_init ms, ErrInv_chainInit ms _⟩ hrun
  have hlen := runFrom_length_le (chainStep ms v) (fun s => ChainInv ms s) (fun _ => True)
    (chainFuel ms v)
    (fun s a s1 _ hP hs => ChainInv_step hP (chainStep_sound ms v s s1 a hs))
    (fun s a s1 _ hP hs => chainFuel_step hP (chainStep_sound ms v s s1 a hs))
    acts (chainInit ms) s (fun _ _ => trivial) (ChainInv_init ms) hrun
  have hrep : ∀ (i : Nat) (e : GoError), s.reporter = some i → (i, e) ∈ s.failures →
      s.err = some (.errorf "transform failed: " e) := by
    intro i e hi hie
    obtain ⟨_, x, hx, hall⟩ := hinv.2.reported i hi
    rw [hx, hall e hie]
  have hown : Action.cancel ∉ acts → CancelledByGroup s ∧ OwnErrInv s := by
    intro hacts
    exact runFrom_invariant (chainStep ms v) (fun s => CancelledByGroup s ∧ OwnErrInv s)
      (fun a => a ≠ Action.cancel)
      (fun s a s1 ha hP hs => OwnErrInv_chainStep hP.1 hP.2 ha (chainStep_sound ms v s s1 a hs))
      acts (chainInit ms) s (fun a ha h => hacts (h ▸ ha))
      ⟨by simp [CancelledByGroup, chainInit], OwnErrInv_chainInit ms⟩ hrun
  have hne : ms ≠ [] := by
    intro h
    rw [h] at hms
    simp at hms
  have hB := chain_failure_reported ms hne v acts s hrun
  have hA : Action.cancel ∉ acts → ∀ x : GoError, s.err = some x →
      ∃ (i : Nat) (m : Member Ty V) (y : V) (e : GoError), ms[i]? = some m ∧
        y ∈ flow (ms.take i) [v] ∧ m.ret y = some e ∧
        x = .errorf "transform failed: " e ∧ x ≠ e ∧
        x.Error = "transform failed: " ++ e.Error := by
    intro hacts x hx
    obtain ⟨i, e, ⟨m, y, hm, hy, hr, _⟩, hxe⟩ := (chain_origin ms v acts s hacts hrun).kept x hx
    refine ⟨i, m, y, e, hm, hy, hr.symm, hxe, ?_, ?_⟩
    · rw [hxe]
      exact errorf_ne_self _ e
    · rw [hxe]
      rfl
  refine ⟨Chain_of_two _ (by simpa using hms), by omega, ?_, hB, hA, ?_, ?_, ?_, ?_, ?_⟩
  · intro hnf hw
    exact chain_progress v hinv.1 hnf hw
  · intro hacts hfin e hex hall
    obtain ⟨i, m, y, hm, hy, hr⟩ := hex
    have herr := hB hfin ⟨i, m, y, hm, hy, by rw [hr]; simp⟩
    cases hs : s.err with
    | none => exact absurd hs herr
    | some x =>
      obtain ⟨i1, m1, y1, e1, hm1, hy1, hr1, hxe, _, _⟩ := hA hacts x hs
      have he : e1 = e := hall i1 m1 y1 e1 hm1 hy1 hr1
      subst he
      rw [hxe]
      refine ⟨rfl, ?_⟩
      intro h2
      exact errorf_ne_self _ e1 (Option.some.inj h2)
  · intro pre post i x s0 hsplit hpre hrun0 herr0 hi
    subst hsplit
    refine ⟨chain_first_report_kept ms v pre post i x s0 s hrun hrun0 herr0 hi, ?_⟩
    obtain ⟨e, ⟨m, y, hm, hy, hr, _⟩, hxe⟩ :=
      (chain_origin ms v pre s0 hpre hrun0).returned herr0 i x hi
    exact ⟨m, y, e, hm, hy, hr.symm, hxe⟩
  · intro i e hi hie
    have h1 := hrep i e hi hie
    refine ⟨h1, ?_, rfl⟩
    rw [h1]
    intro h2
    exact errorf_ne_self _ e (Option.some.inj h2)
  · intro hacts hne hfin
    have hseen := (hown hacts).2.failedSeen hne
    have herr : s.err ≠ none := by
      rcases hseen with h | ⟨i, x, hi⟩
      · exact h
      · rw [finished_iff] at hfin
        have := hfin _ (List.getElem?_mem hi)
        cases this
    obtain ⟨i, e, hi, hie⟩ := (hown hacts).2.errReporter herr
    exact ⟨i, e, hi, hie, hrep i e hi hie⟩
  · intro hacts hnil
    by_contra herr
    obtain ⟨i, e, _, hie⟩ := (hown hacts).2.errReporter herr
    rw [hnil] at hie
    cases hie

/-- An instance of the amended C6: stage 0 of a chain of two fails with
"boom" after it has sent its value on, and no other failure is possible; the
call ends with the error "transform failed: boom", not with "boom". -/
theorem chain_returns_wrapped_error_witness :
    2 ≤ [exampleMember 0 (some (.val "boom")), exampleMember 0 none].length ∧
      chainRun [exampleMember 0 (some (.val "boom")), exampleMember 0 none] 7
          [.feed, .pass 0, .ret 0, .emit 1, .ret 1, .report 0, .feedClose, .ctxDone 1,
            .report 1] =
        some { feeder := .finished, pcs := [.done, .done], sink := [7],
               err := some (.errorf "transform failed: " (.val "boom")), cancelled := true,
               failures := [(0, .val "boom")], reporter := some 0 } ∧
      (GoError.errorf "transform failed: " (.val "boom")).Error = "transform failed: boom" ∧
      (some (GoError.errorf "transform failed: " (.val "boom")) =
          some (.errorf "transform failed: " (.val "boom")) ∧
        some (GoError.errorf "transform failed: " (.val "boom")) ≠ some (.val "boom")) :=
  ⟨by decide, by decide, by decide,
    (chain_returns_wrapped_error
      [exampleMember 0 (some (.val "boom")), exampleMember 0 none] (by decide) 7
      [.feed, .pass 0, .ret 0, .emit 1, .ret 1, .report 0, .feedClose, .ctxDone 1, .report 1]
      { feeder := .finished, pcs := [.done, .done], sink := [7],
        err := some (.errorf "transform failed: " (.val "boom")), cancelled := true,
        failures := [(0, .val "boom")], reporter := some 0 }
      (by decide)).2.2.2.2.2.1 (by decide) (by decide) (.val "boom")
      ⟨0, exampleMember 0 (some (.val "boom")), 7, rfl, by simp [flow], rfl⟩
      (by
        intro i m y e1 hm _ hr
        rcases i with _ | _ | i
        · simp only [List.getElem?_cons_zero, Option.some.injEq] at hm
          subst hm
          simp only [exampleMember, Option.some.injEq] at hr
          exact hr.symm
        · simp only [List.getElem?_cons_succ, List.getElem?_cons_zero,
            Option.some.injEq] at hm
          subst hm
          simp [exampleMember] at hr
        · simp at hm)⟩

/-- Why the members have to watch the context: in this call of a chain of two
stages, stage 0 sends with a plain `ch <- v` and stage 1 fails on the first
item; stage 0 is then before its second send, which nobody will receive, and
no step of the call is possible: `group.Wait()` never returns. -/
theorem chain_plain_send_blocks :
    chainRun [examplePlain, exampleFailing] 7 [.feed, .pass 0, .ret 1, .report 1, .feedClose] =
      some { feeder := .finished, pcs := [.running [7] none, .done], sink := [],
             err := some (.errorf "transform failed: " (.val "boom")), cancelled := true,
             failures := [(1, .val "boom")], reporter := some 1 } ∧
    CallState.finished
      ({ feeder := .finished, pcs := [.running [7] none, .done], sink := [],
         err := some (.errorf "transform failed: " (.val "boom")), cancelled := true,
         failures := [(1, .val "boom")], reporter := some 1 } : CallState Nat) = false ∧
    ∀ a : Action, chainStep [examplePlain, exampleFailing] 7
      { feeder := .finished, pcs := [.running [7] none, .done], sink := [],
        err := some (.errorf "transform failed: " (.val "boom")), cancelled := true,
        failures := [(1, .val "boom")], reporter := some 1 } a = none := by
  refine ⟨by decide, by decide, ?_⟩
  intro a
  cases a with
  | feed => rfl
  | feedClose => rfl
  | cancel => rfl
  | pass i => rcases i with _ | _ | i <;> rfl
  | emit i => rcases i with _ | _ | i <;> rfl
  | ret i => rcases i with _ | _ | i <;> rfl
  | eof i => rcases i with _ | _ | i <;> rfl
  | ctxDone i => rcases i with _ | _ | i <;> rfl
  | abort i => rcases i with _ | _ | i <;> rfl
  | report i => rcases i with _ | _ | i <;> rfl

/-- C6 as stated fails: in this call of a chain of two stages the only
failure is that of stage 0, whose `Transform` returns the error "boom", and
`chain.Transform` returns another error, "transform failed: boom". -/
theorem chain_error_not_verbatim :
    (chainRun [exampleMember 0 (some (.val "boom")), exampleMember 0 none] 7
        [.feed, .pass 0, .ret 0, .emit 1, .ret 1, .report 0, .feedClose, .ctxDone 1,
          .report 1]).map (fun s => (s.finished, s.failures, s.err)) =
      some (true, [(0, .val "boom")], some (.errorf "transform failed: " (.val "boom"))) ∧
    GoError.errorf "transform failed: " (.val "boom") ≠ .val "boom" :=
  ⟨by decide, by decide⟩

/-! ### The goroutines of parallel.go -/

theorem parallelStep_sound {Ty V : Type} (ms : List (Member Ty V)) (s s1 : CallState V)
    (a : Action) (h : parallelStep ms s a = some s1) : ParallelStep ms s a s1 := by
  cases a with
  | feed => simp [parallelStep] at h
  | feedClose => simp [parallelStep] at h
  | pass i => simp [parallelStep] at h
  | eof i => simp [parallelStep] at h
  | ctxDone i => simp [parallelStep] at h
  | emit i =>
    simp only [parallelStep] at h
    split at h
    · rename_i hi
      cases h
      exact ParallelStep.emit s i _ _ _ hi
    · cases h
  | ret i =>
    simp only [parallelStep] at h
    split at h
    · rename_i hi
      cases h
      exact ParallelStep.retNil s i hi
    · rename_i hi
      cases h
      exact ParallelStep.retErr s i _ hi
    · cases h
  | abort i =>
    simp only [parallelStep] at h
    split at h
    · rename_i hi hm
      split at h
      · rename_i hc
        cases h
        simp only [Bool.and_eq_true] at hc
        exact ParallelStep.abort s i _ _ _ _ hi hm hc.1 hc.2
      · cases h
    · cases h
  | report i =>
    simp only [parallelStep] at h
    split at h
    · rename_i hi
      cases h
      exact ParallelStep.report s i _ hi
    · cases h
  | cancel =>
    simp only [parallelStep] at h
    split at h
    · cases h
    · rename_i hc
      cases h
      exact ParallelStep.cancel s (by simpa using hc)

theorem ParallelInv_init {Ty V : Type} (ms : List (Member Ty V)) (v : V) :
    ParallelInv ms (parallelInit ms v) := by
  refine ⟨by simp [parallelInit], by simp [parallelInit], ?_⟩
  intro i h
  simp only [parallelInit, List.getElem?_map] at h
  cases hm : ms[i]? with
  | none => simp [hm] at h
  | some m => simp [hm] at h

theorem ParallelInv_set {Ty V : Type} {ms : List (Member Ty V)} {s s1 : CallState V}
    (hinv : ParallelInv ms s) (k : Nat) (new : Pc V) (hpcs : s1.pcs = s.pcs.set k new)
    (hnew : new ≠ Pc.idle) (herr : s1.err ≠ none → s1.cancelled = true) :
    ParallelInv ms s1 := by
  refine ⟨by rw [hpcs, List.length_set]; exact hinv.len, herr, ?_⟩
  intro i hi
  rw [hpcs] at hi
  rcases getElem?_set_cases _ _ _ _ _ hi with ⟨_, h2⟩ | ⟨_, h2⟩
  · exact hnew h2.symm
  · exact hinv.noIdle i h2

theorem ParallelInv_step {Ty V : Type} {ms : List (Member Ty V)} {s s1 : CallState V}
    {a : Action} (hinv : ParallelInv ms s) (h : ParallelStep ms s a s1) :
    ParallelInv ms s1 := by
  cases h with
  | emit i x rest r hi => exact ParallelInv_set hinv i _ rfl (by simp) hinv.errCancel
  | retNil i hi => exact ParallelInv_set hinv i _ rfl (by simp) hinv.errCancel
  | retErr i e hi => exact ParallelInv_set hinv i _ rfl (by simp) hinv.errCancel
  | abort i x rest r m hi hm hw hc =>
    exact ParallelInv_set hinv i _ rfl (by simp) hinv.errCancel
  | report i r hi =>
    obtain ⟨hp, _, _, hc2, _⟩ := noteResult_facts s i r hinv.errCancel
    exact ParallelInv_set hinv i _ hp (by simp) hc2
  | cancel hc => exact ⟨hinv.len, fun _ => rfl, hinv.noIdle⟩

theorem sum_map_set {α : Type} (f : α → Nat) (k : Nat) :
    ∀ (l : List α) (old new : α), l[k]? = some old →
      ((l.set k new).map f).sum + f old = (l.map f).sum + f new := by
  induction k with
  | zero =>
    intro l old new hold
    cases l with
    | nil => simp at hold
    | cons a l =>
      simp only [List.getElem?_cons_zero, Option.some.injEq] at hold
      subst hold
      simp only [List.set_cons_zero, List.map_cons, List.sum_cons]
      omega
  | succ k ih =>
    intro l old new hold
    cases l with
    | nil => simp at hold
    | cons a l =>
      simp only [List.getElem?_cons_succ] at hold
      have := ih l old new hold
      simp only [List.set_cons_succ, List.map_cons, List.sum_cons]
      omega

theorem parallelFuel_step {Ty V : Type} {ms : List (Member Ty V)} {s s1 : CallState V}
    {a : Action} (hinv : ParallelInv ms s) (h : ParallelStep ms s a s1) :
    parallelFuel s1 + 1 ≤ parallelFuel s := by
  cases h with
  | emit i x rest r hi =>
    have hw := sum_map_set parallelWork i s.pcs _ (Pc.running rest r) hi
    simp only [parallelFuel, parallelWork, List.length_cons] at hw ⊢
    omega
  | retNil i hi =>
    have hw := sum_map_set parallelWork i s.pcs _ (Pc.returned none) hi
    simp only [parallelFuel, parallelWork, List.length_nil] at hw ⊢
    omega
  | retErr i e hi =>
    have hw := sum_map_set parallelWork i s.pcs _ (Pc.returned (some e)) hi
    simp only [parallelFuel, parallelWork, List.length_nil] at hw ⊢
    omega
  | abort i x rest r m hi hm hw hc =>
    have hw := sum_map_set parallelWork i s.pcs _ (Pc.returned (some GoError.canceled)) hi
    simp only [parallelFuel, parallelWork, List.length_cons] at hw ⊢
    omega
  | report i r hi =>
    have hw := sum_map_set parallelWork i s.pcs _ Pc.done hi
    obtain ⟨hp, _, hc1, -, -⟩ := noteResult_facts s i r hinv.errCancel
    simp only [parallelFuel, parallelWork, hp] at hw ⊢
    have : (if (noteResult s i r).cancelled = true then 0 else 1) ≤
        (if s.cancelled = true then 0 else 1) := by
      by_cases hc : s.cancelled = true
      · simp [hc, hc1 hc]
      · simp only [hc]
        split <;> simp
    omega
  | cancel hc =>
    simp only [parallelFuel, hc]
    simp

theorem parallel_progress {Ty V : Type} {ms : List (Member Ty V)} {s : CallState V}
    (hinv : ParallelInv ms s) (hnf : s.finished = false) :
    ∃ a, a ≠ Action.cancel ∧ (parallelStep ms s a).isSome = true := by
  obtain ⟨i, pc, hi, hpc⟩ := exists_not_done hnf
  cases pc with
  | idle => exact absurd hi (hinv.noIdle i)
  | running p r =>
    cases p with
    | nil =>
      cases r with
      | none => exact ⟨.ret i, by simp, by simp [parallelStep, hi]⟩
      | some e => exact ⟨.ret i, by simp, by simp [parallelStep, hi]⟩
    | cons x rest => exact ⟨.emit i, by simp, by simp [parallelStep, hi]⟩
  | returned r => exact ⟨.report i, by simp, by simp [parallelStep, hi]⟩
  | done => exact absurd rfl hpc

theorem map_pend_set_same {V : Type} (k : Nat) :
    ∀ (pcs : List (Pc V)) (old new : Pc V), pcs[k]? = some old → new.pend = old.pend →
      (pcs.set k new).map Pc.pend = pcs.map Pc.pend := by
  induction k with
  | zero =>
    intro pcs old new hold hp
    cases pcs with
    | nil => simp at hold
    | cons pc pcs =>
      simp only [List.getElem?_cons_zero, Option.some.injEq] at hold
      subst hold
      simp only [List.set_cons_zero, List.map_cons, hp]
  | succ k ih =>
    intro pcs old new hold hp
    cases pcs with
    | nil => simp at hold
    | cons pc pcs =>
      simp only [List.getElem?_cons_succ] at hold
      simp only [List.set_cons_succ, List.map_cons, ih pcs old new hold hp]

theorem flatten_pend_emit {V : Type} (k : Nat) :
    ∀ (pcs : List (Pc V)) (x : V) (rest : List V) (r : Option GoError),
      pcs[k]? = some (Pc.running (x :: rest) r) →
      ((pcs.map Pc.pend).flatten).Perm
        (x :: ((pcs.set k (Pc.running rest r)).map Pc.pend).flatten) := by
  induction k with
  | zero =>
    intro pcs x rest r hk
    cases pcs with
    | nil => simp at hk
    | cons pc pcs =>
      simp only [List.getElem?_cons_zero, Option.some.injEq] at hk
      subst hk
      simp [Pc.pend]
  | succ k ih =>
    intro pcs x rest r hk
    cases pcs with
    | nil => simp at hk
    | cons pc pcs =>
      simp only [List.getElem?_cons_succ] at hk
      have h1 := ih pcs x rest r hk
      simp only [List.set_cons_succ, List.map_cons, List.flatten_cons]
      exact (List.Perm.append_left pc.pend h1).trans List.perm_middle

theorem UnionInv_init {Ty V : Type} (ms : List (Member Ty V)) (v : V)
    (hnofail : ∀ m ∈ ms, m.ret v = none) : UnionInv ms v (parallelInit ms v) := by
  refine ⟨rfl, rfl, ?_, ?_, ?_⟩
  · intro i p r h
    simp only [parallelInit, List.getElem?_map] at h
    cases hm : ms[i]? with
    | none => simp [hm] at h
    | some m =>
      simp only [hm, Option.map_some', Option.some.injEq, Pc.running.injEq] at h
      rw [← h.2]
      exact hnofail m (List.getElem?_mem hm)
  · intro i r h
    simp only [parallelInit, List.getElem?_map] at h
    cases hm : ms[i]? with
    | none => simp [hm] at h
    | some m => simp [hm] at h
  · simp only [parallelInit, List.nil_append, List.map_map]
    exact List.Perm.of_eq rfl

theorem UnionInv_step {Ty V : Type} {ms : List (Member Ty V)} {v : V} {s s1 : CallState V}
    {a : Action} (hinv : UnionInv ms v s) (ha : a ≠ Action.cancel)
    (h : ParallelStep ms s a s1) : UnionInv ms v s1 := by
  obtain ⟨herr, hcan, hclean, hcleanRet, hbal⟩ := hinv
  cases h with
  | emit i x rest r hi =>
    refine ⟨herr, hcan, ?_, ?_, ?_⟩
    · intro k p r2 hk
      rcases getElem?_set_cases _ _ _ _ _ hk with ⟨_, h2⟩ | ⟨_, h2⟩
      · cases h2
        exact hclean i _ _ hi
      · exact hclean k p r2 h2
    · intro k r2 hk
      rcases getElem?_set_cases _ _ _ _ _ hk with ⟨_, h2⟩ | ⟨_, h2⟩
      · cases h2
      · exact hcleanRet k r2 h2
    · have h1 := flatten_pend_emit i s.pcs x rest r hi
      have h2 : (s.sink ++ [x] ++ ((s.pcs.set i (Pc.running rest r)).map Pc.pend).flatten).Perm
          (s.sink ++ (s.pcs.map Pc.pend).flatten) := by
        rw [List.append_assoc, List.singleton_append]
        exact List.Perm.append_left s.sink h1.symm
      exact h2.trans hbal
  | retNil i hi =>
    refine ⟨herr, hcan, ?_, ?_, ?_⟩
    · intro k p r2 hk
      rcases getElem?_set_cases _ _ _ _ _ hk with ⟨_, h2⟩ | ⟨_, h2⟩
      · cases h2
      · exact hclean k p r2 h2
    · intro k r2 hk
      rcases getElem?_set_cases _ _ _ _ _ hk with ⟨_, h2⟩ | ⟨_, h2⟩
      · cases h2
        rfl
      · exact hcleanRet k r2 h2
    · simp only [map_pend_set_same i s.pcs _ (Pc.returned none) hi rfl]
      exact hbal
  | retErr i e hi => exact absurd (hclean i _ _ hi) (by simp)
  | abort i x rest r m hi hm hw hc =>
    rw [hcan] at hc
    cases hc
  | report i r hi =>
    have hr : r = none := hcleanRet i r hi
    subst hr
    refine ⟨herr, hcan, ?_, ?_, ?_⟩
    · intro k p r2 hk
      rcases getElem?_set_cases _ _ _ _ _ hk with ⟨_, h2⟩ | ⟨_, h2⟩
      · cases h2
      · exact hclean k p r2 h2
    · intro k r2 hk
      rcases getElem?_set_cases _ _ _ _ _ hk with ⟨_, h2⟩ | ⟨_, h2⟩
      · cases h2
      · exact hcleanRet k r2 h2
    · simp only [noteResult, map_pend_set_same i s.pcs _ Pc.done hi rfl]
      exact hbal
  | cancel hc => exact absurd rfl ha

theorem parallel_never_failing {Ty V : Type} (ms : List (Member Ty V)) (v : V)
    (hnofail : ∀ m ∈ ms, m.ret v = none) :
    CallEnsures (parallelStep ms) (parallelInit ms v) (fun sink r =>
      sink.Perm (ms.map (fun m => m.outs v)).flatten ∧
        sink.length = (ms.map (fun m => (m.outs v).length)).sum ∧ r = none) := by
  refine ⟨parallelFuel (parallelInit ms v), ?_⟩
  intro acts s hacts hrun
  have hboth : ParallelInv ms s ∧ UnionInv ms v s :=
    runFrom_invariant (parallelStep ms) (fun s => ParallelInv ms s ∧ UnionInv ms v s)
      (fun a => a ≠ Action.cancel)
      (fun s a s1 ha hP hs =>
        ⟨ParallelInv_step hP.1 (parallelStep_sound ms s s1 a hs),
          UnionInv_step hP.2 ha (parallelStep_sound ms s s1 a hs)⟩)
      acts (parallelInit ms v) s (fun a ha h => hacts (h ▸ ha))
      ⟨ParallelInv_init ms v, UnionInv_init ms v hnofail⟩ hrun
  have hlen := runFrom_length_le (parallelStep ms) (fun s => ParallelInv ms s) (fun _ => True)
    parallelFuel
    (fun s a s1 _ hP hs => ParallelInv_step hP (parallelStep_sound ms s s1 a hs))
    (fun s a s1 _ hP hs => parallelFuel_step hP (parallelStep_sound ms s s1 a hs))
    acts (parallelInit ms v) s (fun _ _ => trivial) (ParallelInv_init ms v) hrun
  refine ⟨by omega, ?_, fun hnf => parallel_progress hboth.1 hnf⟩
  intro hfin
  rw [finished_iff] at hfin
  have hfl : (s.pcs.map Pc.pend).flatten = [] := by
    rw [List.flatten_eq_nil_iff]
    intro l hl
    obtain ⟨pc, hpc, rfl⟩ := List.mem_map.1 hl
    rw [hfin pc hpc]
    rfl
  have hbal := hboth.2.balance
  rw [hfl, List.append_nil] at hbal
  refine ⟨hbal, ?_, hboth.2.err⟩
  rw [hbal.length_eq, List.length_flatten, List.map_map]
  rfl

theorem ErrInv_parallelInit {Ty V : Type} (ms : List (Member Ty V)) (v : V)
    (wrap : GoError → GoError) : ErrInv wrap (parallelInit ms v) := by
  refine ⟨?_, ?_, ?_⟩ <;> simp [parallelInit]

theorem OwnErrInv_parallelInit {Ty V : Type} (ms : List (Member Ty V)) (v : V) :
    OwnErrInv (parallelInit ms v) := by
  refine ⟨?_, ?_, ?_⟩
  · intro i x h
    simp only [parallelInit, List.getElem?_map] at h
    cases hm : ms[i]? with
    | none => simp [hm] at h
    | some m => simp [hm] at h
  · simp [parallelInit]
  · simp [parallelInit]

theorem ErrInv_parallelStep {Ty V : Type} {ms : List (Member Ty V)} {s s1 : CallState V}
    {a : Action} (hinv : ErrInv id s) (h : ParallelStep ms s a s1) : ErrInv id s1 := by
  cases h with
  | emit i x rest r hi =>
    exact ErrInv_frame hinv (set_exited_iff _ _ _ _ hi rfl rfl) rfl rfl rfl
  | retNil i hi => exact ErrInv_exit hinv i _ none hi rfl rfl rfl rfl rfl
  | retErr i e hi => exact ErrInv_fail hinv i _ e hi rfl rfl rfl rfl rfl
  | abort i x rest r m hi hm hw hc =>
    exact ErrInv_fail hinv i _ GoError.canceled hi rfl rfl rfl rfl rfl
  | report i r hi => exact ErrInv_report hinv i r hi
  | cancel hc => exact ErrInv_frame hinv (fun _ _ _ => Iff.rfl) rfl rfl rfl

theorem OwnErrInv_parallelStep {Ty V : Type} {ms : List (Member Ty V)} {s s1 : CallState V}
    {a : Action} (hinv : OwnErrInv s) (h : ParallelStep ms s a s1) : OwnErrInv s1 := by
  cases h with
  | emit i x rest r hi =>
    exact OwnErrInv_frame hinv (set_exited_iff _ _ _ _ hi rfl rfl) rfl rfl rfl
  | retNil i hi =>
    exact OwnErrInv_exit hinv i _ none hi rfl rfl (fun h => absurd rfl h) rfl rfl rfl
  | retErr i e hi => exact OwnErrInv_fail hinv i _ e _ hi rfl rfl rfl rfl
  | abort i x rest r m hi hm hw hc =>
    exact OwnErrInv_fail hinv i _ GoError.canceled _ hi rfl rfl rfl rfl
  | report i r hi => exact OwnErrInv_report hinv i r hi
  | cancel hc => exact OwnErrInv_frame hinv (fun _ _ _ => Iff.rfl) rfl rfl rfl

theorem Alarm_parallelStep {Ty V : Type} {ms : List (Member Ty V)} {s s1 : CallState V}
    {a : Action} (h : ParallelStep ms s a s1) (hA : Alarm s) : Alarm s1 := by
  cases h with
  | emit i x rest r hi =>
    exact Alarm_set i _ _ hi rfl id
      (fun h => Or.inr (by rw [← failing_running (x :: rest)]; exact h)) hA
  | retNil i hi =>
    exact Alarm_set i _ _ hi rfl id (fun h => by simp [Pc.failing] at h) hA
  | retErr i e hi => exact Alarm_set i _ _ hi rfl id (fun _ => Or.inr rfl) hA
  | abort i x rest r m hi hm hw hc => exact Alarm_set i _ _ hi rfl id (fun _ => Or.inr rfl) hA
  | report i r hi => exact Alarm_report i r hi hA
  | cancel hc => exact hA

theorem OriginInv_parallelInit {Ty V : Type} (ms : List (Member Ty V)) (v : V) :
    OriginInv (parallelOrigin ms v) id (parallelInit ms v) := by
  refine ⟨?_, ?_, ?_, ?_⟩
  · intro j p r hj
    simp only [parallelInit, List.getElem?_map] at hj
    cases hm : ms[j]? with
    | none => simp [hm] at hj
    | some m =>
      simp only [hm, Option.map_some', Option.some.injEq, Pc.running.injEq] at hj
      exact ⟨m, hm, hj.2.symm⟩
  · simp [parallelInit]
  · intro _ j x hj
    simp only [parallelInit, List.getElem?_map] at hj
    cases hm : ms[j]? with
    | none => simp [hm] at hj
    | some m => simp [hm] at hj
  · simp [parallelInit]

theorem OriginInv_parallelStep {Ty V : Type} {ms : List (Member Ty V)} {v : V}
    {s s1 : CallState V} {a : Action} (hinv : OriginInv (parallelOrigin ms v) id s)
    (ha : a ≠ Action.cancel) (h : ParallelStep ms s a s1) :
    OriginInv (parallelOrigin ms v) id s1 := by
  cases h with
  | emit i x rest r hi =>
    refine OriginInv_set hinv i _ rfl rfl rfl ?_ (fun _ h => by cases h)
    intro p r2 hnew
    cases hnew
    exact hinv.running i (x :: rest) r hi
  | retNil i hi =>
    exact OriginInv_set hinv i _ rfl rfl rfl (fun _ _ h => by cases h) (fun _ h => by cases h)
  | retErr i e hi =>
    refine OriginInv_set hinv i _ rfl rfl rfl (fun _ _ h => by cases h) ?_
    intro x hnew _
    cases hnew
    exact ⟨e, hinv.running i [] (some e) hi, rfl⟩
  | abort i x rest r m hi hm hw hc =>
    refine OriginInv_set hinv i _ rfl rfl rfl (fun _ _ h => by cases h) ?_
    intro _ _ hnone
    exact absurd hnone (hinv.byGroup hc)
  | report i r hi => exact OriginInv_report hinv i r hi
  | cancel hc => exact absurd rfl ha

theorem Alarm_parallelInit {Ty V : Type} (ms : List (Member Ty V)) (v : V)
    (hfail : ∃ m ∈ ms, m.ret v ≠ none) : Alarm (parallelInit ms v) := by
  obtain ⟨m, hm, hret⟩ := hfail
  obtain ⟨i, hi, hget⟩ := List.getElem_of_mem hm
  refine Or.inr ⟨i, .running (m.outs v) (m.ret v), ?_, ?_⟩
  · simp [parallelInit, List.getElem?_map, List.getElem?_eq_getElem hi, hget]
  · cases hr : m.ret v with
    | none => exact absurd hr hret
    | some e => rfl

theorem parallelStep_err_kept {Ty V : Type} {ms : List (Member Ty V)} {s s1 : CallState V}
    {a : Action} (h : ParallelStep ms s a s1) (x : GoError) (hx : s.err = some x) :
    s1.err = some x := by
  cases h with
  | report i r hi => exact noteResult_err_kept s i r x hx
  | _ => exact hx

/-- The error of the first goroutine of a parallel whose return with an error
the group takes note of is the error the call returns. -/
theorem parallel_first_report_kept {Ty V : Type} (ms : List (Member Ty V)) (v : V)
    (pre post : List Action) (i : Nat) (x : GoError) (s0 s : CallState V)
    (hrun : parallelRun ms v (pre ++ Action.report i :: post) = some s)
    (hpre : parallelRun ms v pre = some s0) (herr : s0.err = none)
    (hi : s0.pcs[i]? = some (.returned (some x))) : s.err = some x := by
  obtain ⟨s0a, h1, h2⟩ := runFrom_append (parallelStep ms) pre _ (parallelInit ms v) s hrun
  have h1b : runFrom (parallelStep ms) (parallelInit ms v) pre = some s0 := hpre
  rw [h1b] at h1
  cases h1
  simp only [runFrom, parallelStep, hi] at h2
  exact runFrom_invariant (parallelStep ms) (fun s => s.err = some x) (fun _ => True)
    (fun s a s2 _ hP hs => parallelStep_err_kept (parallelStep_sound ms s s2 a hs) x hP)
    post _ s (fun _ _ => trivial) (noteResult_first s0 i x herr) h2

theorem parallel_origin {Ty V : Type} (ms : List (Member Ty V)) (v : V) (acts : List Action)
    (s : CallState V) (hacts : Action.cancel ∉ acts) (hrun : parallelRun ms v acts = some s) :
    OriginInv (parallelOrigin ms v) id s :=
  runFrom_invariant (parallelStep ms) (fun s => OriginInv (parallelOrigin ms v) id s)
    (fun a => a ≠ Action.cancel)
    (fun s a s1 ha hP hs => OriginInv_parallelStep hP ha (parallelStep_sound ms s s1 a hs))
    acts (parallelInit ms v) s (fun _ ha h => hacts (h ▸ ha)) (OriginInv_parallelInit ms v) hrun

theorem parallel_failure_reported {Ty V : Type} (ms : List (Member Ty V)) (v : V)
    (acts : List Action) (s : CallState V) (hrun : parallelRun ms v acts = some s)
    (hfin : s.finished = true) (hfail : ∃ m ∈ ms, m.ret v ≠ none) : s.err ≠ none :=
  Alarm_finished
    (runFrom_invariant (parallelStep ms) (fun s => Alarm s) (fun _ => True)
      (fun s a s1 _ hP hs => Alarm_parallelStep (parallelStep_sound ms s s1 a hs) hP)
      acts (parallelInit ms v) s (fun _ _ => trivial) (Alarm_parallelInit ms v hfail) hrun)
    hfin

theorem InParallel_of_two {Ty V : Type} [DecidableEq Ty] (ms : List (Member Ty V))
    (h : 2 ≤ ms.length) (ty : Ty) (hty : ∀ m ∈ ms, m.inputType = ty) :
    InParallel (ms.map Transformer.impl) = .ok (.parallel (ms.map Transformer.impl)) := by
  match ms, h, hty with
  | m0 :: m1 :: rest, _, hty =>
    have h0 : (Transformer.impl m0 : Transformer Ty V).InputType = .ok ty := by
      simp [Transformer.InputType, hty m0]
    have hall : ∀ t ∈ (m0 :: m1 :: rest).map Transformer.impl,
        (t : Transformer Ty V).InputType = .ok ty := by
      intro t ht
      obtain ⟨m, hm, rfl⟩ := List.mem_map.1 ht
      simp [Transformer.InputType, hty m hm]
    have hc := InParallel.check_ok ty ((m0 :: m1 :: rest).map Transformer.impl) hall
    simp only [List.map_cons] at hc ⊢
    simp only [InParallel, h0, hc]

/-- C7, amended. Parallel union law: for every parallel composite of two or
more members (of one input type) and every input `v`, under every schedule
the call takes a bounded number of steps and can always take a step until
`group.Wait()` returns. If no member fails on `v` and the context is not
cancelled from outside, the call returns nil and the values written to the
sink are, as a multiset, the union of the members' outputs, `c_1 + ... + c_n`
in number. If some member's `Transform` returns a non-nil error on `v`, the
call returns a non-nil error. Without cancellation from outside, the error
the call returns is, unchanged, the error some member returns on `v`: that of
the first goroutine whose return with an error the group takes note of, the
errors of the other members being dropped; so when every member that fails
on `v` returns `e`, the call returns `e`. The records `failures` and
`reporter` agree with this. -/
theorem parallel_union_and_first_error {Ty V : Type} [DecidableEq Ty]
    (ms : List (Member Ty V)) (hms : 2 ≤ ms.length) (v : V) :
    (∀ ty, (∀ m ∈ ms, m.inputType = ty) →
        InParallel (ms.map Transformer.impl) = .ok (.parallel (ms.map Transformer.impl))) ∧
      ((∀ m ∈ ms, m.ret v = none) →
        CallEnsures (parallelStep ms) (parallelInit ms v) (fun sink r =>
          sink.Perm (ms.map (fun m => m.outs v)).flatten ∧
            sink.length = (ms.map (fun m => (m.outs v).length)).sum ∧ r = none)) ∧
      (∀ (acts : List Action) (s : CallState V), parallelRun ms v acts = some s →
        acts.length ≤ parallelFuel (parallelInit ms v) ∧
        (s.finished = false → ∃ a, a ≠ Action.cancel ∧ (parallelStep ms s a).isSome = true) ∧
        (s.finished = true → (∃ m ∈ ms, m.ret v ≠ none) → s.err ≠ none) ∧
        (Action.cancel ∉ acts → ∀ x : GoError, s.err = some x →
          ∃ (i : Nat) (m : Member Ty V), ms[i]? = some m ∧ m.ret v = some x) ∧
        (Action.cancel ∉ acts → s.finished = true → ∀ e : GoError,
          (∃ m ∈ ms, m.ret v = some e) →
          (∀ m ∈ ms, ∀ e1 : GoError, m.ret v = some e1 → e1 = e) → s.err = some e) ∧
        (∀ (pre post : List Action) (i : Nat) (x : GoError) (s0 : CallState V),
          acts = pre ++ Action.report i :: post → Action.cancel ∉ pre →
          parallelRun ms v pre = some s0 → s0.err = none →
          s0.pcs[i]? = some (.returned (some x)) →
          s.err = some x ∧ ∃ m : Member Ty V, ms[i]? = some m ∧ m.ret v = some x) ∧
        (∀ (i : Nat) (e : GoError), s.reporter = some i → (i, e) ∈ s.failures →
          s.err = some e) ∧
        (s.failures ≠ [] → s.finished = true →
          ∃ (i : Nat) (e : GoError), s.reporter = some i ∧ (i, e) ∈ s.failures ∧
            s.err = some e) ∧
        (s.failures = [] → s.err = none)) := by
  refine ⟨fun ty hty => InParallel_of_two ms hms ty hty, parallel_never_failing ms v, ?_⟩
  intro acts s hrun
  have hinv : ParallelInv ms s ∧ ErrInv id s ∧ OwnErrInv s :=
    runFrom_invariant (parallelStep ms) (fun s => ParallelInv ms s ∧ ErrInv id s ∧ OwnErrInv s)
      (fun _ => True)
      (fun s a s1 _ hP hs =>
        ⟨ParallelInv_step hP.1 (parallelStep_sound ms s s1 a hs),
          ErrInv_parallelStep hP.2.1 (parallelStep_sound ms s s1 a hs),
          OwnErrInv_parallelStep hP.2.2 (parallelStep_sound ms s s1 a hs)⟩)
      acts (parallelInit ms v) s (fun _ _ => trivial)
      ⟨ParallelInv_init ms v, ErrInv_parallelInit ms v id, OwnErrInv_parallelInit ms v⟩ hrun
  have hlen := runFrom_length_le (parallelStep ms) (fun s => ParallelInv ms s) (fun _ => True)
    parallelFuel
    (fun s a s1 _ hP hs => ParallelInv_step hP (parallelStep_sound ms s s1 a hs))
    (fun s a s1 _ hP hs => parallelFuel_step hP (parallelStep_sound ms s s1 a hs))
    acts (parallelInit ms v) s (fun _ _ => trivial) (ParallelInv_init ms v) hrun
  have hrep : ∀ (i : Nat) (e : GoError), s.reporter = some i → (i, e) ∈ s.failures →
      s.err = some e := by
    intro i e hi hie
    obtain ⟨_, x, hx, hall⟩ := hinv.2.1.reported i hi
    rw [hx, hall e hie]
    rfl
  have hB := parallel_failure_reported ms v acts s hrun
  have hA : Action.cancel ∉ acts → ∀ x : GoError, s.err = some x →
      ∃ (i : Nat) (m : Member Ty V), ms[i]? = some m ∧ m.ret v = some x := by
    intro hacts x hx
    obtain ⟨i, e, ⟨m, hm, hr⟩, hxe⟩ := (parallel_origin ms v acts s hacts hrun).kept x hx
    exact ⟨i, m, hm, by rw [← hr, hxe]; rfl⟩
  refine ⟨by omega, fun hnf => parallel_progress hinv.1 hnf, hB, hA, ?_, ?_, hrep, ?_, ?_⟩
  · intro hacts hfin e hex hall
    obtain ⟨m, hm, hr⟩ := hex
    have herr := hB hfin ⟨m, hm, by rw [hr]; simp⟩
    cases hs : s.err with
    | none => exact absurd hs herr
    | some x =>
      obtain ⟨i1, m1, hm1, hr1⟩ := hA hacts x hs
      rw [hall m1 (List.getElem?_mem hm1) x hr1]
  · intro pre post i x s0 hsplit hpre hrun0 herr0 hi
    subst hsplit
    refine ⟨parallel_first_report_kept ms v pre post i x s0 s hrun hrun0 herr0 hi, ?_⟩
    obtain ⟨e, ⟨m, hm, hr⟩, hxe⟩ :=
      (parallel_origin ms v pre s0 hpre hrun0).returned herr0 i x hi
    exact ⟨m, hm, by rw [← hr, hxe]; rfl⟩
  · intro hne hfin
    have herr : s.err ≠ none := by
      rcases hinv.2.2.failedSeen hne with h | ⟨i, x, hi⟩
      · exact h
      · rw [finished_iff] at hfin
        have := hfin _ (List.getElem?_mem hi)
        cases this
    obtain ⟨i, e, hi, hie⟩ := hinv.2.2.errReporter herr
    exact ⟨i, e, hi, hie, hrep i e hi hie⟩
  · intro hnil
    by_contra herr
    obtain ⟨i, e, _, hie⟩ := hinv.2.2.errReporter herr
    rw [hnil] at hie
    cases hie

/-- An instance of the amended C7: two members that send their input once;
when both return nil, this run ends with both values in the sink and nil;
when they fail with "a" and "b" and the group takes note of member 1 first,
the call returns "b", the error of member 1 on the input, and not "a". -/
theorem parallel_union_and_first_error_witness :
    2 ≤ [exampleMember 0 none, exampleMember 0 none].length ∧
      CallEnsures (parallelStep [exampleMember 0 none, exampleMember 0 none])
        (parallelInit [exampleMember 0 none, exampleMember 0 none] 7) (fun sink r =>
          sink.Perm ([exampleMember 0 none, exampleMember 0 none].map
              (fun m => m.outs 7)).flatten ∧
            sink.length = ([exampleMember 0 none, exampleMember 0 none].map
              (fun m => (m.outs 7).length)).sum ∧ r = none) ∧
      (parallelRun [exampleMember 0 none, exampleMember 0 none] 7
          [.emit 1, .emit 0, .ret 0, .ret 1, .report 1, .report 0]).map
        (fun s => (s.finished, s.sink, s.err)) = some (true, [7, 7], none) ∧
      (some (GoError.val "b") = some (GoError.val "b") ∧
        ∃ m : Member Nat Nat,
          [exampleMember 0 (some (.val "a")), exampleMember 0 (some (.val "b"))][1]? = some m ∧
            m.ret 7 = some (.val "b")) :=
  ⟨by decide,
    (parallel_union_and_first_error [exampleMember 0 none, exampleMember 0 none]
      (by decide) 7).2.1 (by decide),
    by decide,
    ((parallel_union_and_first_error
      [exampleMember 0 (some (.val "a")), exampleMember 0 (some (.val "b"))] (by decide) 7).2.2
      [.emit 0, .emit 1, .ret 0, .ret 1, .report 1, .report 0]
      { feeder := .finished, pcs := [.done, .done], sink := [7, 7],
        err := some (.val "b"), cancelled := true,
        failures := [(0, .val "a"), (1, .val "b")], reporter := some 1 }
      (by decide)).2.2.2.2.2.1 [.emit 0, .emit 1, .ret 0, .ret 1] [.report 0] 1 (.val "b")
      { feeder := .finished, pcs := [.returned (some (.val "a")), .returned (some (.val "b"))],
        sink := [7, 7], err := none, cancelled := false,
        failures := [(0, .val "a"), (1, .val "b")], reporter := none }
      rfl (by decide) (by decide) rfl rfl⟩

/-- C7 as stated fails: in this call of a parallel of two members, member 0
returns the non-nil error "a" and member 1 the non-nil error "b"; the group
hears of member 1 first, and `parallel.Transform` returns "b", which is not
the error of member 0. -/
theorem parallel_error_not_every_member :
    (parallelRun [exampleMember 0 (some (.val "a")), exampleMember 0 (some (.val "b"))] 7
        [.emit 0, .emit 1, .ret 0, .ret 1, .report 1, .report 0]).map
        (fun s => (s.finished, s.failures, s.err)) =
      some (true, [(0, .val "a"), (1, .val "b")], some (.val "b")) ∧
    GoError.val "b" ≠ GoError.val "a" :=
  ⟨by decide, by decide⟩

/-! ### The adapters of function.go and struct.go -/

/-- C8. Callable adapter acceptance and rejection: for every function value
`f`, of type `func(ins) outs`, `FromFunction(f)` returns a transformer and a
nil error exactly when `f` has one of the shapes `(T) -> R`,
`(T) -> (R, E)` with `E` implementing `error`, or `(C, T) -> (R, E)` with `C`
implementing `context.Context` and `E` implementing `error`, and then the
transformer's `InputType` is `T`. It returns a nil transformer and a non-nil
error when `f` has zero or more than two parameters, has two parameters whose
first does not implement `context.Context`, takes a context first (followed
by `T`) but has a single result, has two results whose second does not
implement `error`, or has zero or more than two results. -/
theorem FromFunction_accepts_iff {F : Type} (implementsContext implementsError : GoType → Bool)
    (showType : GoType → String) (ins outs : List GoType) (f : F) :
    ((∃ tr, FromFunction implementsContext implementsError showType (.func ins outs) f =
          .ok tr) ↔
        (∃ T R, ins = [T] ∧ outs = [R]) ∨
        (∃ T R E, ins = [T] ∧ outs = [R, E] ∧ implementsError E = true) ∨
        (∃ C T R E, ins = [C, T] ∧ outs = [R, E] ∧ implementsContext C = true ∧
          implementsError E = true)) ∧
      (∀ tr, FromFunction implementsContext implementsError showType (.func ins outs) f =
          .ok tr →
        (∀ T, ins = [T] → tr.InputType = T) ∧ (∀ C T, ins = [C, T] → tr.InputType = T) ∧
          tr.f = f) ∧
      ((ins.length = 0 ∨ 2 < ins.length) →
        ∃ e, FromFunction implementsContext implementsError showType (.func ins outs) f =
          .error e) ∧
      (∀ C T, ins = [C, T] → implementsContext C = false →
        ∃ e, FromFunction implementsContext implementsError showType (.func ins outs) f =
          .error e) ∧
      (∀ C T R, ins = [C, T] → implementsContext C = true → outs = [R] →
        ∃ e, FromFunction implementsContext implementsError showType (.func ins outs) f =
          .error e) ∧
      (∀ R E, outs = [R, E] → implementsError E = false →
        ∃ e, FromFunction implementsContext implementsError showType (.func ins outs) f =
          .error e) ∧
      ((outs.length = 0 ∨ 2 < outs.length) →
        ∃ e, FromFunction implementsContext implementsError showType (.func ins outs) f =
          .error e) := by
  rcases ins with _ | ⟨a, _ | ⟨b, _ | ⟨c, l⟩⟩⟩ <;>
    rcases outs with _ | ⟨x, _ | ⟨y, _ | ⟨z, k⟩⟩⟩ <;>
    simp only [FromFunction] <;>
    (try cases hc : implementsContext a) <;>
    (try cases he : implementsError y) <;>
    simp_all [function.InputType] <;>
    exact ⟨_, _, ⟨rfl, rfl⟩, by assumption⟩

/-- The cases of function_test.go: `func()`, `func(context.Context, int) int`
and `func(int) (int, int)` are rejected; `func(int) int`,
`func(int) (int, error)` and `func(context.Context, int) (int, error)` are
accepted, with input type `int`. -/
theorem FromFunction_examples :
    (∃ e, FromFunction (F := Unit) (fun t => t.kindName == "ctx") (fun t => t.kindName == "err")
      GoType.kindName (.func [] []) () = .error e) ∧
    (∃ e, FromFunction (F := Unit) (fun t => t.kindName == "ctx") (fun t => t.kindName == "err")
      GoType.kindName (.func [.named "context.Context" "ctx", .named "int" "int"]
        [.named "int" "int"]) () = .error e) ∧
    (∃ e, FromFunction (F := Unit) (fun t => t.kindName == "ctx") (fun t => t.kindName == "err")
      GoType.kindName (.func [.named "int" "int"] [.named "int" "int", .named "int" "int"])
        () = .error e) ∧
    (FromFunction (F := Unit) (fun t => t.kindName == "ctx") (fun t => t.kindName == "err")
      GoType.kindName (.func [.named "int" "int"] [.named "int" "int"]) ()).toOption.map
        (fun tr => tr.InputType.kindName) = some "int" ∧
    (FromFunction (F := Unit) (fun t => t.kindName == "ctx") (fun t => t.kindName == "err")
      GoType.kindName (.func [.named "int" "int"]
        [.named "int" "int", .named "error" "err"]) ()).toOption.map
        (fun tr => tr.InputType.kindName) = some "int" ∧
    (FromFunction (F := Unit) (fun t => t.kindName == "ctx") (fun t => t.kindName == "err")
      GoType.kindName (.func [.named "context.Context" "ctx", .named "int" "int"]
        [.named "int" "int", .named "error" "err"]) ()).toOption.map
        (fun tr => tr.InputType.kindName) = some "int" := by
  refine ⟨⟨_, rfl⟩, ⟨_, rfl⟩, ⟨_, rfl⟩, ?_, ?_, ?_⟩ <;> decide

theorem collectFields_sound (ToLower quote : String → String) :
    ∀ (fields : List (StructField GoType)) (i : Nat)
      (sfs0 sfs : String → Option (StructField GoType × Nat)),
      collectFields ToLower quote fields i sfs0 = .ok sfs →
      ∀ (key : String) (sf : StructField GoType) (j : Nat), sfs key = some (sf, j) →
        sfs0 key = some (sf, j) ∨
          ∃ pos, fields[pos]? = some sf ∧ j = i + pos ∧ sf.PkgPath = "" ∧
            GetStructFieldName ToLower sf = key := by
  intro fields
  induction fields with
  | nil =>
    intro i sfs0 sfs h key sf j hk
    simp only [collectFields, Except.ok.injEq] at h
    subst h
    exact Or.inl hk
  | cons f rest ih =>
    intro i sfs0 sfs h key sf j hk
    simp only [collectFields] at h
    split at h
    · rcases ih (i + 1) sfs0 sfs h key sf j hk with h1 | ⟨pos, h1, h2, h3, h4⟩
      · exact Or.inl h1
      · exact Or.inr ⟨pos + 1, by simpa using h1, by omega, h3, h4⟩
    · rename_i hexp
      split at h
      · cases h
      · rcases ih (i + 1) _ sfs h key sf j hk with h1 | ⟨pos, h1, h2, h3, h4⟩
        · split at h1
          · rename_i hkey
            simp only [Option.some.injEq, Prod.mk.injEq] at h1
            obtain ⟨h1a, h1b⟩ := h1
            subst h1a
            exact Or.inr ⟨0, by simp, by omega, by simpa using hexp, hkey.symm⟩
          · exact Or.inl h1
        · exact Or.inr ⟨pos + 1, by simpa using h1, by omega, h3, h4⟩

theorem resolveNames_missing (ToLower quote : String → String) :
    ∀ (names : List String) (sfs : String → Option (StructField GoType × Nat)),
      (∃ n ∈ names, sfs (ToLower n) = none) →
      ∃ e, resolveNames ToLower quote names sfs = .error e := by
  intro names
  induction names with
  | nil =>
    intro sfs h
    simp at h
  | cons name rest ih =>
    intro sfs h
    simp only [resolveNames]
    cases hl : sfs (ToLower name) with
    | none => exact ⟨_, rfl⟩
    | some p =>
      obtain ⟨sf, idx⟩ := p
      have hrest : ∃ n ∈ rest,
          (fun k => if k = ToLower name then none else sfs k) (ToLower n) = none := by
        obtain ⟨n, hn, hnone⟩ := h
        rcases List.mem_cons.1 hn with rfl | hn
        · rw [hl] at hnone
          cases hnone
        · refine ⟨n, hn, ?_⟩
          simp only
          split
          · rfl
          · exact hnone
      obtain ⟨e, he⟩ := ih (fun k => if k = ToLower name then none else sfs k) hrest
      simp only [he]
      exact ⟨_, rfl⟩

theorem resolveNames_twice (ToLower quote : String → String) :
    ∀ (names : List String) (sfs : String → Option (StructField GoType × Nat)),
      (∃ (i j : Nat) (a b : String), i < j ∧ names[i]? = some a ∧ names[j]? = some b ∧
        ToLower a = ToLower b) →
      ∃ e, resolveNames ToLower quote names sfs = .error e := by
  intro names
  induction names with
  | nil =>
    intro sfs h
    obtain ⟨i, j, a, b, _, ha, _⟩ := h
    simp at ha
  | cons name rest ih =>
    intro sfs h
    simp only [resolveNames]
    cases hl : sfs (ToLower name) with
    | none => exact ⟨_, rfl⟩
    | some p =>
      obtain ⟨sf, idx⟩ := p
      obtain ⟨i, j, a, b, hij, ha, hb, hab⟩ := h
      have hrest : ∃ e, resolveNames ToLower quote rest
          (fun k => if k = ToLower name then none else sfs k) = .error e := by
        cases i with
        | zero =>
          simp only [List.getElem?_cons_zero, Option.some.injEq] at ha
          subst ha
          obtain ⟨j2, rfl⟩ : ∃ j2, j = j2 + 1 := ⟨j - 1, by omega⟩
          simp only [List.getElem?_cons_succ] at hb
          apply resolveNames_missing
          exact ⟨b, List.getElem?_mem hb, by simp [hab]⟩
        | succ i2 =>
          obtain ⟨j2, rfl⟩ : ∃ j2, j = j2 + 1 := ⟨j - 1, by omega⟩
          simp only [List.getElem?_cons_succ] at ha hb
          exact ih _ ⟨i2, j2, a, b, by omega, ha, hb, hab⟩
      obtain ⟨e, he⟩ := hrest
      simp only [he]
      exact ⟨_, rfl⟩

theorem NewStruct_error_of_build (ToLower quote : String → String) (T : GoType)
    (ns : List String) (h : ∃ e, buildSubtypeAndIdx ToLower quote T ns = .error e) :
    (∃ e, NewStructExpander ToLower quote T ns = .error e) ∧
      (∃ e, NewStructCollapser ToLower quote T ns = .error e) := by
  obtain ⟨e, he⟩ := h
  simp only [NewStructExpander, NewStructCollapser, he]
  exact ⟨⟨_, rfl⟩, ⟨_, rfl⟩⟩

theorem buildSubtypeAndIdx_error_of_resolve (ToLower quote : String → String)
    (fields : List (StructField GoType)) (ns : List String)
    (h : ∀ sfs, collectFields ToLower quote fields 0 (fun _ => none) = .ok sfs →
      ∃ e, resolveNames ToLower quote ns sfs = .error e) :
    ∃ e, buildSubtypeAndIdx ToLower quote (.struct fields) ns = .error e := by
  simp only [buildSubtypeAndIdx]
  split
  · exact ⟨_, rfl⟩
  · cases hc : collectFields ToLower quote fields 0 (fun _ => none) with
    | error e => exact ⟨_, rfl⟩
    | ok sfs =>
      obtain ⟨e, he⟩ := h sfs hc
      simp only [he]
      exact ⟨_, rfl⟩

/-- C10. Struct adapter construction failures: for every type `T` and name
list `ns`, `NewStructExpander(T, ns)` and `NewStructCollapser(T, ns)` both
return a nil transformer and a non-nil error whenever `ns` is empty, `T` is
not a struct type, some name in `ns` matches (case-insensitively, by field
name or by `hive` tag) no exported field of `T`, or two names in `ns`
resolve to the same field of `T`. -/
theorem NewStruct_construction_fails (ToLower quote : String → String) (T : GoType)
    (ns : List String) :
    (ns = [] →
        (∃ e, NewStructExpander ToLower quote T ns = .error e) ∧
          (∃ e, NewStructCollapser ToLower quote T ns = .error e)) ∧
      ((∀ fields, T ≠ .struct fields) →
        (∃ e, NewStructExpander ToLower quote T ns = .error e) ∧
          (∃ e, NewStructCollapser ToLower quote T ns = .error e)) ∧
      (∀ fields, T = .struct fields →
        (∃ n ∈ ns, ∀ sf ∈ fields, sf.PkgPath = "" → ¬ nameMatches ToLower n sf) →
        (∃ e, NewStructExpander ToLower quote T ns = .error e) ∧
          (∃ e, NewStructCollapser ToLower quote T ns = .error e)) ∧
      (∀ fields, T = .struct fields →
        (∃ (i j : Nat) (a b : String) (sf : StructField GoType), i < j ∧ ns[i]? = some a ∧
          ns[j]? = some b ∧ sf ∈ fields ∧ resolvesTo ToLower a sf ∧ resolvesTo ToLower b sf) →
        (∃ e, NewStructExpander ToLower quote T ns = .error e) ∧
          (∃ e, NewStructCollapser ToLower quote T ns = .error e)) := by
  refine ⟨?_, ?_, ?_, ?_⟩
  · intro hns
    apply NewStruct_error_of_build
    subst hns
    exact ⟨_, rfl⟩
  · intro hT
    apply NewStruct_error_of_build
    simp only [buildSubtypeAndIdx]
    split
    · exact ⟨_, rfl⟩
    · cases T with
      | named name kind => exact ⟨_, rfl⟩
      | func ins outs => exact ⟨_, rfl⟩
      | struct fields => exact absurd rfl (hT fields)
  · intro fields hT hmiss
    subst hT
    apply NewStruct_error_of_build
    apply buildSubtypeAndIdx_error_of_resolve
    intro sfs hc
    apply resolveNames_missing
    obtain ⟨n, hn, hno⟩ := hmiss
    refine ⟨n, hn, ?_⟩
    cases hl : sfs (ToLower n) with
    | none => rfl
    | some p =>
      obtain ⟨sf, j⟩ := p
      rcases collectFields_sound ToLower quote fields 0 _ sfs hc _ sf j hl with
        h1 | ⟨pos, h1, _, h3, h4⟩
      · cases h1
      · exfalso
        apply hno sf (List.getElem?_mem h1) h3
        unfold GetStructFieldName at h4
        cases htag : sf.Tag with
        | none =>
          rw [htag] at h4
          exact Or.inl h4.symm
        | some tag =>
          rw [htag] at h4
          exact Or.inr ⟨tag, htag, h4.symm⟩
  · intro fields hT hdup
    subst hT
    apply NewStruct_error_of_build
    apply buildSubtypeAndIdx_error_of_resolve
    intro sfs _
    apply resolveNames_twice
    obtain ⟨i, j, a, b, sf, hij, ha, hb, _, hra, hrb⟩ := hdup
    exact ⟨i, j, a, b, hij, ha, hb, by rw [← hra.2, ← hrb.2]⟩

/-- The failing cases of struct_test.go on the struct `foo` (C10): no name,
a name that matches no field, the names "i" and "I" that resolve to the same
field; and a type that is not a struct. -/
theorem NewStruct_construction_fails_witness :
    ((∃ e, NewStructExpander lowerAscii id exampleFoo [] = .error e) ∧
        (∃ e, NewStructCollapser lowerAscii id exampleFoo [] = .error e)) ∧
      ((∃ e, NewStructExpander lowerAscii id (.named "int" "int") ["i"] = .error e) ∧
        (∃ e, NewStructCollapser lowerAscii id (.named "int" "int") ["i"] = .error e)) ∧
      ((∃ e, NewStructExpander lowerAscii id exampleFoo ["dont exist"] = .error e) ∧
        (∃ e, NewStructCollapser lowerAscii id exampleFoo ["dont exist"] = .error e)) ∧
      ((∃ e, NewStructExpander lowerAscii id exampleFoo ["i", "I"] = .error e) ∧
        (∃ e, NewStructCollapser lowerAscii id exampleFoo ["i", "I"] = .error e)) :=
  ⟨(NewStruct_construction_fails lowerAscii id exampleFoo []).1 rfl,
    (NewStruct_construction_fails lowerAscii id (.named "int" "int") ["i"]).2.1
      (fun _ h => by cases h),
    (NewStruct_construction_fails lowerAscii id exampleFoo ["dont exist"]).2.2.1 _ rfl
      ⟨"dont exist", by simp, by
        intro sf hsf _
        simp only [List.mem_cons, List.mem_singleton, List.not_mem_nil, or_false] at hsf
        rcases hsf with rfl | rfl | rfl <;>
          simp only [nameMatches, reduceCtorEq, false_and, exists_false, or_false] <;> decide⟩,
    (NewStruct_construction_fails lowerAscii id exampleFoo ["i", "I"]).2.2.2 _ rfl
      ⟨0, 1, "i", "I", ⟨"I", "", none, .named "int" "int"⟩, by decide, rfl, rfl, by simp,
        ⟨rfl, by decide⟩, ⟨rfl, by decide⟩⟩⟩

theorem collectFields_mono (ToLower quote : String → String) :
    ∀ (fields : List (StructField GoType)) (i : Nat)
      (sfs0 sfs : String → Option (StructField GoType × Nat)),
      collectFields ToLower quote fields i sfs0 = .ok sfs →
      ∀ (key : String) (x : StructField GoType × Nat), sfs0 key = some x → sfs key = some x := by
  intro fields
  induction fields with
  | nil =>
    intro i sfs0 sfs h key x hk
    simp only [collectFields, Except.ok.injEq] at h
    subst h
    exact hk
  | cons f rest ih =>
    intro i sfs0 sfs h key x hk
    simp only [collectFields] at h
    split at h
    · exact ih (i + 1) sfs0 sfs h key x hk
    · split at h
      · cases h
      · rename_i hnone
        apply ih (i + 1) _ sfs h key x
        split
        · rename_i hkey
          rw [hkey, hnone] at hk
          cases hk
        · exact hk

theorem collectFields_complete (ToLower quote : String → String) :
    ∀ (fields : List (StructField GoType)) (i : Nat)
      (sfs0 sfs : String → Option (StructField GoType × Nat)),
      collectFields ToLower quote fields i sfs0 = .ok sfs →
      ∀ (pos : Nat) (sf : StructField GoType), fields[pos]? = some sf → sf.PkgPath = "" →
        sfs (GetStructFieldName ToLower sf) = some (sf, i + pos) := by
  intro fields
  induction fields with
  | nil =>
    intro i sfs0 sfs _ pos sf hpos
    simp at hpos
  | cons f rest ih =>
    intro i sfs0 sfs h pos sf hpos hexp
    simp only [collectFields] at h
    split at h
    · rename_i hne
      cases pos with
      | zero =>
        simp only [List.getElem?_cons_zero, Option.some.injEq] at hpos
        subst hpos
        exact absurd hexp hne
      | succ p =>
        simp only [List.getElem?_cons_succ] at hpos
        have := ih (i + 1) sfs0 sfs h p sf hpos hexp
        rw [this]
        congr 2
        omega
    · split at h
      · cases h
      · cases pos with
        | zero =>
          simp only [List.getElem?_cons_zero, Option.some.injEq] at hpos
          subst hpos
          apply collectFields_mono ToLower quote rest (i + 1) _ sfs h
          simp
        | succ p =>
          simp only [List.getElem?_cons_succ] at hpos
          have := ih (i + 1) _ sfs h p sf hpos hexp
          rw [this]
          congr 2
          omega

theorem resolveNames_spec (ToLower quote : String → String) :
    ∀ (names : List String) (sfs : String → Option (StructField GoType × Nat))
      (sfl : List (StructField GoType)) (idx : List Nat),
      resolveNames ToLower quote names sfs = .ok (sfl, idx) →
      idx.length = names.length ∧ sfl.length = names.length ∧
        ∀ (k : Nat) (n : String), names[k]? = some n →
          ∃ sf j, sfs (ToLower n) = some (sf, j) ∧ idx[k]? = some j ∧ sfl[k]? = some sf := by
  intro names
  induction names with
  | nil =>
    intro sfs sfl idx h
    simp only [resolveNames, Except.ok.injEq, Prod.mk.injEq] at h
    obtain ⟨h1, h2⟩ := h
    subst h1 h2
    simp
  | cons name rest ih =>
    intro sfs sfl idx h
    simp only [resolveNames] at h
    cases hl : sfs (ToLower name) with
    | none =>
      rw [hl] at h
      cases h
    | some p =>
      obtain ⟨sf, j⟩ := p
      rw [hl] at h
      simp only at h
      cases hr : resolveNames ToLower quote rest
          (fun k => if k = ToLower name then none else sfs k) with
      | error e =>
        rw [hr] at h
        cases h
      | ok q =>
        obtain ⟨sfl2, idx2⟩ := q
        rw [hr] at h
        simp only [Except.ok.injEq, Prod.mk.injEq] at h
        obtain ⟨h1, h2⟩ := h
        subst h1 h2
        obtain ⟨hl1, hl2, hall⟩ := ih _ sfl2 idx2 hr
        refine ⟨by simp [hl1], by simp [hl2], ?_⟩
        intro k n hk
        cases k with
        | zero =>
          simp only [List.getElem?_cons_zero, Option.some.injEq] at hk
          subst hk
          exact ⟨sf, j, hl, by simp, by simp⟩
        | succ k2 =>
          simp only [List.getElem?_cons_succ] at hk
          obtain ⟨sf2, j2, h3, h4, h5⟩ := hall k2 n hk
          refine ⟨sf2, j2, ?_, by simpa using h4, by simpa using h5⟩
          split at h3
          · cases h3
          · exact h3

theorem copyFields_collapse {Val : Type} (r : List Val) :
    ∀ (idx : List Nat) (i : Nat) (out : List Val), (∀ j ∈ idx, j < r.length) →
      i + idx.length ≤ out.length →
      ∃ out1, copyFields true r idx i out = .ok out1 ∧ out1.length = out.length ∧
        (∀ (k j : Nat), idx[k]? = some j → out1[i + k]? = r[j]?) ∧
        (∀ p, p < i → out1[p]? = out[p]?) := by
  intro idx
  induction idx with
  | nil =>
    intro i out _ _
    exact ⟨out, rfl, rfl, by simp, fun _ _ => rfl⟩
  | cons j rest ih =>
    intro i out hj hlen
    have hjr : j < r.length := hj j (List.mem_cons_self _ _)
    simp only [List.length_cons] at hlen
    have hi : i < out.length := by omega
    obtain ⟨out1, h1, h2, h3, h4⟩ := ih (i + 1) (out.set i r[j])
      (fun j2 hj2 => hj j2 (List.mem_cons_of_mem _ hj2)) (by simp; omega)
    refine ⟨out1, ?_, by simpa using h2, ?_, ?_⟩
    · simp only [copyFields, if_true, List.getElem?_eq_getElem hjr, hi]
      exact h1
    · intro k j2 hk
      cases k with
      | zero =>
        simp only [List.getElem?_cons_zero, Option.some.injEq] at hk
        subst hk
        rw [Nat.add_zero, h4 i (by omega), List.getElem?_set_self hi,
          List.getElem?_eq_getElem hjr]
      | succ k2 =>
        simp only [List.getElem?_cons_succ] at hk
        have := h3 k2 j2 hk
        rw [← this]
        congr 1
        omega
    · intro p hp
      rw [h4 p (by omega), List.getElem?_set_ne (by omega)]

theorem copyFields_expand {Val : Type} (mid : List Val) :
    ∀ (idx : List Nat) (i : Nat) (out : List Val), i + idx.length ≤ mid.length →
      (∀ j ∈ idx, j < out.length) → idx.Nodup →
      ∃ out1, copyFields false mid idx i out = .ok out1 ∧ out1.length = out.length ∧
        (∀ (k j : Nat), idx[k]? = some j → out1[j]? = mid[i + k]?) ∧
        (∀ p, p ∉ idx → out1[p]? = out[p]?) := by
  intro idx
  induction idx with
  | nil =>
    intro i out _ _ _
    exact ⟨out, rfl, rfl, by simp, fun _ _ => rfl⟩
  | cons j rest ih =>
    intro i out hlen hj hnd
    have hjo : j < out.length := hj j (List.mem_cons_self _ _)
    simp only [List.length_cons] at hlen
    have hi : i < mid.length := by omega
    rw [List.nodup_cons] at hnd
    obtain ⟨out1, h1, h2, h3, h4⟩ := ih (i + 1) (out.set j mid[i]) (by omega)
      (fun j2 hj2 => by simpa using hj j2 (List.mem_cons_of_mem _ hj2)) hnd.2
    refine ⟨out1, ?_, by simpa using h2, ?_, ?_⟩
    · simp only [copyFields, Bool.false_eq_true, if_false, List.getElem?_eq_getElem hi, hjo,
        if_true]
      exact h1
    · intro k j2 hk
      cases k with
      | zero =>
        simp only [List.getElem?_cons_zero, Option.some.injEq] at hk
        subst hk
        rw [Nat.add_zero, h4 j hnd.1, List.getElem?_set_self hjo, List.getElem?_eq_getElem hi]
      | succ k2 =>
        simp only [List.getElem?_cons_succ] at hk
        have := h3 k2 j2 hk
        rw [this]
        congr 1
        omega
    · intro p hp
      simp only [List.mem_cons, not_or] at hp
      rw [h4 p hp.2, List.getElem?_set_ne (fun h => hp.1 h.symm)]

theorem buildSubtypeAndIdx_spec (ToLower quote : String → String) (T sub : GoType)
    (ns : List String) (idx : List Nat)
    (h : buildSubtypeAndIdx ToLower quote T ns = .ok (sub, idx)) :
    ∃ fields sfl, T = .struct fields ∧ sub = .struct sfl ∧ sfl.length = idx.length ∧
      (∀ j ∈ idx, j < fields.length) ∧ idx.Nodup ∧
      ∀ (j : Nat) (sf : StructField GoType), fields[j]? = some sf →
        (j ∈ idx ↔ ∃ n ∈ ns, resolvesTo ToLower n sf) := by
  simp only [buildSubtypeAndIdx] at h
  split at h
  · cases h
  · cases T with
    | named name kind => cases h
    | func ins outs => cases h
    | struct fields =>
      simp only at h
      cases hc : collectFields ToLower quote fields 0 (fun _ => none) with
      | error e =>
        rw [hc] at h
        cases h
      | ok sfs =>
        rw [hc] at h
        simp only at h
        cases hr : resolveNames ToLower quote ns sfs with
        | error e =>
          rw [hr] at h
          cases h
        | ok q =>
          obtain ⟨sfl, idx2⟩ := q
          rw [hr] at h
          simp only [Except.ok.injEq, Prod.mk.injEq] at h
          obtain ⟨h1, h2⟩ := h
          subst h1 h2
          obtain ⟨hl1, hl2, hall⟩ := resolveNames_spec ToLower quote ns sfs sfl idx2 hr
          have hsound : ∀ (key : String) (sf : StructField GoType) (j : Nat),
              sfs key = some (sf, j) →
              fields[j]? = some sf ∧ sf.PkgPath = "" ∧ GetStructFieldName ToLower sf = key := by
            intro key sf j hk
            rcases collectFields_sound ToLower quote fields 0 _ sfs hc key sf j hk with
              h1 | ⟨pos, h1, h2, h3, h4⟩
            · cases h1
            · rw [Nat.zero_add] at h2
              subst h2
              exact ⟨h1, h3, h4⟩
          have hname : ∀ (k j : Nat), idx2[k]? = some j →
              ∃ n sf, ns[k]? = some n ∧ sfs (ToLower n) = some (sf, j) := by
            intro k j hk
            have hlt : k < ns.length := by
              rw [← hl1]
              exact (List.getElem?_eq_some_iff.1 hk).1
            obtain ⟨sf, j2, h3, h4, _⟩ := hall k ns[k] (List.getElem?_eq_getElem hlt)
            rw [hk] at h4
            cases h4
            exact ⟨ns[k], sf, List.getElem?_eq_getElem hlt, h3⟩
          refine ⟨fields, sfl, rfl, rfl, by rw [hl1, hl2], ?_, ?_, ?_⟩
          · intro j hj
            obtain ⟨k, hk⟩ := List.getElem?_of_mem hj
            obtain ⟨n, sf, _, h3⟩ := hname k j hk
            exact (List.getElem?_eq_some_iff.1 (hsound _ sf j h3).1).1
          · rw [List.nodup_iff_getElem?_ne_getElem?]
            intro k l hkl hl heq
            have hk2 := List.getElem?_eq_getElem (lt_trans hkl hl)
            have hl3 := List.getElem?_eq_getElem hl
            rw [hk2] at heq
            obtain ⟨a, sfa, ha, hsa⟩ := hname k _ hk2
            obtain ⟨b, sfb, hb, hsb⟩ := hname l _ heq.symm
            obtain ⟨ha1, _, ha3⟩ := hsound _ sfa _ hsa
            obtain ⟨hb1, _, hb3⟩ := hsound _ sfb _ hsb
            rw [ha1] at hb1
            cases hb1
            obtain ⟨e, he⟩ := resolveNames_twice ToLower quote ns sfs
              ⟨k, l, a, b, hkl, ha, hb, by rw [← ha3, ← hb3]⟩
            rw [hr] at he
            cases he
          · intro j sf hj
            constructor
            · intro hmem
              obtain ⟨k, hk⟩ := List.getElem?_of_mem hmem
              obtain ⟨n, sf2, hn, h3⟩ := hname k j hk
              obtain ⟨h4, h5, h6⟩ := hsound _ sf2 j h3
              rw [hj] at h4
              cases h4
              exact ⟨n, List.getElem?_mem hn, h5, h6⟩
            · rintro ⟨n, hn, hexp, hkey⟩
              obtain ⟨k, hk⟩ := List.getElem?_of_mem hn
              obtain ⟨sf2, j2, h3, h4, _⟩ := hall k n hk
              have h5 := collectFields_complete ToLower quote fields 0 _ sfs hc j sf hj hexp
              rw [hkey, h3, Nat.zero_add] at h5
              cases h5
              exact List.getElem?_mem h4

/-- C9. Struct adapters round-trip: for every type `T` and name list `ns` for
which `NewStructCollapser(T, ns)` and `NewStructExpander(T, ns)` both succeed
(`T` is then a struct type) and every value `r` of type `T`, under a context
that is not done the collapser sends one record for `r`, the expander sends
one value for that record, and this value is of type `T`: it has the fields
of `T`, every field some name of `ns` resolves to holds what it holds in `r`,
and every other field holds the zero value of its type. -/
theorem struct_collapse_expand {Val : Type} (ToLower quote : String → String)
    (zero : GoType → Val) (T : GoType) (ns : List String) (c e : structTransformer)
    (hc : NewStructCollapser ToLower quote T ns = .ok c)
    (he : NewStructExpander ToLower quote T ns = .ok e) (r : List Val)
    (hr : ∀ fields, T = .struct fields → r.length = fields.length) (pick : Bool) :
    ∃ fields mid out, T = .struct fields ∧ c.InputType = T ∧ e.InputType = c.outputType ∧
      c.Transform zero none pick r = .ok ([mid], none) ∧
      e.Transform zero none pick mid = .ok ([out], none) ∧
      out.length = fields.length ∧
      ∀ (j : Nat) (sf : StructField GoType), fields[j]? = some sf →
        ((∃ n ∈ ns, resolvesTo ToLower n sf) → out[j]? = r[j]?) ∧
        ((¬ ∃ n ∈ ns, resolvesTo ToLower n sf) → out[j]? = some (zero sf.Typ)) := by
  cases hb : buildSubtypeAndIdx ToLower quote T ns with
  | error err =>
    simp [NewStructCollapser, hb] at hc
  | ok q =>
    obtain ⟨sub, idx⟩ := q
    simp only [NewStructCollapser, hb, Except.ok.injEq] at hc
    simp only [NewStructExpander, hb, Except.ok.injEq] at he
    subst hc he
    obtain ⟨fields, sfl, hT, hsub, hlen, hbound, hnd, hsel⟩ :=
      buildSubtypeAndIdx_spec ToLower quote T sub ns idx hb
    subst hT hsub
    have hrlen := hr fields rfl
    obtain ⟨mid, hm1, hm2, hm3, _⟩ := copyFields_collapse r idx 0
      (zeroValue zero (.struct sfl))
      (fun j hj => by rw [hrlen]; exact hbound j hj) (by simp [zeroValue, hlen])
    have hmidlen : mid.length = idx.length := by
      rw [hm2]
      simp [zeroValue, hlen]
    obtain ⟨out, ho1, ho2, ho3, ho4⟩ := copyFields_expand mid idx 0
      (zeroValue zero (.struct fields)) (by omega)
      (fun j hj => by simpa [zeroValue] using hbound j hj) hnd
    refine ⟨fields, mid, out, rfl, rfl, rfl, ?_, ?_, by simpa [zeroValue] using ho2, ?_⟩
    · simp only [structTransformer.Transform, hm1]
    · simp only [structTransformer.Transform, ho1]
    · intro j sf hj
      constructor
      · intro hres
        obtain ⟨k, hk⟩ := List.getElem?_of_mem ((hsel j sf hj).2 hres)
        rw [ho3 k j hk, Nat.zero_add]
        have := hm3 k j hk
        rw [Nat.zero_add] at this
        exact this
      · intro hres
        have hnot : j ∉ idx := fun hmem => hres ((hsel j sf hj).1 hmem)
        rw [ho4 j hnot]
        simp [zeroValue, hj]

/-- The case of struct_test.go with the names "s" and "B" on the struct
`foo` (C9): both constructors succeed, the record [1, 2, 3] collapses to
[3, 2], which expands to [0, 2, 3]: the fields B and S are kept, the field I
is zero. -/
theorem struct_collapse_expand_witness :
    NewStructCollapser lowerAscii id exampleFoo ["s", "B"] =
        .ok { inputType := exampleFoo, outputType := exampleSub, idx := [2, 1],
              idxReversed := true } ∧
      NewStructExpander lowerAscii id exampleFoo ["s", "B"] =
        .ok { inputType := exampleSub, outputType := exampleFoo, idx := [2, 1],
              idxReversed := false } ∧
      (∀ fields, exampleFoo = .struct fields → [1, 2, 3].length = fields.length) ∧
      (∃ fields mid out, exampleFoo = .struct fields ∧
        structTransformer.Transform (fun _ => 0)
            { inputType := exampleFoo, outputType := exampleSub, idx := [2, 1],
              idxReversed := true } none false [1, 2, 3] = .ok ([mid], none) ∧
        structTransformer.Transform (fun _ => 0)
            { inputType := exampleSub, outputType := exampleFoo, idx := [2, 1],
              idxReversed := false } none false mid = .ok ([out], none) ∧
        out.length = fields.length ∧
        ∀ (j : Nat) (sf : StructField GoType), fields[j]? = some sf →
          ((∃ n ∈ ["s", "B"], resolvesTo lowerAscii n sf) → out[j]? = [1, 2, 3][j]?) ∧
          ((¬ ∃ n ∈ ["s", "B"], resolvesTo lowerAscii n sf) → out[j]? = some 0)) ∧
      structTransformer.Transform (fun _ => 0)
          { inputType := exampleFoo, outputType := exampleSub, idx := [2, 1],
            idxReversed := true } none false [1, 2, 3] = .ok ([[3, 2]], none) ∧
      structTransformer.Transform (fun _ => 0)
          { inputType := exampleSub, outputType := exampleFoo, idx := [2, 1],
            idxReversed := false } none false [3, 2] = .ok ([[0, 2, 3]], none) := by
  have hr : ∀ fields, exampleFoo = .struct fields → [1, 2, 3].length = fields.length := by
    intro fields hf
    simp only [exampleFoo, GoType.struct.injEq] at hf
    rw [← hf]
    rfl
  refine ⟨rfl, rfl, hr, ?_, rfl, rfl⟩
  obtain ⟨fields, mid, out, h1, _, _, h4, h5, h6, h7⟩ :=
    struct_collapse_expand lowerAscii id (fun _ => (0 : Nat)) exampleFoo ["s", "B"]
      { inputType := exampleFoo, outputType := exampleSub, idx := [2, 1], idxReversed := true }
      { inputType := exampleSub, outputType := exampleFoo, idx := [2, 1], idxReversed := false }
      rfl rfl [1, 2, 3] hr false
  exact ⟨fields, mid, out, h1, h4, h5, h6, h7⟩

/-! ### What function.Transform does at call time (function.go) -/

theorem FromFunction_fields {F : Type} (implementsContext implementsError : GoType → Bool)
    (showType : GoType → String) (t : GoType) (f : F) (tr : function F)
    (h : FromFunction implementsContext implementsError showType t f = .ok tr) :
    tr.f = f ∧ ∃ ins outs, t = .func ins outs ∧
      ((tr.outputError = false ∧ ∃ r, outs = [r]) ∨
        (tr.outputError = true ∧ ∃ r e, outs = [r, e] ∧ implementsError e = true)) := by
  unfold FromFunction at h
  split at h
  · rename_i ins outs
    refine ⟨?_, ins, outs, rfl, ?_⟩
    all_goals
      simp only at h
      repeat' split at h
      all_goals (cases h <;> simp_all <;> exact ⟨_, _, ⟨rfl, rfl⟩, by assumption⟩)
  · cases h

/-- For a function value `f` that `FromFunction` accepts, whose second result,
when it has one, is of a type that has a nil, and every input `v` on which
the call of `f` returns: when `f` has an error result and yields the non-nil
error `e`, `Transform` returns `e` and sends nothing, whatever the state of
the context; when `f` yields a nil error or has no error result, and the
context is not done, `Transform` sends `f`'s first result, and nothing else,
and returns nil. -/
theorem function_Transform_of_nillable {V : Type}
    (implementsContext implementsError : GoType → Bool) (showType : GoType → String)
    (f : Callable V) (tr : function (Callable V))
    (hbuilt : FromFunction implementsContext implementsError showType f.typ f = .ok tr)
    (hnil : ∀ e, f.typ.Out 1 = some e → e.nillable = true)
    (ctxErr : Option GoError) (pick : Bool) (v : V) (first : V) (second : Option GoError)
    (hcall : f.Call (if tr.inputContext then [.ctx ctxErr, .value v] else [.value v]) =
      .ok (first, second)) :
    (∀ e, tr.outputError = true → second = some e →
      tr.Transform ctxErr pick v = .ok ([], some e)) ∧
    ((second = none ∨ tr.outputError = false) → ctxErr = none →
      tr.Transform ctxErr pick v = .ok ([first], none)) := by
  obtain ⟨hf, ins, outs, htyp, hshape⟩ :=
    FromFunction_fields implementsContext implementsError showType f.typ f tr hbuilt
  have hcall2 : tr.f.Call (if tr.inputContext then [.ctx ctxErr, .value v] else [.value v]) =
      .ok (first, second) := by
    rw [hf]
    exact hcall
  rcases hshape with ⟨hout, _⟩ | ⟨hout, r, e, houts, _⟩
  · refine ⟨fun e h => ?_, fun _ hctx => ?_⟩
    · rw [hout] at h
      cases h
    · subst hctx
      simp [function.Transform, hcall2, hout]
  · have hOut : tr.f.typ.Out 1 = some e := by
      rw [hf, htyp, houts]
      rfl
    have hn : e.nillable = true := hnil e (by rw [← hf]; exact hOut)
    refine ⟨fun x _ hx => ?_, fun hsec hctx => ?_⟩
    · subst hx
      simp [function.Transform, hcall2, hout, hOut, IsNil, hn]
    · rcases hsec with hsec | hsec
      · subst hsec
        subst hctx
        simp [function.Transform, hcall2, hout, hOut, IsNil, hn]
      · rw [hout] at hsec
        cases hsec

/-- The cases `square` on 2, `root` on 25 and `root` on -25 of
function_test.go, `root` returning its input here: the first two send one
value and return nil, the third returns the error of `root` and sends
nothing; and a context that is done can win the `select`. -/
theorem function_Transform_examples :
    (FromFunction exampleImplementsContext exampleImplementsError GoType.kindName
      exampleSquare.typ exampleSquare).toOption.map (fun tr => tr.Transform none false 2) =
        some (.ok ([4], none)) ∧
    (FromFunction exampleImplementsContext exampleImplementsError GoType.kindName
      exampleRoot.typ exampleRoot).toOption.map (fun tr => tr.Transform none false 25) =
        some (.ok ([25], none)) ∧
    (FromFunction exampleImplementsContext exampleImplementsError GoType.kindName
      exampleRoot.typ exampleRoot).toOption.map (fun tr => tr.Transform none false (-25)) =
        some (.ok ([], some (.val "negative x"))) ∧
    (FromFunction exampleImplementsContext exampleImplementsError GoType.kindName
      exampleRoot.typ exampleRoot).toOption.map
        (fun tr => tr.Transform (some .canceled) true 25) =
        some (.ok ([], some .canceled)) :=
  ⟨rfl, rfl, rfl, rfl⟩

/-- C11. Callable adapter call-time behaviour, at a function value on which
the code breaks it: `FromFunction` accepts
`func(x int) (int, syscall.Errno)`, whose second result implements `error`,
as a function with an error result; on the input 7 the function yields a
non-nil error; and `Transform`, whatever the state of the context, neither
returns that error nor returns at all: `out[1].IsNil()` (function.go:36)
panics, `syscall.Errno` being of a kind that has no nil. -/
theorem function_Transform_panics_without_nil :
    ∃ tr : function (Callable Int),
      FromFunction exampleImplementsContext exampleImplementsError GoType.kindName
        exampleErrno.typ exampleErrno = .ok tr ∧
      tr.outputError = true ∧
      exampleErrno.Call [.value 7] = .ok (7, some (.val "no such file or directory")) ∧
      ∀ (ctxErr : Option GoError) (pick : Bool),
        tr.Transform ctxErr pick 7 =
          .error "reflect: call of reflect.Value.IsNil on uintptr Value" :=
  ⟨_, rfl, rfl, rfl, fun _ _ => rfl⟩

/-! ### Blocking operations and the cancellation of the context (chain.go) -/

/-- A step taken while the feeder has not sent its value and stage 0 has
left its loop leaves the feeder where it is, before `ch <- v` (chain.go:39),
and stage 0 out of its loop. -/
theorem feeder_blocked_step {Ty V : Type} {ms : List (Member Ty V)} {v : V}
    {s s1 : CallState V} {a : Action} (h : ChainStep ms v s a s1)
    (hf : s.feeder = .toSend) (h0 : s.exitedAt 0) :
    s1.feeder = .toSend ∧ s1.exitedAt 0 := by
  cases h with
  | feed m hf2 hidle hm => exact absurd h0 (not_exitedAt_of_idle hidle)
  | feedClose hf2 =>
    rw [hf] at hf2
    cases hf2
  | pass i x rest r m hi hj hm =>
    refine ⟨hf, ?_⟩
    have hmid : CallState.exitedAt { s with pcs := s.pcs.set i (.running rest r) } 0 :=
      exitedAt_set s _ i _ _ hi rfl (fun h => absurd h (not_exitedAt_of_running hi)) 0 h0
    have hj2 : (s.pcs.set i (Pc.running rest r))[i + 1]? = some .idle := by
      rw [List.getElem?_set_ne (by omega)]
      exact hj
    exact exitedAt_set { s with pcs := s.pcs.set i (.running rest r) } _ (i + 1) _ _ hj2 rfl
      (fun h => absurd h (not_exitedAt_of_idle hj2)) 0 hmid
  | emit i x rest r hi hlast =>
    exact ⟨hf, exitedAt_set s _ i _ _ hi rfl
      (fun h => absurd h (not_exitedAt_of_running hi)) 0 h0⟩
  | retNil i hi =>
    exact ⟨hf, exitedAt_set s _ i _ _ hi rfl
      (fun h => absurd h (not_exitedAt_of_running hi)) 0 h0⟩
  | retErr i e hi =>
    exact ⟨hf, exitedAt_set s _ i _ _ hi rfl
      (fun h => absurd h (not_exitedAt_of_running hi)) 0 h0⟩
  | eof i hi hc =>
    exact ⟨hf, exitedAt_set s _ i _ _ hi rfl (fun _ => Or.inl ⟨_, rfl⟩) 0 h0⟩
  | ctxDone i hi hc =>
    exact ⟨hf, exitedAt_set s _ i _ _ hi rfl (fun _ => Or.inl ⟨_, rfl⟩) 0 h0⟩
  | abort i x rest r m hi hm hw hc =>
    exact ⟨hf, exitedAt_set s _ i _ _ hi rfl (fun _ => Or.inl ⟨_, rfl⟩) 0 h0⟩
  | report i r hi =>
    obtain ⟨hp, hfe⟩ := noteResult_pcs_feeder s i r
    exact ⟨by rw [hfe]; exact hf, exitedAt_set s _ i _ _ hi hp (fun _ => Or.inr rfl) 0 h0⟩
  | cancel hc => exact ⟨hf, h0⟩

/-- Once stage 0 has left its loop while the feeder has not sent its value,
the feeder stays before `ch <- v` (chain.go:39) under every schedule, steps
of cancellation included: no step of the call can move it. -/
theorem feeder_blocked_forever {Ty V : Type} (ms : List (Member Ty V)) (v : V)
    (s : CallState V) (hf : s.feeder = .toSend) (h0 : s.exitedAt 0) (acts : List Action)
    (s1 : CallState V) (hrun : runFrom (chainStep ms v) s acts = some s1) :
    s1.feeder = .toSend ∧ s1.exitedAt 0 :=
  runFrom_invariant (chainStep ms v) (fun s => s.feeder = .toSend ∧ s.exitedAt 0)
    (fun _ => True)
    (fun s a s2 _ hP hs => feeder_blocked_step (chainStep_sound ms v s s2 a hs) hP.1 hP.2)
    acts s s1 (fun _ _ => trivial) ⟨hf, h0⟩ hrun

/-- In the `select` of `transformOne` (chain.go:64) the receive is waited for
together with `<-ctx.Done()`: a stage that waits there can leave as soon as
the context is done, whatever the state of its input. -/
theorem stage_select_watches_context {Ty V : Type} (ms : List (Member Ty V)) (v : V)
    (s : CallState V) (i : Nat) (hidle : s.pcs[i]? = some Pc.idle)
    (hc : s.cancelled = true) :
    chainStep ms v s (.ctxDone i) =
      some { s with pcs := s.pcs.set i (.returned (some .canceled)) } := by
  simp [chainStep, hidle, hc]

/-- C12. Cancellation at every suspension point, at a call on which the code
breaks it: in a call of `chain.Transform` on a chain of two stages, when the
context is cancelled before stage 0 has received the input and both stages
take `<-ctx.Done()` in their `select`, the call returns `context.Canceled`
with nothing sent to the sink while the task that feeds the input is still
before its send `ch <- v` (chain.go:39); that send is not a combined wait:
in the state reached no step at all is possible, so the feeding task stays
blocked for ever after the context is done. -/
theorem chain_feeder_blocked_after_cancel :
    chainRun [exampleMember 0 none, exampleMember 0 none] 7
        [.cancel, .ctxDone 0, .report 0, .ctxDone 1, .report 1] =
      some { feeder := .toSend, pcs := [.done, .done], sink := [], err := some .canceled,
             cancelled := true, failures := [], reporter := some 0 } ∧
    CallState.finished
      ({ feeder := .toSend, pcs := [.done, .done], sink := [], err := some .canceled,
         cancelled := true, failures := [], reporter := some 0 } : CallState Nat) = true ∧
    (∀ a : Action, chainStep [exampleMember 0 none, exampleMember 0 none] 7
      { feeder := .toSend, pcs := [.done, .done], sink := [], err := some .canceled,
        cancelled := true, failures := [], reporter := some 0 } a = none) ∧
    ∀ (acts : List Action) (s1 : CallState Nat),
      runFrom (chainStep [exampleMember 0 none, exampleMember 0 none] 7)
        { feeder := .toSend, pcs := [.done, .done], sink := [], err := some .canceled,
          cancelled := true, failures := [], reporter := some 0 } acts = some s1 →
      s1.feeder = .toSend := by
  refine ⟨by decide, by decide, ?_, ?_⟩
  · intro a
    cases a with
    | feed => rfl
    | feedClose => rfl
    | cancel => rfl
    | pass i => rcases i with _ | _ | i <;> rfl
    | emit i => rcases i with _ | _ | i <;> rfl
    | ret i => rcases i with _ | _ | i <;> rfl
    | eof i => rcases i with _ | _ | i <;> rfl
    | ctxDone i => rcases i with _ | _ | i <;> rfl
    | abort i => rcases i with _ | _ | i <;> rfl
    | report i => rcases i with _ | _ | i <;> rfl
  · intro acts s1 hrun
    exact (feeder_blocked_forever [exampleMember 0 none, exampleMember 0 none] 7
      { feeder := .toSend, pcs := [.done, .done], sink := [], err := some .canceled,
        cancelled := true, failures := [], reporter := some 0 } rfl (Or.inr rfl) acts s1 hrun).1

end Transform
